import Mathlib

/-!
# IouAccuracyLayer (`src/caffe/layers/iou_accuracy_layer.cpp`)

A shallow embedding of `IouAccuracyLayer<Dtype>::Reshape` and
`IouAccuracyLayer<Dtype>::Forward_cpu`, and theorems about them.

Modelling conventions.

* `Dtype` is the element type of a blob.  It carries the IEEE special values
  (`pinf`, `ninf`, `nan`) next to the finite values, which are exact rationals:
  rounding is not modelled, division by zero and the propagation of NaN are.
* `const Dtype*` / `Dtype*` buffers are maps from the flat offset to the element.
* `vector<int>` is `List Nat`; `v[c]` is `getD c 0`, `v[c]++` is `bump v c`.
  The counters never go below zero and a blob holds at most `INT_MAX` elements,
  so the `int` counters are unbounded naturals here.
* `CHECK_EQ` aborts the call: `Reshape` returns the layer state reached at the
  abort together with the message of the failed check.
-/

namespace IouAccuracy

/-! ## Dtype -/

/-- Blob element: a finite value, an infinity or NaN. -/
inductive Dtype where
  | fin (q : ℚ)
  | pinf
  | ninf
  | nan
  deriving DecidableEq

namespace Dtype

/-- The C++ comparison `a > b` on floating point values (false when either is NaN). -/
def gt : Dtype → Dtype → Bool
  | fin a, fin b => decide (b < a)
  | pinf, fin _ => true
  | pinf, ninf => true
  | fin _, ninf => true
  | _, _ => false

/-- The conversion `(float)k` of a counter. -/
def cast (k : Nat) : Dtype := fin (k : ℚ)

/-- Floating point addition `a + b`. -/
def add : Dtype → Dtype → Dtype
  | fin a, fin b => fin (a + b)
  | nan, _ => nan
  | _, nan => nan
  | pinf, ninf => nan
  | ninf, pinf => nan
  | pinf, _ => pinf
  | _, pinf => pinf
  | ninf, _ => ninf
  | _, ninf => ninf

/-- Floating point division `a / b`; a zero divisor is the positive zero
that the conversion of the integer `0` gives. -/
def div : Dtype → Dtype → Dtype
  | nan, _ => nan
  | _, nan => nan
  | fin a, fin b =>
    if b = 0 then (if a = 0 then nan else if 0 < a then pinf else ninf)
    else fin (a / b)
  | fin _, pinf => fin 0
  | fin _, ninf => fin 0
  | pinf, fin b => if 0 ≤ b then pinf else ninf
  | ninf, fin b => if 0 ≤ b then ninf else pinf
  | pinf, pinf => nan
  | pinf, ninf => nan
  | ninf, pinf => nan
  | ninf, ninf => nan

/-- A value is a finite number in the closed interval from 0 to 1. -/
def inUnit : Dtype → Prop
  | fin q => 0 ≤ q ∧ q ≤ 1
  | _ => False

end Dtype

/-- Value of `#define GTHRESH 0.33f`: the binary32 number nearest to 0.33. -/
def GTHRESH : Dtype := Dtype.fin (11072963 / 33554432)

/-- Value of `#define PTHRESH 0.08f`: the binary32 number nearest to 0.08. -/
def PTHRESH : Dtype := Dtype.fin (5368709 / 67108864)

/-! ## Blobs and the layer -/

/-- A blob: its shape and its `cpu_data` buffer. -/
structure Blob where
  shape_ : List Nat
  cpu_data : Nat → Dtype

namespace Blob

/-- Extent of one axis, `shape(index)`. -/
def shape (b : Blob) (index : Nat) : Nat := b.shape_.getD index 0

/-- Number of elements, `count()`. -/
def count (b : Blob) : Nat := b.shape_.prod

/-- Set the shape, `Reshape(shape)`; the buffer is not tracked across a reshape. -/
def Reshape (b : Blob) (shape : List Nat) : Blob := { b with shape_ := shape }

end Blob

/-- Fields of `accuracy_param` that `LayerSetUp` reads. -/
structure AccuracyParameter where
  top_k : Nat
  has_ignore_label : Bool
  ignore_label : Int

/-- Member variables of the layer. -/
structure IouAccuracyLayer where
  layer_param_ : AccuracyParameter
  top_k_ : Nat
  has_ignore_label_ : Bool
  ignore_label_ : Int
  nums_buffer_ : Blob

/-- The `top` vector: `top[0]`, and `top[1]` when `top.size() > 1`. -/
structure Top where
  top0 : Blob
  top1 : Option Blob

/-- `LayerSetUp`: copy the configuration into the members. -/
def LayerSetUp (self : IouAccuracyLayer) : IouAccuracyLayer :=
  let s1 := { self with top_k_ := self.layer_param_.top_k }
  let s2 := { s1 with has_ignore_label_ := s1.layer_param_.has_ignore_label }
  if s2.has_ignore_label_ then
    { s2 with ignore_label_ := s2.layer_param_.ignore_label }
  else s2

/-- `Reshape`: the four `CHECK_EQ` in order, then the reshapes of the outputs.
Returns the state at the end (or at the failed check) and the failure message, if any. -/
def Reshape (self : IouAccuracyLayer) (bottom0 bottom1 : Blob) (top : Top) :
    (IouAccuracyLayer × Top) × Option String :=
  let top_shape : List Nat := []
  if bottom0.shape 0 ≠ bottom1.shape 0 then
    ((self, top), some "bottom blobs must have same N")
  else if bottom0.shape 1 ≠ bottom1.shape 1 then
    ((self, top), some "bottom blobs must have same C")
  else if bottom0.shape 2 ≠ bottom1.shape 2 then
    ((self, top), some "bottom blobs must have same H")
  else if bottom0.shape 3 ≠ bottom1.shape 3 then
    ((self, top), some "bottom blobs must have same W")
  else
    let t0 := top.top0.Reshape top_shape
    match top.top1 with
    | none => ((self, { top with top0 := t0 }), none)
    | some t1 =>
      let top_shape_per_class : List Nat := [bottom0.shape 1]
      ((({ self with nums_buffer_ := self.nums_buffer_.Reshape top_shape_per_class }),
        { top0 := t0, top1 := some (t1.Reshape top_shape_per_class) }), none)

/-! ## Forward_cpu -/

/-- The statement `v[c]++` on a `vector<int>`. -/
def bump (v : List Nat) (c : Nat) : List Nat := v.set c (v.getD c 0 + 1)

/-- `caffe_set(N, alpha, Y)`: `Y[i] = alpha` for `i < N`. -/
def caffe_set (N : Nat) (alpha : Dtype) (Y : Nat → Dtype) : Nat → Dtype :=
  fun i => if i < N then alpha else Y i

/-- The local variables of `Forward_cpu` that the scan updates. -/
structure Locals where
  expected : List Nat
  tp : List Nat
  fp : List Nat
  fn : List Nat
  tr : List Nat
  nz : Nat
  no : Nat

/-- Body of the first loop over the classes (lines 68-76) at batch `i`, position `j`. -/
def labelStep (bottom_label : Nat → Dtype) (num_labels inner_num i j : Nat)
    (s : Locals) (c : Nat) : Locals :=
  let e := bottom_label ((i * num_labels + c) * inner_num + j)
  let s1 := if Dtype.gt e (Dtype.fin 0) then { s with nz := s.nz + 1, tr := bump s.tr c } else s
  let s2 := { s1 with expected := s1.expected.set c (if Dtype.gt e GTHRESH then 1 else 0) }
  if s2.expected.getD c 0 ≠ 0 then { s2 with no := s2.no + 1 } else s2

/-- Body of the second loop over the classes (lines 78-87). -/
def scoreStep (bottom_data : Nat → Dtype) (num_labels inner_num i j : Nat)
    (s : Locals) (c : Nat) : Locals :=
  let p : Nat := if Dtype.gt (bottom_data ((i * num_labels + c) * inner_num + j)) PTHRESH then 1 else 0
  if s.expected.getD c 0 > 0 then
    if p > 0 then { s with tp := bump s.tp c } else { s with fn := bump s.fn c }
  else if p > 0 then { s with fp := bump s.fp c }
  else s

/-- Body of the loop over the positions `j` (lines 66-88). -/
def positionStep (bottom_data bottom_label : Nat → Dtype) (num_labels inner_num i : Nat)
    (s : Locals) (j : Nat) : Locals :=
  let s0 := { s with nz := 0, no := 0 }
  let s1 := (List.range num_labels).foldl (labelStep bottom_label num_labels inner_num i j) s0
  if s1.nz = num_labels ∨ s1.no > 0 then
    (List.range num_labels).foldl (scoreStep bottom_data num_labels inner_num i j) s1
  else s1

/-- Body of the loop over the batch `i` (lines 64-90). -/
def batchStep (bottom_data bottom_label : Nat → Dtype) (num_labels inner_num : Nat)
    (s : Locals) (i : Nat) : Locals :=
  (List.range inner_num).foldl (positionStep bottom_data bottom_label num_labels inner_num i) s

/-- Lines 50-90: the declarations of the locals and the scan of the two blobs. -/
def scan (bottom0 bottom1 : Blob) : Locals :=
  let bottom_data := bottom0.cpu_data
  let bottom_label := bottom1.cpu_data
  let outer_num := bottom0.shape 0
  let inner_num := bottom0.shape 2 * bottom0.shape 3
  let num_labels := bottom0.shape 1
  let s : Locals :=
    { expected := List.replicate num_labels 0
      tp := List.replicate num_labels 0
      fp := List.replicate num_labels 0
      fn := List.replicate num_labels 0
      tr := List.replicate num_labels 0
      nz := 0
      no := 0 }
  (List.range outer_num).foldl (batchStep bottom_data bottom_label num_labels inner_num) s

/-- The expression `(float)tp[c]/(float)(tp[c]+fp[c]+fn[c])`. -/
def iou (s : Locals) (c : Nat) : Dtype :=
  Dtype.div (Dtype.cast (s.tp.getD c 0))
    (Dtype.cast (s.tp.getD c 0 + s.fp.getD c 0 + s.fn.getD c 0))

/-- Body of the loop of lines 94-99 on the pair `(valid, accuracy)`. -/
def accStep (s : Locals) (va : Nat × Dtype) (c : Nat) : Nat × Dtype :=
  if s.tr.getD c 0 > 0 then (va.1 + 1, Dtype.add va.2 (iou s c)) else va

/-- Lines 92-99: `valid` and `accuracy` after the loop over the classes. -/
def accumulate (s : Locals) (num_labels : Nat) : Nat × Dtype :=
  (List.range num_labels).foldl (accStep s) (0, Dtype.fin 0)

/-- Body of the loop of lines 104-107 writing `top[1]`. -/
def perClassStep (s : Locals) (data : Nat → Dtype) (i : Nat) : Nat → Dtype :=
  Function.update data i (if s.tr.getD i 0 > 0 then iou s i else Dtype.fin 1)

/-- `Forward_cpu`: the new layer state and the new `top` blobs. -/
def Forward_cpu (self : IouAccuracyLayer) (bottom0 bottom1 : Blob) (top : Top) :
    IouAccuracyLayer × Top :=
  let num_labels := bottom0.shape 1
  let self1 : IouAccuracyLayer :=
    match top.top1 with
    | none => self
    | some _ =>
      { self with nums_buffer_ :=
          { self.nums_buffer_ with
            cpu_data := caffe_set self.nums_buffer_.count (Dtype.fin 0) self.nums_buffer_.cpu_data } }
  let top1a : Option Blob :=
    top.top1.map (fun t => { t with cpu_data := caffe_set t.count (Dtype.fin 0) t.cpu_data })
  let s := scan bottom0 bottom1
  let va := accumulate s num_labels
  let t0 : Blob :=
    { top.top0 with
      cpu_data := Function.update top.top0.cpu_data 0 (Dtype.div va.2 (Dtype.cast va.1)) }
  let top1b : Option Blob :=
    top1a.map (fun t =>
      { t with cpu_data := (List.range t.count).foldl (perClassStep s) t.cpu_data })
  (self1, { top0 := t0, top1 := top1b })

/-- The scalar output `top[0]->cpu_data()[0]` after `Forward_cpu`. -/
def scalarOut (self : IouAccuracyLayer) (bottom0 bottom1 : Blob) (top : Top) : Dtype :=
  (Forward_cpu self bottom0 bottom1 top).2.top0.cpu_data 0

/-! ## Reference definitions of the counters -/

/-- Element `[n, c, p]` of a blob laid out as N x C x (H*W), `p` the spatial position. -/
def Blob.elem (b : Blob) (n c p : Nat) : Dtype :=
  b.cpu_data ((n * b.shape 1 + c) * (b.shape 2 * b.shape 3) + p)

/-- The (batch, spatial position) pairs of a blob. -/
def positions (b : Blob) : Finset (Nat × Nat) :=
  Finset.range (b.shape 0) ×ˢ Finset.range (b.shape 2 * b.shape 3)

/-- The label of class `c` at position `(n, p)` is strictly positive. -/
def isPresent (L : Blob) (n c p : Nat) : Bool := Dtype.gt (L.elem n c p) (Dtype.fin 0)

/-- The label of class `c` at position `(n, p)` is strictly above `GTHRESH`. -/
def isExpected (L : Blob) (n c p : Nat) : Bool := Dtype.gt (L.elem n c p) GTHRESH

/-- The prediction of class `c` at position `(n, p)` is strictly above `PTHRESH`. -/
def isPredicted (P : Blob) (n c p : Nat) : Bool := Dtype.gt (P.elem n c p) PTHRESH

/-- Number of classes with a strictly positive label at position `(n, p)`. -/
def nzRef (L : Blob) (n p : Nat) : Nat :=
  ((Finset.range (L.shape 1)).filter (fun c => isPresent L n c p = true)).card

/-- Number of classes with a label above `GTHRESH` at position `(n, p)`. -/
def noRef (L : Blob) (n p : Nat) : Nat :=
  ((Finset.range (L.shape 1)).filter (fun c => isExpected L n c p = true)).card

/-- A position is scored when every class has a positive label there or some
class has a label above `GTHRESH` there. -/
def isScored (L : Blob) (n p : Nat) : Bool :=
  decide (nzRef L n p = L.shape 1 ∨ ∃ c ∈ Finset.range (L.shape 1), isExpected L n c p = true)

/-- Number of positions with a strictly positive label of class `c`. -/
def presentCountRef (L : Blob) (c : Nat) : Nat :=
  ((positions L).filter (fun np => isPresent L np.1 c np.2 = true)).card

/-- Number of scored positions where class `c` is expected and predicted. -/
def truePositiveRef (P L : Blob) (c : Nat) : Nat :=
  ((positions L).filter (fun np => isScored L np.1 np.2 = true ∧
    isExpected L np.1 c np.2 = true ∧ isPredicted P np.1 c np.2 = true)).card

/-- Number of scored positions where class `c` is expected and not predicted. -/
def falseNegativeRef (P L : Blob) (c : Nat) : Nat :=
  ((positions L).filter (fun np => isScored L np.1 np.2 = true ∧
    isExpected L np.1 c np.2 = true ∧ ¬ isPredicted P np.1 c np.2 = true)).card

/-- Number of scored positions where class `c` is not expected and predicted. -/
def falsePositiveRef (P L : Blob) (c : Nat) : Nat :=
  ((positions L).filter (fun np => isScored L np.1 np.2 = true ∧
    ¬ isExpected L np.1 c np.2 = true ∧ isPredicted P np.1 c np.2 = true)).card

/-- The sum `0.0f + x0 + x1 + ...` taken from left to right. -/
def Dtype.sum (xs : List Dtype) : Dtype := xs.foldl Dtype.add (Dtype.fin 0)

/-- The classes with at least one strictly positive label, in increasing order. -/
def presentClassesRef (L : Blob) : List Nat :=
  (List.range (L.shape 1)).filter (fun c => decide (presentCountRef L c > 0))

/-- The reference denominator TP + FP + FN of class `c`. -/
def denomRef (P L : Blob) (c : Nat) : Nat :=
  truePositiveRef P L c + falsePositiveRef P L c + falseNegativeRef P L c

/-- The per-class value TP / (TP + FP + FN) from the reference counts. -/
def iouRef (P L : Blob) (c : Nat) : Dtype :=
  Dtype.div (Dtype.cast (truePositiveRef P L c)) (Dtype.cast (denomRef P L c))

/-- The mean over the present classes of the per-class values. -/
def meanIouRef (P L : Blob) : Dtype :=
  Dtype.div (Dtype.sum ((presentClassesRef L).map (iouRef P L)))
    (Dtype.cast (presentClassesRef L).length)

/-- The per-class output `top[1]->cpu_data()` after `Forward_cpu`, entry `c`. -/
def perClassOut (self : IouAccuracyLayer) (bottom0 bottom1 : Blob) (top : Top) (c : Nat) :
    Option Dtype :=
  (Forward_cpu self bottom0 bottom1 top).2.top1.map (fun t => t.cpu_data c)

/-! ## Concrete inputs -/

/-- A blob of finite values given by the list of its elements in memory order. -/
def blobOf (shape : List Nat) (xs : List ℚ) : Blob :=
  { shape_ := shape, cpu_data := fun k => Dtype.fin (xs.getD k 0) }

/-- A layer after `LayerSetUp` with the default configuration and a stale buffer. -/
def layer0 : IouAccuracyLayer :=
  { layer_param_ := { top_k := 1, has_ignore_label := false, ignore_label := 0 }
    top_k_ := 1
    has_ignore_label_ := false
    ignore_label_ := 0
    nums_buffer_ := { shape_ := [2], cpu_data := fun _ => Dtype.nan } }

/-- Both outputs requested, shaped for two classes, with stale contents. -/
def top2 : Top :=
  { top0 := { shape_ := [], cpu_data := fun _ => Dtype.nan }
    top1 := some { shape_ := [2], cpu_data := fun _ => Dtype.nan } }

/-- Scenario of the specification: one position, two classes, prediction (0.5, 0.01). -/
def predA : Blob := blobOf [1, 2, 1, 1] [1 / 2, 1 / 100]

/-- Scenario of the specification: labels (0.5, 0.0). -/
def labelA : Blob := blobOf [1, 2, 1, 1] [1 / 2, 0]

/-- Labels (0.25, 0.0): class 0 is present, the position is not scored. -/
def labelB : Blob := blobOf [1, 2, 1, 1] [1 / 4, 0]

/-- Prediction (0.0, 0.5). -/
def predC : Blob := blobOf [1, 2, 1, 1] [0, 1 / 2]

/-- Labels (0.25, 0.5): both classes present, only class 1 expected. -/
def labelC : Blob := blobOf [1, 2, 1, 1] [1 / 4, 1 / 2]

/-- Labels of a blob with three classes, (0.5, 0.0, 0.0). -/
def labelWide : Blob := blobOf [1, 3, 1, 1] [1 / 2, 0, 0]

/-- The locals at the start of the scan (lines 55-59) for two classes. -/
def locals2 : Locals :=
  { expected := [0, 0], tp := [0, 0], fp := [0, 0], fn := [0, 0], tr := [0, 0], nz := 0, no := 0 }

/-- Every counter vector has one entry per class. -/
def WF (num_labels : Nat) (s : Locals) : Prop :=
  s.expected.length = num_labels ∧ s.tp.length = num_labels ∧ s.fp.length = num_labels ∧
  s.fn.length = num_labels ∧ s.tr.length = num_labels

/-- Labels (0.0, 0.0): no class is present. -/
def labelZero : Blob := blobOf [1, 2, 1, 1] [0, 0]

/-- The local `valid` after the loop of lines 94-99. -/
def validOut (bottom0 bottom1 : Blob) : Nat :=
  (accumulate (scan bottom0 bottom1) (bottom0.shape 1)).1

/-- The local `accuracy` after the loop of lines 94-99, before the division. -/
def accuracyOut (bottom0 bottom1 : Blob) : Dtype :=
  (accumulate (scan bottom0 bottom1) (bottom0.shape 1)).2

/-- Number of positions, scored or not, with a label of class `c` above `GTHRESH`. -/
def expectedCountRef (L : Blob) (c : Nat) : Nat :=
  ((positions L).filter (fun np => isExpected L np.1 c np.2 = true)).card

/-- The flat offset `(i*num_labels + c)*inner_num + j` of lines 69 and 79. -/
def offset (num_labels inner_num i c j : Nat) : Nat := (i * num_labels + c) * inner_num + j

/-- Largest value of a 32-bit `int`. -/
def INT_MAX : Nat := 2147483647

/-- The value a 32-bit two's complement `int` holds when the exact result is `x`. -/
def wrap32 (x : Nat) : Int :=
  if x % 4294967296 < 2147483648 then ((x % 4294967296 : Nat) : Int)
  else ((x % 4294967296 : Nat) : Int) - 4294967296

/-- The locals of the scan after `m` complete passes of the batch loop followed by the
first `j` positions of batch `m`. -/
def scanPrefix (bottom0 bottom1 : Blob) (m j : Nat) : Locals :=
  let bottom_data := bottom0.cpu_data
  let bottom_label := bottom1.cpu_data
  let inner_num := bottom0.shape 2 * bottom0.shape 3
  let num_labels := bottom0.shape 1
  let s : Locals :=
    { expected := List.replicate num_labels 0
      tp := List.replicate num_labels 0
      fp := List.replicate num_labels 0
      fn := List.replicate num_labels 0
      tr := List.replicate num_labels 0
      nz := 0
      no := 0 }
  (List.range j).foldl (positionStep bottom_data bottom_label num_labels inner_num m)
    ((List.range m).foldl (batchStep bottom_data bottom_label num_labels inner_num) s)

/-! ## Forward_cpu with checked accesses

The same statements as `Forward_cpu`, where every read or write of a blob buffer or of a
`vector<int>` first checks its index against the size and yields `none` when it is out
of range. -/

/-- Checked read `cpu_data()[k]`: defined when `k` is below `count()`. -/
def Blob.read (b : Blob) (k : Nat) : Option Dtype :=
  if k < b.count then some (b.cpu_data k) else none

/-- Checked write `mutable_cpu_data()[k] = v`: defined when `k` is below `count()`. -/
def Blob.write (b : Blob) (k : Nat) (v : Dtype) : Option Blob :=
  if k < b.count then some { b with cpu_data := Function.update b.cpu_data k v } else none

/-- Checked read `v[c]` of a `vector<int>`. -/
def vecGet (v : List Nat) (c : Nat) : Option Nat :=
  if c < v.length then some (v.getD c 0) else none

/-- Checked write `v[c] = x` of a `vector<int>`. -/
def vecSet (v : List Nat) (c x : Nat) : Option (List Nat) :=
  if c < v.length then some (v.set c x) else none

/-- Checked `v[c]++`. -/
def bumpChk (v : List Nat) (c : Nat) : Option (List Nat) := do
  let t ← vecGet v c
  vecSet v c (t + 1)

/-- Body of the first class loop (lines 68-76) with checked accesses. -/
def labelStepChk (bottom1 : Blob) (num_labels inner_num i j : Nat) (s : Locals) (c : Nat) :
    Option Locals := do
  let e ← bottom1.read ((i * num_labels + c) * inner_num + j)
  let s1 ← if Dtype.gt e (Dtype.fin 0) then do
      let tr2 ← bumpChk s.tr c
      pure { s with nz := s.nz + 1, tr := tr2 }
    else pure s
  let ex ← vecSet s1.expected c (if Dtype.gt e GTHRESH then 1 else 0)
  let s2 : Locals := { s1 with expected := ex }
  let x ← vecGet s2.expected c
  if x ≠ 0 then pure { s2 with no := s2.no + 1 } else pure s2

/-- Body of the second class loop (lines 78-87) with checked accesses. -/
def scoreStepChk (bottom0 : Blob) (num_labels inner_num i j : Nat) (s : Locals) (c : Nat) :
    Option Locals := do
  let d ← bottom0.read ((i * num_labels + c) * inner_num + j)
  let p : Nat := if Dtype.gt d PTHRESH then 1 else 0
  let x ← vecGet s.expected c
  if x > 0 then
    if p > 0 then do
      let v ← bumpChk s.tp c
      pure { s with tp := v }
    else do
      let v ← bumpChk s.fn c
      pure { s with fn := v }
  else if p > 0 then do
    let v ← bumpChk s.fp c
    pure { s with fp := v }
  else pure s

/-- Body of the position loop (lines 66-88) with checked accesses. -/
def positionStepChk (bottom0 bottom1 : Blob) (num_labels inner_num i : Nat)
    (s : Locals) (j : Nat) : Option Locals := do
  let s0 : Locals := { s with nz := 0, no := 0 }
  let s1 ← (List.range num_labels).foldlM (labelStepChk bottom1 num_labels inner_num i j) s0
  if s1.nz = num_labels ∨ s1.no > 0 then
    (List.range num_labels).foldlM (scoreStepChk bottom0 num_labels inner_num i j) s1
  else pure s1

/-- Body of the batch loop (lines 64-90) with checked accesses. -/
def batchStepChk (bottom0 bottom1 : Blob) (num_labels inner_num : Nat)
    (s : Locals) (i : Nat) : Option Locals :=
  (List.range inner_num).foldlM (positionStepChk bottom0 bottom1 num_labels inner_num i) s

/-- Lines 50-90 with checked accesses. -/
def scanChk (bottom0 bottom1 : Blob) : Option Locals :=
  let outer_num := bottom0.shape 0
  let inner_num := bottom0.shape 2 * bottom0.shape 3
  let num_labels := bottom0.shape 1
  let s : Locals :=
    { expected := List.replicate num_labels 0
      tp := List.replicate num_labels 0
      fp := List.replicate num_labels 0
      fn := List.replicate num_labels 0
      tr := List.replicate num_labels 0
      nz := 0
      no := 0 }
  (List.range outer_num).foldlM (batchStepChk bottom0 bottom1 num_labels inner_num) s

/-- The expression `(float)tp[c]/(float)(tp[c]+fp[c]+fn[c])` with checked accesses. -/
def iouChk (s : Locals) (c : Nat) : Option Dtype := do
  let a ← vecGet s.tp c
  let b ← vecGet s.fp c
  let d ← vecGet s.fn c
  pure (Dtype.div (Dtype.cast a) (Dtype.cast (a + b + d)))

/-- Body of the loop of lines 94-99 with checked accesses. -/
def accStepChk (s : Locals) (va : Nat × Dtype) (c : Nat) : Option (Nat × Dtype) := do
  let t ← vecGet s.tr c
  if t > 0 then do
    let q ← iouChk s c
    pure (va.1 + 1, Dtype.add va.2 q)
  else pure va

/-- Body of the loop of lines 104-107 with checked accesses. -/
def perClassStepChk (s : Locals) (t : Blob) (i : Nat) : Option Blob := do
  let x ← vecGet s.tr i
  let v ← if x > 0 then iouChk s i else pure (Dtype.fin 1)
  t.write i v

/-- `Forward_cpu` with checked accesses: `none` when some access is out of range. -/
def Forward_cpu_chk (self : IouAccuracyLayer) (bottom0 bottom1 : Blob) (top : Top) :
    Option (IouAccuracyLayer × Top) := do
  let num_labels := bottom0.shape 1
  let self1 : IouAccuracyLayer :=
    match top.top1 with
    | none => self
    | some _ =>
      { self with nums_buffer_ :=
          { self.nums_buffer_ with
            cpu_data := caffe_set self.nums_buffer_.count (Dtype.fin 0) self.nums_buffer_.cpu_data } }
  let top1a : Option Blob :=
    top.top1.map (fun t => { t with cpu_data := caffe_set t.count (Dtype.fin 0) t.cpu_data })
  let s ← scanChk bottom0 bottom1
  let va ← (List.range num_labels).foldlM (accStepChk s) (0, Dtype.fin 0)
  let t0 ← top.top0.write 0 (Dtype.div va.2 (Dtype.cast va.1))
  let top1b ← match top1a with
    | none => pure none
    | some t => do
      let t2 ← (List.range t.count).foldlM (perClassStepChk s) t
      pure (some t2)
  pure (self1, { top0 := t0, top1 := top1b })

/-- A label blob with a single class, too small for a prediction with two classes. -/
def labelSmall : Blob := blobOf [1, 1, 1, 1] [1 / 2]

/-- The blob `B` is the blob `A` with its (batch, position) pairs moved by `σ`: the
element of class `c` at `(n, p)` in `B` is that of class `c` at `σ (n, p)` in `A`. -/
def IsPermuted (σ : Nat × Nat → Nat × Nat) (A B : Blob) : Prop :=
  B.shape_ = A.shape_ ∧
  ∀ n c p, n < A.shape 0 → c < A.shape 1 → p < A.shape 2 * A.shape 3 →
    B.elem n c p = A.elem (σ (n, p)).1 c (σ (n, p)).2

/-- Exchange of the two batch items of a blob with two batch items. -/
def swapBatch (np : Nat × Nat) : Nat × Nat := (1 - np.1, np.2)

/-- Two batch items, one class, one position: predictions (0.5, 0.0). -/
def predS : Blob := blobOf [2, 1, 1, 1] [1 / 2, 0]

/-- Two batch items, one class, one position: labels (0.5, 0.25). -/
def labelS : Blob := blobOf [2, 1, 1, 1] [1 / 2, 1 / 4]

/-- The blob `predS` with its batch items exchanged. -/
def predS2 : Blob := blobOf [2, 1, 1, 1] [0, 1 / 2]

/-- The blob `labelS` with its batch items exchanged. -/
def labelS2 : Blob := blobOf [2, 1, 1, 1] [1 / 4, 1 / 2]

/-! ## Lemmas on the counter vectors -/

theorem length_bump (v : List Nat) (c : Nat) : (bump v c).length = v.length := by
  simp [bump]

theorem getD_set_nat (v : List Nat) (c k x : Nat) :
    (v.set c x).getD k 0 = if k = c ∧ c < v.length then x else v.getD k 0 := by
  simp only [List.getD_eq_getElem?_getD, List.getElem?_set]
  by_cases h : c = k
  · subst h
    by_cases h2 : c < v.length
    · simp [h2]
    · simp [h2, List.getElem?_eq_none (Nat.le_of_not_lt h2)]
  · have : ¬ k = c := fun e => h e.symm
    simp [h, this]

theorem getD_bump (v : List Nat) (c k : Nat) :
    (bump v c).getD k 0 = if k = c ∧ c < v.length then v.getD c 0 + 1 else v.getD k 0 := by
  unfold bump
  exact getD_set_nat v c k _

/-- One pass of the first class loop, in closed form. -/
theorem labelStep_eq (Lb : Nat → Dtype) (C inner i j : Nat) (s : Locals) (c : Nat)
    (hE : c < s.expected.length) :
    labelStep Lb C inner i j s c =
      { expected := s.expected.set c
          (if Dtype.gt (Lb ((i * C + c) * inner + j)) GTHRESH then 1 else 0)
        tp := s.tp
        fp := s.fp
        fn := s.fn
        tr := if Dtype.gt (Lb ((i * C + c) * inner + j)) (Dtype.fin 0) then bump s.tr c else s.tr
        nz := if Dtype.gt (Lb ((i * C + c) * inner + j)) (Dtype.fin 0) then s.nz + 1 else s.nz
        no := if Dtype.gt (Lb ((i * C + c) * inner + j)) GTHRESH then s.no + 1 else s.no } := by
  unfold labelStep
  by_cases h1 : Dtype.gt (Lb ((i * C + c) * inner + j)) (Dtype.fin 0) = true <;>
  by_cases h2 : Dtype.gt (Lb ((i * C + c) * inner + j)) GTHRESH = true <;>
  simp [h1, h2, getD_set_nat, hE]

theorem card_filter_range_succ (q : Nat → Prop) [DecidablePred q] (m : Nat) :
    ((Finset.range (m + 1)).filter q).card
      = ((Finset.range m).filter q).card + (if q m then 1 else 0) := by
  rw [Finset.range_succ, Finset.filter_insert]
  by_cases h : q m
  · rw [if_pos h, if_pos h, Finset.card_insert_of_not_mem]
    simp
  · rw [if_neg h, if_neg h]
    simp

/-- The first class loop (lines 68-76) after `m` classes. -/
theorem labelLoop_spec (Lb : Nat → Dtype) (C inner i j : Nat) (s : Locals)
    (hE : s.expected.length = C) (hT : s.tr.length = C) (m : Nat) (hm : m ≤ C) :
    ((List.range m).foldl (labelStep Lb C inner i j) s).tp = s.tp ∧
    ((List.range m).foldl (labelStep Lb C inner i j) s).fp = s.fp ∧
    ((List.range m).foldl (labelStep Lb C inner i j) s).fn = s.fn ∧
    ((List.range m).foldl (labelStep Lb C inner i j) s).expected.length = C ∧
    ((List.range m).foldl (labelStep Lb C inner i j) s).tr.length = C ∧
    (∀ k, ((List.range m).foldl (labelStep Lb C inner i j) s).tr.getD k 0
      = s.tr.getD k 0 +
        (if k < m ∧ Dtype.gt (Lb ((i * C + k) * inner + j)) (Dtype.fin 0) = true then 1 else 0)) ∧
    (∀ k, ((List.range m).foldl (labelStep Lb C inner i j) s).expected.getD k 0
      = if k < m then (if Dtype.gt (Lb ((i * C + k) * inner + j)) GTHRESH = true then 1 else 0)
        else s.expected.getD k 0) ∧
    ((List.range m).foldl (labelStep Lb C inner i j) s).nz
      = s.nz + ((Finset.range m).filter
          (fun k => Dtype.gt (Lb ((i * C + k) * inner + j)) (Dtype.fin 0) = true)).card ∧
    ((List.range m).foldl (labelStep Lb C inner i j) s).no
      = s.no + ((Finset.range m).filter
          (fun k => Dtype.gt (Lb ((i * C + k) * inner + j)) GTHRESH = true)).card := by
  induction m with
  | zero => simp [hE, hT]
  | succ m ih =>
    obtain ⟨h1, h2, h3, h4, h5, h6, h7, h8, h9⟩ := ih (Nat.le_of_succ_le hm)
    have hlt : m < C := hm
    rw [List.range_succ, List.foldl_append]
    simp only [List.foldl_cons, List.foldl_nil]
    rw [labelStep_eq Lb C inner i j _ m (by rw [h4]; exact hlt)]
    refine ⟨h1, h2, h3, ?_, ?_, ?_, ?_, ?_, ?_⟩
    · simp [h4]
    · by_cases hp : Dtype.gt (Lb ((i * C + m) * inner + j)) (Dtype.fin 0) = true
      · simp [hp, length_bump, h5]
      · simp [hp, h5]
    · intro k
      by_cases hp : Dtype.gt (Lb ((i * C + m) * inner + j)) (Dtype.fin 0) = true
      · simp only [hp, if_true]
        rw [getD_bump, h5]
        by_cases hk : k = m
        · subst hk
          rw [if_pos ⟨rfl, hlt⟩, h6 k]
          simp [hp]
        · rw [if_neg (fun h => hk h.1), h6 k]
          have : k < m + 1 ↔ k < m := by omega
          simp only [this]
      · rw [if_neg hp, h6 k]
        by_cases hk : k = m
        · subst hk
          simp [hp]
        · have : k < m + 1 ↔ k < m := by omega
          simp only [this]
    · intro k
      simp only []
      rw [getD_set_nat, h4]
      by_cases hk : k = m
      · subst hk
        simp [hlt]
      · rw [if_neg (fun h => hk h.1), h7 k]
        have : k < m + 1 ↔ k < m := by omega
        simp only [this]
    · simp only []
      rw [card_filter_range_succ, h8]
      by_cases hp : Dtype.gt (Lb ((i * C + m) * inner + j)) (Dtype.fin 0) = true
      · simp [hp]; omega
      · simp [hp]
    · simp only []
      rw [card_filter_range_succ, h9]
      by_cases hp : Dtype.gt (Lb ((i * C + m) * inner + j)) GTHRESH = true
      · simp [hp]; omega
      · simp [hp]

/-- Adding the conditional increment of class `m` to a vector that already
holds the conditional increments of the classes below `m`. -/
theorem getD_cond_bump (v w : List Nat) (m : Nat) (g : Nat → Prop) [DecidablePred g]
    (hlen : m < v.length)
    (hv : ∀ k, v.getD k 0 = w.getD k 0 + (if k < m ∧ g k then 1 else 0)) (k : Nat) :
    (if g m then bump v m else v).getD k 0
      = w.getD k 0 + (if k < m + 1 ∧ g k then 1 else 0) := by
  by_cases hg : g m
  · rw [if_pos hg, getD_bump]
    by_cases hk : k = m
    · subst hk
      rw [if_pos ⟨rfl, hlen⟩, hv k]
      simp [hg]
    · rw [if_neg (fun h => hk h.1), hv k]
      have : k < m + 1 ↔ k < m := by omega
      simp only [this]
  · rw [if_neg hg, hv k]
    by_cases hk : k = m
    · subst hk
      simp [hg]
    · have : k < m + 1 ↔ k < m := by omega
      simp only [this]

/-- One pass of the second class loop, in closed form. -/
theorem scoreStep_eq (D : Nat → Dtype) (C inner i j : Nat) (s : Locals) (c : Nat) :
    scoreStep D C inner i j s c =
      { s with
        tp := if s.expected.getD c 0 > 0 ∧ Dtype.gt (D ((i * C + c) * inner + j)) PTHRESH = true
              then bump s.tp c else s.tp
        fn := if s.expected.getD c 0 > 0 ∧ ¬ Dtype.gt (D ((i * C + c) * inner + j)) PTHRESH = true
              then bump s.fn c else s.fn
        fp := if ¬ s.expected.getD c 0 > 0 ∧ Dtype.gt (D ((i * C + c) * inner + j)) PTHRESH = true
              then bump s.fp c else s.fp } := by
  unfold scoreStep
  generalize s.expected.getD c 0 = x
  by_cases h1 : x > 0 <;>
  by_cases h2 : Dtype.gt (D ((i * C + c) * inner + j)) PTHRESH = true <;>
  simp [h1, h2]

/-- The second class loop (lines 78-87) after `m` classes. -/
theorem scoreLoop_spec (D : Nat → Dtype) (C inner i j : Nat) (s : Locals)
    (hTP : s.tp.length = C) (hFP : s.fp.length = C) (hFN : s.fn.length = C)
    (m : Nat) (hm : m ≤ C) :
    ((List.range m).foldl (scoreStep D C inner i j) s).expected = s.expected ∧
    ((List.range m).foldl (scoreStep D C inner i j) s).tr = s.tr ∧
    ((List.range m).foldl (scoreStep D C inner i j) s).tp.length = C ∧
    ((List.range m).foldl (scoreStep D C inner i j) s).fp.length = C ∧
    ((List.range m).foldl (scoreStep D C inner i j) s).fn.length = C ∧
    (∀ k, ((List.range m).foldl (scoreStep D C inner i j) s).tp.getD k 0
      = s.tp.getD k 0 + (if k < m ∧ (s.expected.getD k 0 > 0 ∧
          Dtype.gt (D ((i * C + k) * inner + j)) PTHRESH = true) then 1 else 0)) ∧
    (∀ k, ((List.range m).foldl (scoreStep D C inner i j) s).fn.getD k 0
      = s.fn.getD k 0 + (if k < m ∧ (s.expected.getD k 0 > 0 ∧
          ¬ Dtype.gt (D ((i * C + k) * inner + j)) PTHRESH = true) then 1 else 0)) ∧
    (∀ k, ((List.range m).foldl (scoreStep D C inner i j) s).fp.getD k 0
      = s.fp.getD k 0 + (if k < m ∧ (¬ s.expected.getD k 0 > 0 ∧
          Dtype.gt (D ((i * C + k) * inner + j)) PTHRESH = true) then 1 else 0)) := by
  induction m with
  | zero => simp [hTP, hFP, hFN]
  | succ m ih =>
    obtain ⟨h1, h2, h3, h4, h5, h6, h7, h8⟩ := ih (Nat.le_of_succ_le hm)
    have hlt : m < C := hm
    rw [List.range_succ, List.foldl_append]
    simp only [List.foldl_cons, List.foldl_nil]
    rw [scoreStep_eq]
    simp only [h1]
    refine ⟨trivial, h2, ?_, ?_, ?_, ?_, ?_, ?_⟩
    · split <;> simp [length_bump, h3]
    · split <;> simp [length_bump, h4]
    · split <;> simp [length_bump, h5]
    · exact getD_cond_bump _ s.tp m
        (fun k => s.expected.getD k 0 > 0 ∧ Dtype.gt (D ((i * C + k) * inner + j)) PTHRESH = true)
        (by rw [h3]; exact hlt) h6
    · exact getD_cond_bump _ s.fn m
        (fun k => s.expected.getD k 0 > 0 ∧ ¬ Dtype.gt (D ((i * C + k) * inner + j)) PTHRESH = true)
        (by rw [h5]; exact hlt) h7
    · exact getD_cond_bump _ s.fp m
        (fun k => ¬ s.expected.getD k 0 > 0 ∧ Dtype.gt (D ((i * C + k) * inner + j)) PTHRESH = true)
        (by rw [h4]; exact hlt) h8

/-- The gate of line 77 is the reference predicate `isScored`. -/
theorem gate_iff (L : Blob) (i j : Nat) (s : Locals)
    (hnz : s.nz = 0 + ((Finset.range (L.shape 1)).filter (fun k =>
      Dtype.gt (L.cpu_data ((i * L.shape 1 + k) * (L.shape 2 * L.shape 3) + j)) (Dtype.fin 0)
        = true)).card)
    (hno : s.no = 0 + ((Finset.range (L.shape 1)).filter (fun k =>
      Dtype.gt (L.cpu_data ((i * L.shape 1 + k) * (L.shape 2 * L.shape 3) + j)) GTHRESH
        = true)).card) :
    (s.nz = L.shape 1 ∨ s.no > 0) ↔ isScored L i j = true := by
  unfold isScored nzRef isPresent isExpected Blob.elem
  rw [hnz, hno, decide_eq_true_iff, Nat.zero_add, Nat.zero_add]
  apply or_congr Iff.rfl
  rw [gt_iff_lt, Finset.card_pos, Finset.filter_nonempty_iff]

/-- Effect of one position (lines 66-88) on the four counter vectors. -/
theorem positionStep_spec (P L : Blob) (hsh : P.shape_ = L.shape_) (i j : Nat) (s : Locals)
    (hs : WF (L.shape 1) s) :
    WF (L.shape 1)
      (positionStep P.cpu_data L.cpu_data (L.shape 1) (L.shape 2 * L.shape 3) i s j) ∧
    (∀ k, k < L.shape 1 →
      (positionStep P.cpu_data L.cpu_data (L.shape 1) (L.shape 2 * L.shape 3) i s j).tr.getD k 0
        = s.tr.getD k 0 + (if isPresent L i k j = true then 1 else 0)) ∧
    (∀ k, k < L.shape 1 →
      (positionStep P.cpu_data L.cpu_data (L.shape 1) (L.shape 2 * L.shape 3) i s j).tp.getD k 0
        = s.tp.getD k 0 + (if isScored L i j = true ∧ isExpected L i k j = true ∧
            isPredicted P i k j = true then 1 else 0)) ∧
    (∀ k, k < L.shape 1 →
      (positionStep P.cpu_data L.cpu_data (L.shape 1) (L.shape 2 * L.shape 3) i s j).fn.getD k 0
        = s.fn.getD k 0 + (if isScored L i j = true ∧ isExpected L i k j = true ∧
            ¬ isPredicted P i k j = true then 1 else 0)) ∧
    (∀ k, k < L.shape 1 →
      (positionStep P.cpu_data L.cpu_data (L.shape 1) (L.shape 2 * L.shape 3) i s j).fp.getD k 0
        = s.fp.getD k 0 + (if isScored L i j = true ∧ ¬ isExpected L i k j = true ∧
            isPredicted P i k j = true then 1 else 0)) := by
  have hP : ∀ a, P.shape a = L.shape a := fun a => by simp [Blob.shape, hsh]
  obtain ⟨hE, hTP, hFP, hFN, hTR⟩ := hs
  obtain ⟨l1, l2, l3, l4, l5, l6, l7, l8, l9⟩ :=
    labelLoop_spec L.cpu_data (L.shape 1) (L.shape 2 * L.shape 3) i j
      { s with nz := 0, no := 0 } hE hTR (L.shape 1) le_rfl
  have hgate := gate_iff L i j _ l8 l9
  have hex : ∀ k, k < L.shape 1 →
      ((((List.range (L.shape 1)).foldl
        (labelStep L.cpu_data (L.shape 1) (L.shape 2 * L.shape 3) i j)
        { s with nz := 0, no := 0 }).expected.getD k 0 > 0) ↔ isExpected L i k j = true) := by
    intro k hk
    rw [l7 k, if_pos hk]
    unfold isExpected Blob.elem
    split <;> simp_all
  have hpr : ∀ k, isPredicted P i k j
      = Dtype.gt (P.cpu_data ((i * L.shape 1 + k) * (L.shape 2 * L.shape 3) + j)) PTHRESH := by
    intro k
    simp [isPredicted, Blob.elem, hP]
  have htr : ∀ k, k < L.shape 1 →
      (((List.range (L.shape 1)).foldl
        (labelStep L.cpu_data (L.shape 1) (L.shape 2 * L.shape 3) i j)
        { s with nz := 0, no := 0 }).tr.getD k 0
        = s.tr.getD k 0 + (if isPresent L i k j = true then 1 else 0)) := by
    intro k hk
    rw [l6 k]
    simp [hk, isPresent, Blob.elem]
  unfold positionStep
  simp only []
  by_cases hg : isScored L i j = true
  · rw [if_pos (hgate.mpr hg)]
    obtain ⟨c1, c2, c3, c4, c5, c6, c7, c8⟩ :=
      scoreLoop_spec P.cpu_data (L.shape 1) (L.shape 2 * L.shape 3) i j _
        (by rw [l1]; exact hTP) (by rw [l2]; exact hFP) (by rw [l3]; exact hFN)
        (L.shape 1) le_rfl
    refine ⟨⟨by rw [c1]; exact l4, c3, c4, c5, by rw [c2]; exact l5⟩, ?_, ?_, ?_, ?_⟩
    · intro k hk
      rw [c2]
      exact htr k hk
    · intro k hk
      rw [c6 k, l1]
      simp only [hex k hk, hpr k, hk, hg, true_and]
    · intro k hk
      rw [c7 k, l3]
      simp only [hex k hk, hpr k, hk, hg, true_and]
    · intro k hk
      rw [c8 k, l2]
      simp only [hex k hk, hpr k, hk, hg, true_and]
  · rw [if_neg (fun h => hg (hgate.mp h))]
    refine ⟨⟨l4, by rw [l1]; exact hTP, by rw [l2]; exact hFP, by rw [l3]; exact hFN, l5⟩,
      htr, ?_, ?_, ?_⟩
    · intro k _
      rw [l1]
      simp [hg]
    · intro k _
      rw [l3]
      simp [hg]
    · intro k _
      rw [l2]
      simp [hg]

/-- A loop whose body adds `g j` to a tracked quantity adds the sum of the `g j`. -/
theorem foldl_counter {σ : Type} (step : σ → Nat → σ) (Inv : σ → Prop) (f : σ → Nat)
    (g : Nat → Nat)
    (hstep : ∀ s j, Inv s → Inv (step s j) ∧ f (step s j) = f s + g j)
    (s : σ) (hs : Inv s) (m : Nat) :
    Inv ((List.range m).foldl step s) ∧
    f ((List.range m).foldl step s) = f s + ∑ j in Finset.range m, g j := by
  induction m with
  | zero => simp [hs]
  | succ m ih =>
    rw [List.range_succ, List.foldl_append]
    simp only [List.foldl_cons, List.foldl_nil]
    obtain ⟨h1, h2⟩ := hstep _ m ih.1
    refine ⟨h1, ?_⟩
    rw [h2, ih.2, Finset.sum_range_succ, Nat.add_assoc]

theorem card_filter_positions (L : Blob) (q : Nat → Nat → Prop) [∀ a b, Decidable (q a b)] :
    ((positions L).filter (fun np => q np.1 np.2)).card
      = ∑ i in Finset.range (L.shape 0), ∑ j in Finset.range (L.shape 2 * L.shape 3),
          (if q i j then 1 else 0) := by
  rw [Finset.card_filter, positions, Finset.sum_product]

/-- The locals at the start of the scan (lines 55-59). -/
theorem WF_init (C : Nat) :
    WF C { expected := List.replicate C 0, tp := List.replicate C 0, fp := List.replicate C 0,
           fn := List.replicate C 0, tr := List.replicate C 0, nz := 0, no := 0 } := by
  simp [WF]

theorem getD_replicate_zero (C k : Nat) : (List.replicate C 0).getD k 0 = 0 := by
  by_cases h : k < C
  · simp [List.getD_eq_getElem?_getD, List.getElem?_replicate, h]
  · simp [List.getD_eq_getElem?_getD, List.getElem?_replicate, h]

/-- The scan keeps one entry per class in every counter vector. -/
theorem scan_WF (P L : Blob) (hsh : P.shape_ = L.shape_) : WF (L.shape 1) (scan P L) := by
  have hP : ∀ a, P.shape a = L.shape a := fun a => by simp [Blob.shape, hsh]
  unfold scan
  simp only [hP]
  refine (foldl_counter _ (WF (L.shape 1)) (fun _ => 0) (fun _ => 0) ?_ _ (WF_init _) _).1
  intro s i hs
  refine ⟨?_, rfl⟩
  unfold batchStep
  refine (foldl_counter _ (WF (L.shape 1)) (fun _ => 0) (fun _ => 0) ?_ _ hs _).1
  intro s j hs
  exact ⟨(positionStep_spec P L hsh i j s hs).1, rfl⟩

/-- A quantity that every position increases by `g i j` ends the scan at the
sum of the `g i j` over all positions. -/
theorem scan_counter (P L : Blob) (hsh : P.shape_ = L.shape_) (f : Locals → Nat)
    (g : Nat → Nat → Nat)
    (hpos : ∀ i j s, WF (L.shape 1) s →
      f (positionStep P.cpu_data L.cpu_data (L.shape 1) (L.shape 2 * L.shape 3) i s j)
        = f s + g i j)
    (hinit : f { expected := List.replicate (L.shape 1) 0, tp := List.replicate (L.shape 1) 0,
                 fp := List.replicate (L.shape 1) 0, fn := List.replicate (L.shape 1) 0,
                 tr := List.replicate (L.shape 1) 0, nz := 0, no := 0 } = 0) :
    f (scan P L)
      = ∑ i in Finset.range (L.shape 0), ∑ j in Finset.range (L.shape 2 * L.shape 3), g i j := by
  have hP : ∀ a, P.shape a = L.shape a := fun a => by simp [Blob.shape, hsh]
  unfold scan
  simp only [hP]
  have h := (foldl_counter
    (batchStep P.cpu_data L.cpu_data (L.shape 1) (L.shape 2 * L.shape 3))
    (WF (L.shape 1)) f (fun i => ∑ j in Finset.range (L.shape 2 * L.shape 3), g i j) ?_ _
    (WF_init _) (L.shape 0)).2
  · rw [h, hinit, Nat.zero_add]
  · intro s i hs
    unfold batchStep
    exact foldl_counter _ (WF (L.shape 1)) f (g i)
      (fun s j hs => ⟨(positionStep_spec P L hsh i j s hs).1, hpos i j s hs⟩) s hs _

/-- The four counters after the scan are the reference counts. -/
theorem scan_spec (P L : Blob) (hsh : P.shape_ = L.shape_) (c : Nat) (hc : c < L.shape 1) :
    (scan P L).tr.getD c 0 = presentCountRef L c ∧
    (scan P L).tp.getD c 0 = truePositiveRef P L c ∧
    (scan P L).fn.getD c 0 = falseNegativeRef P L c ∧
    (scan P L).fp.getD c 0 = falsePositiveRef P L c := by
  refine ⟨?_, ?_, ?_, ?_⟩
  · unfold presentCountRef
    rw [card_filter_positions L (fun n p => isPresent L n c p = true)]
    exact scan_counter P L hsh (fun s => s.tr.getD c 0) _
      (fun i j s hs => (positionStep_spec P L hsh i j s hs).2.1 c hc)
      (getD_replicate_zero _ _)
  · unfold truePositiveRef
    rw [card_filter_positions L (fun n p => isScored L n p = true ∧
      isExpected L n c p = true ∧ isPredicted P n c p = true)]
    exact scan_counter P L hsh (fun s => s.tp.getD c 0) _
      (fun i j s hs => (positionStep_spec P L hsh i j s hs).2.2.1 c hc)
      (getD_replicate_zero _ _)
  · unfold falseNegativeRef
    rw [card_filter_positions L (fun n p => isScored L n p = true ∧
      isExpected L n c p = true ∧ ¬ isPredicted P n c p = true)]
    exact scan_counter P L hsh (fun s => s.fn.getD c 0) _
      (fun i j s hs => (positionStep_spec P L hsh i j s hs).2.2.2.1 c hc)
      (getD_replicate_zero _ _)
  · unfold falsePositiveRef
    rw [card_filter_positions L (fun n p => isScored L n p = true ∧
      ¬ isExpected L n c p = true ∧ isPredicted P n c p = true)]
    exact scan_counter P L hsh (fun s => s.fp.getD c 0) _
      (fun i j s hs => (positionStep_spec P L hsh i j s hs).2.2.2.2 c hc)
      (getD_replicate_zero _ _)

/-- The loop of lines 94-99 in closed form: the number of present classes and
the left-to-right sum of their values. -/
theorem accumulate_eq (s : Locals) (C : Nat) :
    accumulate s C
      = (((List.range C).filter (fun c => decide (s.tr.getD c 0 > 0))).length,
         Dtype.sum (((List.range C).filter (fun c => decide (s.tr.getD c 0 > 0))).map (iou s))) := by
  unfold accumulate Dtype.sum
  induction C with
  | zero => simp
  | succ m ih =>
    rw [List.range_succ, List.foldl_append, ih, List.filter_append]
    simp only [List.foldl_cons, List.foldl_nil]
    unfold accStep
    by_cases h : s.tr.getD m 0 > 0
    · rw [if_pos h]
      have h2 := h
      simp only [List.getD_eq_getElem?_getD] at h2
      simp [List.filter_cons, h2, List.foldl_append]
    · rw [if_neg h]
      have h2 := h
      simp only [List.getD_eq_getElem?_getD] at h2
      simp [List.filter_cons, h2]

/-- The loop of lines 104-107 in closed form. -/
theorem perClassLoop_eq (s : Locals) (data : Nat → Dtype) (m : Nat) (k : Nat) :
    ((List.range m).foldl (perClassStep s) data) k
      = if k < m then (if s.tr.getD k 0 > 0 then iou s k else Dtype.fin 1) else data k := by
  induction m with
  | zero => simp
  | succ m ih =>
    rw [List.range_succ, List.foldl_append]
    simp only [List.foldl_cons, List.foldl_nil]
    have e : ∀ d i, perClassStep s d i
        = Function.update d i (if s.tr.getD i 0 > 0 then iou s i else Dtype.fin 1) :=
      fun _ _ => rfl
    rw [e]
    by_cases hk : k = m
    · subst hk
      simp
    · rw [Function.update_noteq hk, ih]
      have : k < m + 1 ↔ k < m := by omega
      simp only [this]

/-- The per-class value computed from the scanned counters is the reference value. -/
theorem iou_scan (P L : Blob) (hsh : P.shape_ = L.shape_) (c : Nat) (hc : c < L.shape 1) :
    iou (scan P L) c = iouRef P L c := by
  obtain ⟨_, h2, h3, h4⟩ := scan_spec P L hsh c hc
  unfold iou iouRef denomRef
  rw [h2, h3, h4]

/-- The present classes found by the loop are the reference present classes. -/
theorem presentClasses_scan (P L : Blob) (hsh : P.shape_ = L.shape_) :
    (List.range (L.shape 1)).filter (fun c => decide ((scan P L).tr.getD c 0 > 0))
      = presentClassesRef L := by
  unfold presentClassesRef
  apply List.filter_congr
  intro c hc
  rw [(scan_spec P L hsh c (List.mem_range.mp hc)).1]

/-- The scalar written to `top[0]` is the reference mean. -/
theorem scalarOut_eq (self : IouAccuracyLayer) (P L : Blob) (hsh : P.shape_ = L.shape_)
    (top : Top) : scalarOut self P L top = meanIouRef P L := by
  have hP : ∀ a, P.shape a = L.shape a := fun a => by simp [Blob.shape, hsh]
  unfold scalarOut Forward_cpu meanIouRef
  simp only [Function.update_same, accumulate_eq, hP, presentClasses_scan P L hsh]
  congr 2
  apply List.map_congr_left
  intro c hc
  unfold presentClassesRef at hc
  exact iou_scan P L hsh c (List.mem_range.mp (List.mem_filter.mp hc).1)

/-! ## Evaluation on the concrete inputs -/

theorem scan_predA_labelA :
    (scan predA labelA).tr = [1, 0] ∧ (scan predA labelA).tp = [1, 0] ∧
    (scan predA labelA).fn = [0, 0] ∧ (scan predA labelA).fp = [0, 0] := by
  norm_num [scan, batchStep, positionStep, labelStep, scoreStep, predA, labelA, blobOf,
    Blob.shape, List.range_succ, List.replicate_succ, bump, Dtype.gt, GTHRESH, PTHRESH]

theorem scalarOut_predA_labelA : scalarOut layer0 predA labelA top2 = Dtype.fin 1 := by
  norm_num [scalarOut, Forward_cpu, accumulate, accStep, iou, scan, batchStep, positionStep,
    labelStep, scoreStep, predA, labelA, blobOf, Blob.shape, List.range_succ,
    List.replicate_succ, bump, Dtype.gt, GTHRESH, PTHRESH, Dtype.div, Dtype.add, Dtype.cast]

/-! ## C1, C2: the counters and the scalar output -/

/-- C1: for every shape (N, C, H, W), every pair of blobs of that shape and every
class `c < C`, the counters `tr`, `tp`, `fn`, `fp` left by the scan of `Forward_cpu`
are the reference counts: positions with a positive label; scored positions with the
class expected and predicted; expected and not predicted; not expected and predicted.
The three comparisons are strict: a value equal to its threshold does not pass. -/
theorem counters_eq_reference (P L : Blob) (N C H W : Nat)
    (hP : P.shape_ = [N, C, H, W]) (hL : L.shape_ = [N, C, H, W]) (c : Nat) (hc : c < C) :
    ((scan P L).tr.getD c 0 = presentCountRef L c ∧
     (scan P L).tp.getD c 0 = truePositiveRef P L c ∧
     (scan P L).fn.getD c 0 = falseNegativeRef P L c ∧
     (scan P L).fp.getD c 0 = falsePositiveRef P L c) ∧
    (∀ n p, L.elem n c p = Dtype.fin 0 → isPresent L n c p = false) ∧
    (∀ n p, L.elem n c p = GTHRESH → isExpected L n c p = false) ∧
    (∀ n p, P.elem n c p = PTHRESH → isPredicted P n c p = false) := by
  refine ⟨scan_spec P L (hP.trans hL.symm) c (by simpa [Blob.shape, hL] using hc), ?_, ?_, ?_⟩
  · intro n p h
    simp [isPresent, h, Dtype.gt]
  · intro n p h
    simp [isExpected, h, Dtype.gt, GTHRESH]
  · intro n p h
    simp [isPredicted, h, Dtype.gt, PTHRESH]

/-- Witness of C1 on the scenario of the specification, class 0: the reference
counts are 1 present position, 1 true positive, no false negative, no false positive. -/
theorem counters_eq_reference_witness :
    predA.shape_ = [1, 2, 1, 1] ∧ labelA.shape_ = [1, 2, 1, 1] ∧ 0 < 2 ∧
    presentCountRef labelA 0 = 1 ∧ truePositiveRef predA labelA 0 = 1 ∧
    falseNegativeRef predA labelA 0 = 0 ∧ falsePositiveRef predA labelA 0 = 0 := by
  have h := (counters_eq_reference predA labelA 1 2 1 1 rfl rfl 0 (by decide)).1
  obtain ⟨e1, e2, e3, e4⟩ := scan_predA_labelA
  rw [e1, e2, e3, e4] at h
  exact ⟨rfl, rfl, by decide, h.1.symm, h.2.1.symm, h.2.2.1.symm, h.2.2.2.symm⟩

/-- C2: for every shape-matched input the scalar written to `top[0]` is the sum,
over the classes with a positive present count taken in increasing order, of
TP / (TP + FP + FN), divided by the number of those classes; absent classes enter
neither the sum nor the divisor. -/
theorem scalar_is_mean_of_present (self : IouAccuracyLayer) (P L : Blob) (top : Top)
    (N C H W : Nat) (hP : P.shape_ = [N, C, H, W]) (hL : L.shape_ = [N, C, H, W]) :
    scalarOut self P L top
      = Dtype.div
          (Dtype.sum (((List.range C).filter (fun c => decide (presentCountRef L c > 0))).map
            (fun c => Dtype.div (Dtype.cast (truePositiveRef P L c))
              (Dtype.cast (truePositiveRef P L c + falsePositiveRef P L c
                + falseNegativeRef P L c)))))
          (Dtype.cast ((List.range C).filter (fun c => decide (presentCountRef L c > 0))).length) := by
  rw [scalarOut_eq self P L (hP.trans hL.symm) top]
  have hC : L.shape 1 = C := by simp [Blob.shape, hL]
  unfold meanIouRef presentClassesRef
  rw [hC]
  rfl

/-- Witness of C2: in the scenario of the specification (N = 1, C = 2, H = W = 1,
labels 0.5 and 0.0, predictions 0.5 and 0.01) the scalar is 1.0, and so is the mean. -/
theorem scalar_is_mean_of_present_witness :
    predA.shape_ = [1, 2, 1, 1] ∧ labelA.shape_ = [1, 2, 1, 1] ∧
    scalarOut layer0 predA labelA top2 = Dtype.fin 1 ∧
    Dtype.div
      (Dtype.sum (((List.range 2).filter (fun c => decide (presentCountRef labelA c > 0))).map
        (fun c => Dtype.div (Dtype.cast (truePositiveRef predA labelA c))
          (Dtype.cast (truePositiveRef predA labelA c + falsePositiveRef predA labelA c
            + falseNegativeRef predA labelA c)))))
      (Dtype.cast ((List.range 2).filter (fun c => decide (presentCountRef labelA c > 0))).length)
      = Dtype.fin 1 :=
  ⟨rfl, rfl, scalarOut_predA_labelA,
    (scalar_is_mean_of_present layer0 predA labelA top2 1 2 1 1 rfl rfl).symm.trans
      scalarOut_predA_labelA⟩

/-! ## C3, C4: the denominator and the range of the scalar -/

theorem scan_predA_labelB :
    (scan predA labelB).tr = [1, 0] ∧ (scan predA labelB).tp = [0, 0] ∧
    (scan predA labelB).fn = [0, 0] ∧ (scan predA labelB).fp = [0, 0] := by
  norm_num [scan, batchStep, positionStep, labelStep, scoreStep, predA, labelB, blobOf,
    Blob.shape, List.range_succ, List.replicate_succ, bump, Dtype.gt, GTHRESH, PTHRESH]

theorem scalarOut_predA_labelB : scalarOut layer0 predA labelB top2 = Dtype.nan := by
  norm_num [scalarOut, Forward_cpu, accumulate, accStep, iou, scan, batchStep, positionStep,
    labelStep, scoreStep, predA, labelB, blobOf, Blob.shape, List.range_succ,
    List.replicate_succ, bump, Dtype.gt, GTHRESH, PTHRESH, Dtype.div, Dtype.add, Dtype.cast]

/-- A position where some class is expected is scored. -/
theorem isScored_of_isExpected (L : Blob) (n c p : Nat) (hc : c < L.shape 1)
    (h : isExpected L n c p = true) : isScored L n p = true := by
  unfold isScored
  rw [decide_eq_true_iff]
  exact Or.inr ⟨c, Finset.mem_range.mpr hc, h⟩

/-- C3 fails as stated: with labels (0.25, 0.0) class 0 is present (`tr[0] = 1`)
and its denominator `tp[0] + fp[0] + fn[0]` is 0. -/
theorem present_class_zero_denominator :
    predA.shape_ = labelB.shape_ ∧ 0 < (scan predA labelB).tr.getD 0 0 ∧
    ¬ 0 < (scan predA labelB).tp.getD 0 0 + (scan predA labelB).fp.getD 0 0
        + (scan predA labelB).fn.getD 0 0 := by
  obtain ⟨e1, e2, e3, e4⟩ := scan_predA_labelB
  rw [e1, e2, e3, e4]
  exact ⟨rfl, by decide, by decide⟩

/-- C3 amended: for every input and every class `c` that has a position with
a label above `GTHRESH`, one of `tp[c]`, `fn[c]` was incremented, so the
denominator `tp[c] + fp[c] + fn[c]` is strictly positive after the scan. -/
theorem denominator_pos_of_expected (P L : Blob) (N C H W : Nat)
    (hP : P.shape_ = [N, C, H, W]) (hL : L.shape_ = [N, C, H, W]) (c : Nat) (hc : c < C)
    (h : ∃ n p, n < N ∧ p < H * W ∧ isExpected L n c p = true) :
    0 < (scan P L).tp.getD c 0 + (scan P L).fn.getD c 0 ∧
    0 < (scan P L).tp.getD c 0 + (scan P L).fp.getD c 0 + (scan P L).fn.getD c 0 := by
  have hc1 : c < L.shape 1 := by simpa [Blob.shape, hL] using hc
  obtain ⟨_, h2, h3, _⟩ := scan_spec P L (hP.trans hL.symm) c hc1
  obtain ⟨n, p, hn, hp, he⟩ := h
  have hmem : (n, p) ∈ positions L := by
    simp [positions, Blob.shape, hL, hn, hp]
  have hs := isScored_of_isExpected L n c p hc1 he
  have key : 0 < (scan P L).tp.getD c 0 + (scan P L).fn.getD c 0 := by
    rw [h2, h3]
    by_cases hq : isPredicted P n c p = true
    · have : 0 < truePositiveRef P L c := by
        unfold truePositiveRef
        rw [Finset.card_pos]
        exact ⟨(n, p), Finset.mem_filter.mpr ⟨hmem, hs, he, hq⟩⟩
      omega
    · have : 0 < falseNegativeRef P L c := by
        unfold falseNegativeRef
        rw [Finset.card_pos]
        exact ⟨(n, p), Finset.mem_filter.mpr ⟨hmem, hs, he, hq⟩⟩
      omega
  exact ⟨key, by omega⟩

/-- Witness of the amended C3 on the scenario of the specification, class 0. -/
theorem denominator_pos_of_expected_witness :
    predA.shape_ = [1, 2, 1, 1] ∧ labelA.shape_ = [1, 2, 1, 1] ∧ 0 < 2 ∧
    (∃ n p, n < 1 ∧ p < 1 * 1 ∧ isExpected labelA n 0 p = true) ∧
    0 < (scan predA labelA).tp.getD 0 0 + (scan predA labelA).fn.getD 0 0 ∧
    0 < (scan predA labelA).tp.getD 0 0 + (scan predA labelA).fp.getD 0 0
      + (scan predA labelA).fn.getD 0 0 :=
  have hex : ∃ n p, n < 1 ∧ p < 1 * 1 ∧ isExpected labelA n 0 p = true :=
    ⟨0, 0, by decide, by decide, by
      norm_num [isExpected, Blob.elem, labelA, blobOf, Blob.shape, Dtype.gt, GTHRESH]⟩
  ⟨rfl, rfl, by decide, hex,
    denominator_pos_of_expected predA labelA 1 2 1 1 rfl rfl 0 (by decide) hex⟩

/-- The scalar written to `top[0]`, in terms of the scanned counters. -/
theorem scalarOut_eq_scan (self : IouAccuracyLayer) (P L : Blob) (top : Top) :
    scalarOut self P L top
      = Dtype.div
          (Dtype.sum (((List.range (P.shape 1)).filter
            (fun c => decide ((scan P L).tr.getD c 0 > 0))).map (iou (scan P L))))
          (Dtype.cast ((List.range (P.shape 1)).filter
            (fun c => decide ((scan P L).tr.getD c 0 > 0))).length) := by
  unfold scalarOut Forward_cpu
  simp only [Function.update_same, accumulate_eq]

/-- With a positive denominator the per-class value is the exact quotient. -/
theorem iou_of_pos (s : Locals) (c : Nat)
    (h : 0 < s.tp.getD c 0 + s.fp.getD c 0 + s.fn.getD c 0) :
    iou s c = Dtype.fin ((s.tp.getD c 0 : ℚ)
      / ((s.tp.getD c 0 + s.fp.getD c 0 + s.fn.getD c 0 : Nat) : ℚ)) := by
  unfold iou Dtype.cast Dtype.div
  have : ((s.tp.getD c 0 + s.fp.getD c 0 + s.fn.getD c 0 : Nat) : ℚ) ≠ 0 := by
    exact_mod_cast Nat.pos_iff_ne_zero.mp h
  simp only [this, if_false]

/-- With a positive denominator the per-class value lies between 0 and 1. -/
theorem iou_inUnit (s : Locals) (c : Nat)
    (h : 0 < s.tp.getD c 0 + s.fp.getD c 0 + s.fn.getD c 0) : (iou s c).inUnit := by
  rw [iou_of_pos s c h]
  have hd : (0 : ℚ) < ((s.tp.getD c 0 + s.fp.getD c 0 + s.fn.getD c 0 : Nat) : ℚ) := by
    exact_mod_cast h
  have hn : ((s.tp.getD c 0 : Nat) : ℚ)
      ≤ ((s.tp.getD c 0 + s.fp.getD c 0 + s.fn.getD c 0 : Nat) : ℚ) := by
    exact_mod_cast (by omega : s.tp.getD c 0 ≤ s.tp.getD c 0 + s.fp.getD c 0 + s.fn.getD c 0)
  exact ⟨div_nonneg (Nat.cast_nonneg _) hd.le, (div_le_one hd).mpr hn⟩

/-- A left-to-right sum of values between 0 and 1 is finite and at most their number. -/
theorem foldl_add_inUnit (xs : List Dtype) (h : ∀ x ∈ xs, x.inUnit) (a : ℚ) :
    ∃ t : ℚ, xs.foldl Dtype.add (Dtype.fin a) = Dtype.fin (a + t) ∧ 0 ≤ t ∧ t ≤ xs.length := by
  induction xs generalizing a with
  | nil => exact ⟨0, by simp, le_refl _, by simp⟩
  | cons x xs ih =>
    have hx := h x (List.mem_cons_self _ _)
    cases x with
    | fin q =>
      obtain ⟨t, ht, h0, h1⟩ := ih (fun y hy => h y (List.mem_cons_of_mem _ hy)) (a + q)
      refine ⟨q + t, ?_, ?_, ?_⟩
      · rw [List.foldl_cons]
        show List.foldl Dtype.add (Dtype.fin (a + q)) xs = _
        rw [ht, add_assoc]
      · exact add_nonneg hx.1 h0
      · have := hx.2
        simp only [List.length_cons, Nat.cast_add, Nat.cast_one]
        linarith
    | pinf => exact absurd hx (by simp [Dtype.inUnit])
    | ninf => exact absurd hx (by simp [Dtype.inUnit])
    | nan => exact absurd hx (by simp [Dtype.inUnit])

/-- The mean of a non-empty list of values between 0 and 1 lies between 0 and 1. -/
theorem mean_inUnit (xs : List Dtype) (h : ∀ x ∈ xs, x.inUnit) (hne : 0 < xs.length) :
    (Dtype.div (Dtype.sum xs) (Dtype.cast xs.length)).inUnit := by
  obtain ⟨t, ht, h0, h1⟩ := foldl_add_inUnit xs h 0
  have hl : (0 : ℚ) < (xs.length : ℚ) := by exact_mod_cast hne
  unfold Dtype.sum
  rw [ht, zero_add]
  unfold Dtype.cast Dtype.div
  simp only [hl.ne', if_false]
  exact ⟨div_nonneg h0 hl.le, (div_le_one hl).mpr h1⟩

theorem add_nan_left (x : Dtype) : Dtype.add Dtype.nan x = Dtype.nan := by
  cases x <;> rfl

theorem add_nan_right (x : Dtype) : Dtype.add x Dtype.nan = Dtype.nan := by
  cases x <;> rfl

theorem foldl_add_nan (xs : List Dtype) : xs.foldl Dtype.add Dtype.nan = Dtype.nan := by
  induction xs with
  | nil => rfl
  | cons x xs ih => rw [List.foldl_cons, add_nan_left, ih]

/-- A NaN among the summands makes the left-to-right sum NaN. -/
theorem foldl_add_of_mem_nan (xs : List Dtype) (h : Dtype.nan ∈ xs) (a : Dtype) :
    xs.foldl Dtype.add a = Dtype.nan := by
  induction xs generalizing a with
  | nil => exact absurd h (List.not_mem_nil _)
  | cons x xs ih =>
    rw [List.foldl_cons]
    rcases List.mem_cons.mp h with hx | hx
    · rw [← hx, add_nan_right, foldl_add_nan]
    · exact ih hx _

/-- With a zero denominator the per-class value is NaN. -/
theorem iou_of_zero (s : Locals) (c : Nat)
    (h : s.tp.getD c 0 + s.fp.getD c 0 + s.fn.getD c 0 = 0) : iou s c = Dtype.nan := by
  have h1 : s.tp.getD c 0 = 0 := by omega
  unfold iou Dtype.cast Dtype.div
  rw [h, h1]
  simp

/-- C4 fails as stated: with labels (0.25, 0.0) class 0 is present and the scalar
written by `Forward_cpu` is NaN, which is not in the interval from 0 to 1. -/
theorem scalar_nan_with_present_class :
    predA.shape_ = labelB.shape_ ∧ (∃ c, c < 2 ∧ 0 < (scan predA labelB).tr.getD c 0) ∧
    scalarOut layer0 predA labelB top2 = Dtype.nan ∧
    ¬ (scalarOut layer0 predA labelB top2).inUnit := by
  refine ⟨rfl, ⟨0, by decide, ?_⟩, scalarOut_predA_labelB, ?_⟩
  · rw [scan_predA_labelB.1]
    decide
  · rw [scalarOut_predA_labelB]
    simp [Dtype.inUnit]

/-- C4 amended: for every shape-matched input in which at least one class is present,
the scalar written by `Forward_cpu` lies in the closed interval from 0 to 1 exactly when
every present class has a positive denominator `tp[c] + fp[c] + fn[c]`. -/
theorem scalar_in_unit_interval (self : IouAccuracyLayer) (P L : Blob) (top : Top)
    (N C H W : Nat) (hP : P.shape_ = [N, C, H, W]) (_hL : L.shape_ = [N, C, H, W])
    (hpres : ∃ c, c < C ∧ 0 < (scan P L).tr.getD c 0) :
    (scalarOut self P L top).inUnit ↔
      ∀ c, c < C → 0 < (scan P L).tr.getD c 0 →
        0 < (scan P L).tp.getD c 0 + (scan P L).fp.getD c 0 + (scan P L).fn.getD c 0 := by
  have hC : P.shape 1 = C := by simp [Blob.shape, hP]
  rw [scalarOut_eq_scan, hC]
  constructor
  · intro hin c hc hpc
    by_contra hz
    have hnan : iou (scan P L) c = Dtype.nan := iou_of_zero _ c (by omega)
    have hmem : Dtype.nan ∈ ((List.range C).filter
        (fun c => decide ((scan P L).tr.getD c 0 > 0))).map (iou (scan P L)) := by
      rw [← hnan]
      exact List.mem_map_of_mem _
        (List.mem_filter.mpr ⟨List.mem_range.mpr hc, decide_eq_true hpc⟩)
    unfold Dtype.sum at hin
    rw [foldl_add_of_mem_nan _ hmem] at hin
    exact hin
  · intro hden
    have hlen : 0 < (((List.range C).filter
        (fun c => decide ((scan P L).tr.getD c 0 > 0))).map (iou (scan P L))).length := by
      obtain ⟨c, hc, hpc⟩ := hpres
      rw [List.length_map]
      exact List.length_pos_of_mem
        (List.mem_filter.mpr ⟨List.mem_range.mpr hc, decide_eq_true hpc⟩)
    have h := mean_inUnit _ (fun x hx => by
      obtain ⟨c, hc, rfl⟩ := List.mem_map.mp hx
      obtain ⟨hc1, hc2⟩ := List.mem_filter.mp hc
      exact iou_inUnit _ c (hden c (List.mem_range.mp hc1) (of_decide_eq_true hc2))) hlen
    rwa [List.length_map] at h

/-- Witness of the amended C4 on the scenario of the specification: class 0 is present,
every present class has a positive denominator, and the scalar is in the interval. -/
theorem scalar_in_unit_interval_witness :
    predA.shape_ = [1, 2, 1, 1] ∧ labelA.shape_ = [1, 2, 1, 1] ∧
    (∃ c, c < 2 ∧ 0 < (scan predA labelA).tr.getD c 0) ∧
    (scalarOut layer0 predA labelA top2).inUnit ∧
    (∀ c, c < 2 → 0 < (scan predA labelA).tr.getD c 0 →
      0 < (scan predA labelA).tp.getD c 0 + (scan predA labelA).fp.getD c 0
        + (scan predA labelA).fn.getD c 0) :=
  have hpres : ∃ c, c < 2 ∧ 0 < (scan predA labelA).tr.getD c 0 :=
    ⟨0, by decide, by rw [scan_predA_labelA.1]; decide⟩
  have hin : (scalarOut layer0 predA labelA top2).inUnit := by
    rw [scalarOut_predA_labelA]
    norm_num [Dtype.inUnit]
  ⟨rfl, rfl, hpres, hin,
    (scalar_in_unit_interval layer0 predA labelA top2 1 2 1 1 rfl rfl hpres).mp hin⟩

/-! ## C5: perfect prediction -/

theorem scan_predC_labelC :
    (scan predC labelC).tr = [1, 1] ∧ (scan predC labelC).tp = [0, 1] ∧
    (scan predC labelC).fn = [0, 0] ∧ (scan predC labelC).fp = [0, 0] := by
  norm_num [scan, batchStep, positionStep, labelStep, scoreStep, predC, labelC, blobOf,
    Blob.shape, List.range_succ, List.replicate_succ, bump, Dtype.gt, GTHRESH, PTHRESH]

theorem scalarOut_predC_labelC : scalarOut layer0 predC labelC top2 = Dtype.nan := by
  norm_num [scalarOut, Forward_cpu, accumulate, accStep, iou, scan, batchStep, positionStep,
    labelStep, scoreStep, predC, labelC, blobOf, Blob.shape, List.range_succ,
    List.replicate_succ, bump, Dtype.gt, GTHRESH, PTHRESH, Dtype.div, Dtype.add, Dtype.cast]

/-- A left-to-right sum of ones is their number. -/
theorem foldl_add_ones (xs : List Dtype) (h : ∀ x ∈ xs, x = Dtype.fin 1) (a : ℚ) :
    xs.foldl Dtype.add (Dtype.fin a) = Dtype.fin (a + xs.length) := by
  induction xs generalizing a with
  | nil => simp
  | cons x xs ih =>
    rw [List.foldl_cons, h x (List.mem_cons_self _ _)]
    show List.foldl Dtype.add (Dtype.fin (a + 1)) xs = _
    rw [ih (fun y hy => h y (List.mem_cons_of_mem _ hy))]
    simp only [List.length_cons, Nat.cast_add, Nat.cast_one]
    congr 1
    ring

/-- C5 fails as stated: with labels (0.25, 0.5) and predictions (0.0, 0.5) the only
position is scored and predicted equals expected for both classes, class 0 is present,
yet its per-class value is NaN and the scalar is NaN. -/
theorem perfect_prediction_nan :
    predC.shape_ = labelC.shape_ ∧
    (∀ n p, n < 1 → p < 1 * 1 → isScored labelC n p = true →
      ∀ c, c < 2 → isPredicted predC n c p = isExpected labelC n c p) ∧
    0 < (scan predC labelC).tr.getD 0 0 ∧
    iou (scan predC labelC) 0 = Dtype.nan ∧
    scalarOut layer0 predC labelC top2 = Dtype.nan ∧
    scalarOut layer0 predC labelC top2 ≠ Dtype.fin 1 := by
  refine ⟨rfl, ?_, ?_, ?_, scalarOut_predC_labelC, by rw [scalarOut_predC_labelC]; decide⟩
  · intro n p hn hp _ c hc
    have hn0 : n = 0 := by omega
    have hp0 : p = 0 := by omega
    subst hn0 hp0
    interval_cases c <;>
      norm_num [isPredicted, isExpected, Blob.elem, predC, labelC, blobOf, Blob.shape,
        Dtype.gt, GTHRESH, PTHRESH]
  · rw [scan_predC_labelC.1]
    decide
  · apply iou_of_zero
    obtain ⟨_, e2, e3, e4⟩ := scan_predC_labelC
    rw [e2, e3, e4]
    rfl

/-- C5 amended: if at every scored position predicted equals expected for all classes,
then every class has `fp[c] = fn[c] = 0`, every class with a positive denominator has
per-class value exactly 1.0, and, when at least one class is present and every present
class has a positive denominator, the scalar is exactly 1.0. -/
theorem perfect_prediction (self : IouAccuracyLayer) (P L : Blob) (top : Top)
    (N C H W : Nat) (hP : P.shape_ = [N, C, H, W]) (hL : L.shape_ = [N, C, H, W])
    (hperf : ∀ n p, n < N → p < H * W → isScored L n p = true →
      ∀ c, c < C → isPredicted P n c p = isExpected L n c p) :
    (∀ c, c < C → (scan P L).fp.getD c 0 = 0 ∧ (scan P L).fn.getD c 0 = 0) ∧
    (∀ c, c < C →
      0 < (scan P L).tp.getD c 0 + (scan P L).fp.getD c 0 + (scan P L).fn.getD c 0 →
      iou (scan P L) c = Dtype.fin 1) ∧
    ((∃ c, c < C ∧ 0 < (scan P L).tr.getD c 0) →
      (∀ c, c < C → 0 < (scan P L).tr.getD c 0 →
        0 < (scan P L).tp.getD c 0 + (scan P L).fp.getD c 0 + (scan P L).fn.getD c 0) →
      scalarOut self P L top = Dtype.fin 1) := by
  have hCL : L.shape 1 = C := by simp [Blob.shape, hL]
  have hCP : P.shape 1 = C := by simp [Blob.shape, hP]
  have hpos : ∀ np ∈ positions L, np.1 < N ∧ np.2 < H * W := by
    intro np hnp
    simpa [positions, Blob.shape, hL] using hnp
  have hzero : ∀ c, c < C → (scan P L).fp.getD c 0 = 0 ∧ (scan P L).fn.getD c 0 = 0 := by
    intro c hc
    obtain ⟨_, _, h3, h4⟩ := scan_spec P L (hP.trans hL.symm) c (by rw [hCL]; exact hc)
    rw [h3, h4]
    unfold falsePositiveRef falseNegativeRef
    rw [Finset.card_eq_zero, Finset.card_eq_zero, Finset.filter_eq_empty_iff,
      Finset.filter_eq_empty_iff]
    constructor
    · rintro np hnp ⟨hs, hne, hpr⟩
      have := hperf np.1 np.2 (hpos np hnp).1 (hpos np hnp).2 hs c hc
      rw [hpr] at this
      exact hne this.symm
    · rintro np hnp ⟨hs, he, hnp2⟩
      have := hperf np.1 np.2 (hpos np hnp).1 (hpos np hnp).2 hs c hc
      rw [he] at this
      exact hnp2 this
  have hone : ∀ c, c < C →
      0 < (scan P L).tp.getD c 0 + (scan P L).fp.getD c 0 + (scan P L).fn.getD c 0 →
      iou (scan P L) c = Dtype.fin 1 := by
    intro c hc hden
    rw [iou_of_pos _ c hden]
    obtain ⟨z1, z2⟩ := hzero c hc
    rw [z1, z2] at hden ⊢
    have : ((scan P L).tp.getD c 0 : ℚ) ≠ 0 := by
      exact_mod_cast (by omega : (scan P L).tp.getD c 0 ≠ 0)
    simp only [Nat.add_zero]
    rw [div_self this]
  refine ⟨hzero, hone, ?_⟩
  rintro ⟨c0, hc0, hp0⟩ hden
  rw [scalarOut_eq_scan, hCP]
  have hall : ∀ x ∈ ((List.range C).filter
      (fun c => decide ((scan P L).tr.getD c 0 > 0))).map (iou (scan P L)), x = Dtype.fin 1 := by
    intro x hx
    obtain ⟨c, hc, rfl⟩ := List.mem_map.mp hx
    obtain ⟨hc1, hc2⟩ := List.mem_filter.mp hc
    exact hone c (List.mem_range.mp hc1)
      (hden c (List.mem_range.mp hc1) (of_decide_eq_true hc2))
  have hlen : 0 < ((List.range C).filter
      (fun c => decide ((scan P L).tr.getD c 0 > 0))).length :=
    List.length_pos_of_mem (List.mem_filter.mpr ⟨List.mem_range.mpr hc0, decide_eq_true hp0⟩)
  unfold Dtype.sum
  rw [foldl_add_ones _ hall 0, List.length_map, zero_add]
  unfold Dtype.cast Dtype.div
  have hne : (((List.range C).filter
      (fun c => decide ((scan P L).tr.getD c 0 > 0))).length : ℚ) ≠ 0 := by
    exact_mod_cast hlen.ne'
  simp only [hne, if_false]
  rw [div_self hne]

/-- Witness of the amended C5 on the scenario of the specification: predicted equals
expected at the only position, class 0 is present with a positive denominator, and
the scalar is exactly 1.0. -/
theorem perfect_prediction_witness :
    predA.shape_ = [1, 2, 1, 1] ∧ labelA.shape_ = [1, 2, 1, 1] ∧
    (∀ n p, n < 1 → p < 1 * 1 → isScored labelA n p = true →
      ∀ c, c < 2 → isPredicted predA n c p = isExpected labelA n c p) ∧
    (∃ c, c < 2 ∧ 0 < (scan predA labelA).tr.getD c 0) ∧
    scalarOut layer0 predA labelA top2 = Dtype.fin 1 :=
  have hperf : ∀ n p, n < 1 → p < 1 * 1 → isScored labelA n p = true →
      ∀ c, c < 2 → isPredicted predA n c p = isExpected labelA n c p := by
    intro n p hn hp _ c hc
    have hn0 : n = 0 := by omega
    have hp0 : p = 0 := by omega
    subst hn0 hp0
    interval_cases c <;>
      norm_num [isPredicted, isExpected, Blob.elem, predA, labelA, blobOf, Blob.shape,
        Dtype.gt, GTHRESH, PTHRESH]
  have hpres : ∃ c, c < 2 ∧ 0 < (scan predA labelA).tr.getD c 0 :=
    ⟨0, by decide, by rw [scan_predA_labelA.1]; decide⟩
  have hden : ∀ c, c < 2 → 0 < (scan predA labelA).tr.getD c 0 →
      0 < (scan predA labelA).tp.getD c 0 + (scan predA labelA).fp.getD c 0
        + (scan predA labelA).fn.getD c 0 := by
    obtain ⟨e1, e2, e3, e4⟩ := scan_predA_labelA
    rw [e1, e2, e3, e4]
    intro c hc
    interval_cases c <;> decide
  ⟨rfl, rfl, hperf, hpres,
    (perfect_prediction layer0 predA labelA top2 1 2 1 1 rfl rfl hperf).2.2 hpres hden⟩

/-! ## C6: positions that are not scored -/

/-- The reference gate in terms of the two reference counts. -/
theorem isScored_iff (L : Blob) (n p : Nat) :
    isScored L n p = true ↔ (nzRef L n p = L.shape 1 ∨ 0 < noRef L n p) := by
  unfold isScored noRef
  rw [decide_eq_true_iff, Finset.card_pos, Finset.filter_nonempty_iff]

theorem nzRef_labelB : nzRef labelB 0 0 = 1 := by
  unfold nzRef
  rw [show labelB.shape 1 = 2 from rfl, card_filter_range_succ, card_filter_range_succ]
  norm_num [isPresent, Blob.elem, labelB, blobOf, Blob.shape, Dtype.gt]

theorem noRef_labelB : noRef labelB 0 0 = 0 := by
  unfold noRef
  rw [show labelB.shape 1 = 2 from rfl, card_filter_range_succ, card_filter_range_succ]
  norm_num [isExpected, Blob.elem, labelB, blobOf, Blob.shape, Dtype.gt, GTHRESH]

theorem positionStep_labelB :
    (positionStep predA.cpu_data labelB.cpu_data 2 1 0
      locals2 0).tr = [1, 0] := by
  norm_num [positionStep, labelStep, scoreStep, predA, labelB, blobOf, List.range_succ, bump,
    locals2, Dtype.gt, GTHRESH, PTHRESH]

/-- C6 fails as stated: at the only position of the labels (0.25, 0.0) fewer than all
classes are positive (`nz = 1 < 2`) and none is expected (`no = 0`), yet processing
the position changes `tr` from (0, 0) to (1, 0). -/
theorem skipped_position_changes_tr :
    nzRef labelB 0 0 < 2 ∧ noRef labelB 0 0 = 0 ∧
    (positionStep predA.cpu_data labelB.cpu_data 2 1 0 locals2 0).tr ≠ locals2.tr := by
  rw [nzRef_labelB, noRef_labelB, positionStep_labelB]
  exact ⟨by decide, rfl, by decide⟩

/-- C6 amended: at a position where fewer than all classes have a positive label and
no class has a label above `GTHRESH`, processing the position leaves `tp`, `fp` and
`fn` unchanged; `tr[c]` is still incremented for every class `c` with a positive label
there. -/
theorem skipped_position_frame (P L : Blob) (N C H W : Nat)
    (hP : P.shape_ = [N, C, H, W]) (hL : L.shape_ = [N, C, H, W]) (i j : Nat) (s : Locals)
    (hs : WF C s) (hnz : nzRef L i j < C) (hno : noRef L i j = 0) :
    (positionStep P.cpu_data L.cpu_data (P.shape 1) (P.shape 2 * P.shape 3) i s j).tp = s.tp ∧
    (positionStep P.cpu_data L.cpu_data (P.shape 1) (P.shape 2 * P.shape 3) i s j).fp = s.fp ∧
    (positionStep P.cpu_data L.cpu_data (P.shape 1) (P.shape 2 * P.shape 3) i s j).fn = s.fn ∧
    (∀ c, c < C →
      (positionStep P.cpu_data L.cpu_data (P.shape 1) (P.shape 2 * P.shape 3) i s j).tr.getD c 0
        = s.tr.getD c 0 + (if isPresent L i c j = true then 1 else 0)) := by
  have hsh : ∀ a, P.shape a = L.shape a := fun a => by simp [Blob.shape, hP, hL]
  have hCL : L.shape 1 = C := by simp [Blob.shape, hL]
  simp only [hsh]
  rw [← hCL] at hs hnz
  obtain ⟨hE, _, _, _, hTR⟩ := hs
  obtain ⟨l1, l2, l3, _, _, l6, _, l8, l9⟩ :=
    labelLoop_spec L.cpu_data (L.shape 1) (L.shape 2 * L.shape 3) i j
      { s with nz := 0, no := 0 } hE hTR (L.shape 1) le_rfl
  have hgate := gate_iff L i j _ l8 l9
  have hns : ¬ isScored L i j = true := by
    rw [isScored_iff]
    omega
  unfold positionStep
  simp only []
  rw [if_neg (fun h => hns (hgate.mp h))]
  refine ⟨l1, l2, l3, ?_⟩
  intro c hc
  rw [l6 c]
  simp [hCL, hc, isPresent, Blob.elem]

/-- Witness of the amended C6: the position of the labels (0.25, 0.0), from the
initial counters. -/
theorem skipped_position_frame_witness :
    predA.shape_ = [1, 2, 1, 1] ∧ labelB.shape_ = [1, 2, 1, 1] ∧
    WF 2 locals2 ∧
    nzRef labelB 0 0 < 2 ∧ noRef labelB 0 0 = 0 ∧
    (positionStep predA.cpu_data labelB.cpu_data (predA.shape 1)
      (predA.shape 2 * predA.shape 3) 0
      locals2 0).tp = [0, 0] :=
  have hwf : WF 2 locals2 := ⟨rfl, rfl, rfl, rfl, rfl⟩
  have hnz : nzRef labelB 0 0 < 2 := by rw [nzRef_labelB]; decide
  ⟨rfl, rfl, hwf, hnz, noRef_labelB,
    (skipped_position_frame predA labelB 1 2 1 1 rfl rfl 0 0 _ hwf hnz noRef_labelB).1⟩

/-! ## C7: predictions at positions that are not scored -/

/-- Two loop bodies that agree on the states satisfying an invariant give the same loop. -/
theorem foldl_congr_inv {σ : Type} (f g : σ → Nat → σ) (Inv : σ → Prop) (l : List Nat)
    (hInv : ∀ s x, x ∈ l → Inv s → Inv (f s x))
    (h : ∀ s x, x ∈ l → Inv s → f s x = g s x) (s : σ) (hs : Inv s) :
    l.foldl f s = l.foldl g s := by
  induction l generalizing s with
  | nil => rfl
  | cons x xs ih =>
    rw [List.foldl_cons, List.foldl_cons, ← h s x (List.mem_cons_self _ _) hs]
    exact ih (fun s y hy => hInv s y (List.mem_cons_of_mem _ hy))
      (fun s y hy => h s y (List.mem_cons_of_mem _ hy)) _
      (hInv s x (List.mem_cons_self _ _) hs)

/-- The batch step keeps one entry per class in every counter vector. -/
theorem batchStep_WF (P L : Blob) (hsh : P.shape_ = L.shape_) (i : Nat) (s : Locals)
    (hs : WF (L.shape 1) s) :
    WF (L.shape 1)
      (batchStep P.cpu_data L.cpu_data (L.shape 1) (L.shape 2 * L.shape 3) s i) := by
  unfold batchStep
  refine (foldl_counter _ (WF (L.shape 1)) (fun _ => 0) (fun _ => 0) ?_ _ hs _).1
  intro s j hs
  exact ⟨(positionStep_spec P L hsh i j s hs).1, rfl⟩

/-- The position step reads the prediction only at a scored position. -/
theorem positionStep_congr (P1 P2 L : Blob) (i j : Nat) (s : Locals) (hs : WF (L.shape 1) s)
    (hagree : isScored L i j = true → ∀ c, c < L.shape 1 →
      P1.cpu_data ((i * L.shape 1 + c) * (L.shape 2 * L.shape 3) + j)
        = P2.cpu_data ((i * L.shape 1 + c) * (L.shape 2 * L.shape 3) + j)) :
    positionStep P1.cpu_data L.cpu_data (L.shape 1) (L.shape 2 * L.shape 3) i s j
      = positionStep P2.cpu_data L.cpu_data (L.shape 1) (L.shape 2 * L.shape 3) i s j := by
  obtain ⟨hE, _, _, _, hTR⟩ := hs
  obtain ⟨_, _, _, _, _, _, _, l8, l9⟩ :=
    labelLoop_spec L.cpu_data (L.shape 1) (L.shape 2 * L.shape 3) i j
      { s with nz := 0, no := 0 } hE hTR (L.shape 1) le_rfl
  have hgate := gate_iff L i j _ l8 l9
  unfold positionStep
  simp only []
  by_cases hg : isScored L i j = true
  · rw [if_pos (hgate.mpr hg), if_pos (hgate.mpr hg)]
    apply List.foldl_ext
    intro a c hc
    unfold scoreStep
    rw [hagree hg c (List.mem_range.mp hc)]
  · rw [if_neg (fun h => hg (hgate.mp h)), if_neg (fun h => hg (hgate.mp h))]

/-- Predictions that agree at every scored position give the same counters. -/
theorem scan_congr (P1 P2 L : Blob) (h1 : P1.shape_ = L.shape_) (h2 : P2.shape_ = L.shape_)
    (hagree : ∀ n p, n < L.shape 0 → p < L.shape 2 * L.shape 3 → isScored L n p = true →
      ∀ c, c < L.shape 1 → P1.elem n c p = P2.elem n c p) :
    scan P1 L = scan P2 L := by
  have hs1 : ∀ a, P1.shape a = L.shape a := fun a => by simp [Blob.shape, h1]
  have hs2 : ∀ a, P2.shape a = L.shape a := fun a => by simp [Blob.shape, h2]
  unfold scan
  simp only [hs1, hs2]
  apply foldl_congr_inv _ _ (WF (L.shape 1)) _ _ _ _ (WF_init _)
  · intro s i _ hs
    exact batchStep_WF P1 L h1 i s hs
  · intro s i hi hs
    unfold batchStep
    apply foldl_congr_inv _ _ (WF (L.shape 1)) _ _ _ _ hs
    · intro s j _ hs
      exact (positionStep_spec P1 L h1 i j s hs).1
    · intro s j hj hs
      apply positionStep_congr P1 P2 L i j s hs
      intro hg c hc
      have := hagree i j (List.mem_range.mp hi) (List.mem_range.mp hj) hg c hc
      simpa [Blob.elem, hs1, hs2] using this

/-- C7: for every label blob and every two prediction blobs of its shape that differ
only at positions where fewer than all classes have a positive label and no class has
a label above `GTHRESH`, `Forward_cpu` gives the same result, hence the same scalar
and the same per-class outputs. -/
theorem dont_care_noninterference (self : IouAccuracyLayer) (P1 P2 L : Blob) (top : Top)
    (N C H W : Nat) (hP1 : P1.shape_ = [N, C, H, W]) (hP2 : P2.shape_ = [N, C, H, W])
    (hL : L.shape_ = [N, C, H, W])
    (hdiff : ∀ n p, n < N → p < H * W → ¬ (nzRef L n p < C ∧ noRef L n p = 0) →
      ∀ c, c < C → P1.elem n c p = P2.elem n c p) :
    Forward_cpu self P1 L top = Forward_cpu self P2 L top ∧
    scalarOut self P1 L top = scalarOut self P2 L top ∧
    (∀ c, perClassOut self P1 L top c = perClassOut self P2 L top c) := by
  have hL0 : L.shape 0 = N := by simp [Blob.shape, hL]
  have hL1 : L.shape 1 = C := by simp [Blob.shape, hL]
  have hL23 : L.shape 2 * L.shape 3 = H * W := by simp [Blob.shape, hL]
  have hscan : scan P1 L = scan P2 L := by
    apply scan_congr P1 P2 L (hP1.trans hL.symm) (hP2.trans hL.symm)
    intro n p hn hp hg c hc
    rw [hL0] at hn
    rw [hL23] at hp
    rw [hL1] at hc
    apply hdiff n p hn hp _ c hc
    rw [isScored_iff, hL1] at hg
    omega
  have hsh : P1.shape 1 = P2.shape 1 := by simp [Blob.shape, hP1, hP2]
  have hF : Forward_cpu self P1 L top = Forward_cpu self P2 L top := by
    unfold Forward_cpu
    rw [hscan, hsh]
  refine ⟨hF, ?_, ?_⟩
  · unfold scalarOut
    rw [hF]
  · intro c
    unfold perClassOut
    rw [hF]

/-- Witness of C7: the predictions (0.5, 0.01) and (0.0, 0.5) differ at the only
position of the labels (0.25, 0.0), which is not scored; the results are the same. -/
theorem dont_care_noninterference_witness :
    predA.shape_ = [1, 2, 1, 1] ∧ predC.shape_ = [1, 2, 1, 1] ∧ labelB.shape_ = [1, 2, 1, 1] ∧
    (∀ n p, n < 1 → p < 1 * 1 → ¬ (nzRef labelB n p < 2 ∧ noRef labelB n p = 0) →
      ∀ c, c < 2 → predA.elem n c p = predC.elem n c p) ∧
    predA.elem 0 0 0 ≠ predC.elem 0 0 0 ∧
    scalarOut layer0 predA labelB top2 = scalarOut layer0 predC labelB top2 :=
  have hdiff : ∀ n p, n < 1 → p < 1 * 1 → ¬ (nzRef labelB n p < 2 ∧ noRef labelB n p = 0) →
      ∀ c, c < 2 → predA.elem n c p = predC.elem n c p := by
    intro n p hn hp hne
    have hn0 : n = 0 := by omega
    have hp0 : p = 0 := by omega
    subst hn0 hp0
    exact absurd ⟨by rw [nzRef_labelB]; decide, noRef_labelB⟩ hne
  ⟨rfl, rfl, rfl, hdiff,
    by norm_num [Blob.elem, predA, predC, blobOf, Blob.shape],
    (dont_care_noninterference layer0 predA predC labelB top2 1 2 1 1 rfl rfl rfl hdiff).2.1⟩

/-! ## C8, C9: the per-class output -/

/-- `Reshape` on blobs of equal shape: no check fails and the outputs are reshaped. -/
theorem Reshape_matched (self : IouAccuracyLayer) (P L : Blob) (top : Top) (t1 : Blob)
    (hsh : P.shape_ = L.shape_) (htop : top.top1 = some t1) :
    Reshape self P L top
      = (({ self with nums_buffer_ := self.nums_buffer_.Reshape [P.shape 1] },
          { top0 := top.top0.Reshape [], top1 := some (t1.Reshape [P.shape 1]) }), none) := by
  have h : ∀ a, L.shape a = P.shape a := fun a => by simp [Blob.shape, hsh]
  unfold Reshape
  simp [h, htop]

/-- The blob `top[1]` after `Forward_cpu`: the first `count()` entries are written. -/
theorem Forward_cpu_top1 (self : IouAccuracyLayer) (P L : Blob) (top : Top) (t1 : Blob)
    (htop : top.top1 = some t1) :
    (Forward_cpu self P L top).2.top1
      = some { shape_ := t1.shape_
               cpu_data := fun k =>
                 if k < t1.count then
                   (if (scan P L).tr.getD k 0 > 0 then iou (scan P L) k else Dtype.fin 1)
                 else t1.cpu_data k } := by
  unfold Forward_cpu
  simp only [htop, Option.map_some']
  congr 2
  funext k
  show ((List.range t1.count).foldl (perClassStep (scan P L)) _) k = _
  rw [perClassLoop_eq]
  by_cases hk : k < t1.count
  · simp only [hk, if_true]
  · simp only [hk, if_false, caffe_set]

/-- C8: for every shape-matched input with the per-class output requested, after
`Reshape` and `Forward_cpu` the blob `top[1]` has exactly C entries; the entry of a
class with no positive label anywhere is exactly 1.0 and the entry of a class with a
positive present count is TP / (TP + FP + FN). -/
theorem per_class_output (self : IouAccuracyLayer) (P L : Blob) (top : Top) (t1 : Blob)
    (N C H W : Nat) (hP : P.shape_ = [N, C, H, W]) (hL : L.shape_ = [N, C, H, W])
    (htop : top.top1 = some t1) :
    (Reshape self P L top).2 = none ∧
    ∃ t, (Forward_cpu (Reshape self P L top).1.1 P L (Reshape self P L top).1.2).2.top1 = some t ∧
      t.shape_ = [C] ∧ t.count = C ∧
      (∀ c, c < C → (∀ n p, n < N → p < H * W → isPresent L n c p = false) →
        t.cpu_data c = Dtype.fin 1) ∧
      (∀ c, c < C → presentCountRef L c = 0 → t.cpu_data c = Dtype.fin 1) ∧
      (∀ c, c < C → 0 < presentCountRef L c →
        t.cpu_data c = Dtype.div (Dtype.cast (truePositiveRef P L c))
          (Dtype.cast (truePositiveRef P L c + falsePositiveRef P L c
            + falseNegativeRef P L c))) := by
  have hsh : P.shape_ = L.shape_ := hP.trans hL.symm
  have hCP : P.shape 1 = C := by simp [Blob.shape, hP]
  have hCL : L.shape 1 = C := by simp [Blob.shape, hL]
  rw [Reshape_matched self P L top t1 hsh htop, hCP]
  refine ⟨rfl, _, Forward_cpu_top1 _ P L _ (t1.Reshape [C]) rfl, rfl, ?_, ?_, ?_, ?_⟩
  · simp [Blob.count, Blob.Reshape]
  · intro c hc habs
    have h0 : presentCountRef L c = 0 := by
      unfold presentCountRef
      rw [Finset.card_eq_zero, Finset.filter_eq_empty_iff]
      intro np hnp
      have hm : np.1 < N ∧ np.2 < H * W := by
        simpa [positions, Blob.shape, hL] using hnp
      rw [habs np.1 np.2 hm.1 hm.2]
      exact Bool.false_ne_true
    have htr := (scan_spec P L hsh c (by rw [hCL]; exact hc)).1
    simp only [Blob.count, Blob.Reshape, List.prod_cons, List.prod_nil, Nat.mul_one, hc,
      if_true, htr, h0, gt_iff_lt, Nat.lt_irrefl, if_false]
  · intro c hc h0
    have htr := (scan_spec P L hsh c (by rw [hCL]; exact hc)).1
    simp only [Blob.count, Blob.Reshape, List.prod_cons, List.prod_nil, Nat.mul_one, hc,
      if_true, htr, h0, gt_iff_lt, Nat.lt_irrefl, if_false]
  · intro c hc hpos
    have htr := (scan_spec P L hsh c (by rw [hCL]; exact hc)).1
    have hi := iou_scan P L hsh c (by rw [hCL]; exact hc)
    simp only [Blob.count, Blob.Reshape, List.prod_cons, List.prod_nil, Nat.mul_one, hc,
      if_true, htr, hpos, gt_iff_lt, hi]
    rfl

/-- Witness of C8 on the scenario of the specification: `top[1]` has two entries and
the entry of the absent class 1 is 1.0. -/
theorem per_class_output_witness :
    predA.shape_ = [1, 2, 1, 1] ∧ labelA.shape_ = [1, 2, 1, 1] ∧
    top2.top1 = some { shape_ := [2], cpu_data := fun _ => Dtype.nan } ∧
    ∃ t, (Forward_cpu (Reshape layer0 predA labelA top2).1.1 predA labelA
        (Reshape layer0 predA labelA top2).1.2).2.top1 = some t ∧
      t.count = 2 ∧ t.cpu_data 1 = Dtype.fin 1 := by
  obtain ⟨_, t, ht, _, hcount, _, hz, _⟩ :=
    per_class_output layer0 predA labelA top2 _ 1 2 1 1 rfl rfl rfl
  refine ⟨rfl, rfl, rfl, t, ht, hcount, hz 1 (by decide) ?_⟩
  have h := (scan_spec predA labelA rfl 1 (by decide)).1
  rw [scan_predA_labelA.1] at h
  exact h.symm

/-- C9: for every shape-matched input with the per-class output requested and at
least one present class, the mean of the entries of `top[1]` at the present classes
(summed in class order and divided by their number) equals the scalar in `top[0]`. -/
theorem per_class_mean_eq_scalar (self : IouAccuracyLayer) (P L : Blob) (top : Top)
    (t1 : Blob) (N C H W : Nat) (hP : P.shape_ = [N, C, H, W]) (hL : L.shape_ = [N, C, H, W])
    (htop : top.top1 = some t1) (_hpres : ∃ c, c < C ∧ 0 < presentCountRef L c) :
    ∃ t, (Forward_cpu (Reshape self P L top).1.1 P L (Reshape self P L top).1.2).2.top1 = some t ∧
      Dtype.div
        (Dtype.sum (((List.range C).filter (fun c => decide (0 < presentCountRef L c))).map
          t.cpu_data))
        (Dtype.cast ((List.range C).filter (fun c => decide (0 < presentCountRef L c))).length)
      = scalarOut (Reshape self P L top).1.1 P L (Reshape self P L top).1.2 := by
  have hsh : P.shape_ = L.shape_ := hP.trans hL.symm
  have hCP : P.shape 1 = C := by simp [Blob.shape, hP]
  have hCL : L.shape 1 = C := by simp [Blob.shape, hL]
  rw [Reshape_matched self P L top t1 hsh htop, hCP]
  refine ⟨_, Forward_cpu_top1 _ P L _ (t1.Reshape [C]) rfl, ?_⟩
  rw [scalarOut_eq _ P L hsh]
  unfold meanIouRef presentClassesRef
  rw [hCL]
  congr 2
  apply List.map_congr_left
  intro c hc
  obtain ⟨hc1, hc2⟩ := List.mem_filter.mp hc
  have hc1 := List.mem_range.mp hc1
  have hpos : 0 < presentCountRef L c := of_decide_eq_true hc2
  have htr := (scan_spec P L hsh c (by rw [hCL]; exact hc1)).1
  have hi := iou_scan P L hsh c (by rw [hCL]; exact hc1)
  simp only [Blob.count, Blob.Reshape, List.prod_cons, List.prod_nil, Nat.mul_one, hc1,
    if_true, htr, hpos, gt_iff_lt, hi]

/-- Witness of C9 on the scenario of the specification: class 0 is present and the
mean of the entries of `top[1]` at the present classes is the scalar, 1.0. -/
theorem per_class_mean_eq_scalar_witness :
    predA.shape_ = [1, 2, 1, 1] ∧ labelA.shape_ = [1, 2, 1, 1] ∧
    top2.top1 = some { shape_ := [2], cpu_data := fun _ => Dtype.nan } ∧
    (∃ c, c < 2 ∧ 0 < presentCountRef labelA c) ∧
    ∃ t, (Forward_cpu (Reshape layer0 predA labelA top2).1.1 predA labelA
        (Reshape layer0 predA labelA top2).1.2).2.top1 = some t ∧
      Dtype.div
        (Dtype.sum (((List.range 2).filter (fun c => decide (0 < presentCountRef labelA c))).map
          t.cpu_data))
        (Dtype.cast ((List.range 2).filter (fun c => decide (0 < presentCountRef labelA c))).length)
      = scalarOut (Reshape layer0 predA labelA top2).1.1 predA labelA
          (Reshape layer0 predA labelA top2).1.2 := by
  have hpres : ∃ c, c < 2 ∧ 0 < presentCountRef labelA c := by
    refine ⟨0, by decide, ?_⟩
    have h := (scan_spec predA labelA rfl 0 (by decide)).1
    rw [scan_predA_labelA.1] at h
    rw [← h]
    decide
  exact ⟨rfl, rfl, rfl, hpres,
    per_class_mean_eq_scalar layer0 predA labelA top2 _ 1 2 1 1 rfl rfl rfl hpres⟩

/-! ## C10: the shape contract of Reshape -/

/-- C10: on two four-axis blobs `Reshape` fails exactly when they differ in N, C, H
or W; the message names the first differing axis in that order and the layer and the
outputs are left as they were; when the four extents agree it succeeds and reshapes
`top[0]` to a scalar and, when requested, `top[1]` to a vector of C entries. -/
theorem reshape_shape_contract (self : IouAccuracyLayer) (P L : Blob) (top : Top)
    (n0 c0 h0 w0 n1 c1 h1 w1 : Nat)
    (hP : P.shape_ = [n0, c0, h0, w0]) (hL : L.shape_ = [n1, c1, h1, w1]) :
    ((Reshape self P L top).2.isSome = true ↔ (n0 ≠ n1 ∨ c0 ≠ c1 ∨ h0 ≠ h1 ∨ w0 ≠ w1)) ∧
    (n0 ≠ n1 →
      Reshape self P L top = ((self, top), some "bottom blobs must have same N")) ∧
    (n0 = n1 → c0 ≠ c1 →
      Reshape self P L top = ((self, top), some "bottom blobs must have same C")) ∧
    (n0 = n1 → c0 = c1 → h0 ≠ h1 →
      Reshape self P L top = ((self, top), some "bottom blobs must have same H")) ∧
    (n0 = n1 → c0 = c1 → h0 = h1 → w0 ≠ w1 →
      Reshape self P L top = ((self, top), some "bottom blobs must have same W")) ∧
    (n0 = n1 → c0 = c1 → h0 = h1 → w0 = w1 →
      (Reshape self P L top).2 = none ∧
      (Reshape self P L top).1.2.top0.shape_ = [] ∧
      (Reshape self P L top).1.2.top1 = top.top1.map (fun t => t.Reshape [c0])) := by
  have e0 : P.shape 0 = n0 := by simp [Blob.shape, hP]
  have e1 : P.shape 1 = c0 := by simp [Blob.shape, hP]
  have e2 : P.shape 2 = h0 := by simp [Blob.shape, hP]
  have e3 : P.shape 3 = w0 := by simp [Blob.shape, hP]
  have f0 : L.shape 0 = n1 := by simp [Blob.shape, hL]
  have f1 : L.shape 1 = c1 := by simp [Blob.shape, hL]
  have f2 : L.shape 2 = h1 := by simp [Blob.shape, hL]
  have f3 : L.shape 3 = w1 := by simp [Blob.shape, hL]
  unfold Reshape
  simp only [e0, e1, e2, e3, f0, f1, f2, f3]
  by_cases hn : n0 = n1
  · by_cases hc : c0 = c1
    · by_cases hh : h0 = h1
      · by_cases hw : w0 = w1
        · cases htop : top.top1 <;> simp [hn, hc, hh, hw, Blob.Reshape]
        · simp [hn, hc, hh, hw]
      · simp [hn, hc, hh]
    · simp [hn, hc]
  · simp [hn]

/-- Witness of C10: blobs of shapes (1, 2, 1, 1) and (1, 3, 1, 1) differ first in C;
`Reshape` fails with the message for C and leaves the layer and the outputs alone. -/
theorem reshape_shape_contract_witness :
    predA.shape_ = [1, 2, 1, 1] ∧ labelWide.shape_ = [1, 3, 1, 1] ∧
    (Reshape layer0 predA labelWide top2).2.isSome = true ∧
    Reshape layer0 predA labelWide top2
      = ((layer0, top2), some "bottom blobs must have same C") :=
  ⟨rfl, rfl,
    (reshape_shape_contract layer0 predA labelWide top2 1 2 1 1 1 3 1 1 rfl rfl).1.mpr
      (Or.inr (Or.inl (by decide))),
    (reshape_shape_contract layer0 predA labelWide top2 1 2 1 1 1 3 1 1 rfl rfl).2.2.1 rfl
      (by decide)⟩

/-! ## C11: no present class -/

/-- A value above `GTHRESH` is above zero. -/
theorem gt_zero_of_gt_GTHRESH (e : Dtype) (h : Dtype.gt e GTHRESH = true) :
    Dtype.gt e (Dtype.fin 0) = true := by
  cases e with
  | fin a =>
    simp only [Dtype.gt, GTHRESH, decide_eq_true_eq] at h ⊢
    have : (0 : ℚ) < 11072963 / 33554432 := by norm_num
    linarith
  | pinf => rfl
  | ninf => simp [Dtype.gt, GTHRESH] at h
  | nan => simp [Dtype.gt, GTHRESH] at h

/-- An expected class is present. -/
theorem isPresent_of_isExpected (L : Blob) (n c p : Nat) (h : isExpected L n c p = true) :
    isPresent L n c p = true :=
  gt_zero_of_gt_GTHRESH _ h

/-- The scalar is the quotient of the locals `accuracy` and `valid`. -/
theorem scalarOut_eq_div (self : IouAccuracyLayer) (P L : Blob) (top : Top) :
    scalarOut self P L top = Dtype.div (accuracyOut P L) (Dtype.cast (validOut P L)) := by
  unfold scalarOut Forward_cpu accuracyOut validOut
  simp only [Function.update_same]

/-- The local `valid` is zero exactly when no class below C has a positive counter `tr`. -/
theorem validOut_eq_zero_iff (P L : Blob) :
    validOut P L = 0 ↔ ∀ c, c < P.shape 1 → (scan P L).tr.getD c 0 = 0 := by
  unfold validOut
  rw [accumulate_eq]
  simp only [List.length_eq_zero, List.filter_eq_nil_iff, List.mem_range, decide_eq_true_eq]
  constructor
  · intro h c hc
    have := h c hc
    omega
  · intro h c hc
    rw [h c hc]
    exact Nat.lt_irrefl 0

/-- A reference present count is zero exactly when no position has a positive label. -/
theorem presentCountRef_eq_zero_iff (L : Blob) (c : Nat) :
    presentCountRef L c = 0 ↔
      ∀ n p, n < L.shape 0 → p < L.shape 2 * L.shape 3 → isPresent L n c p = false := by
  unfold presentCountRef
  rw [Finset.card_eq_zero, Finset.filter_eq_empty_iff]
  constructor
  · intro h n p hn hp
    have := h (x := (n, p)) (by simp [positions, hn, hp])
    simpa using this
  · intro h np hnp
    have hm : np.1 < L.shape 0 ∧ np.2 < L.shape 2 * L.shape 3 := by
      simpa [positions] using hnp
    rw [h np.1 np.2 hm.1 hm.2]
    exact Bool.false_ne_true

/-- A position where no class has a positive label is not scored. -/
theorem not_scored_of_no_present (L : Blob) (n p : Nat) (hC : 0 < L.shape 1)
    (h : ∀ c, c < L.shape 1 → isPresent L n c p = false) : ¬ isScored L n p = true := by
  rw [isScored_iff]
  have hnz : nzRef L n p = 0 := by
    unfold nzRef
    rw [Finset.card_eq_zero, Finset.filter_eq_empty_iff]
    intro c hc
    rw [h c (Finset.mem_range.mp hc)]
    exact Bool.false_ne_true
  have hno : noRef L n p = 0 := by
    unfold noRef
    rw [Finset.card_eq_zero, Finset.filter_eq_empty_iff]
    intro c hc he
    have := isPresent_of_isExpected L n c p he
    rw [h c (Finset.mem_range.mp hc)] at this
    exact Bool.false_ne_true this
  omega

/-- The blob `top[1]` after `Reshape` and `Forward_cpu` on blobs of equal shape: it has
one entry per class, the value of line 106. -/
theorem top1_after_reshape (self : IouAccuracyLayer) (P L : Blob) (top : Top) (t1 : Blob)
    (C : Nat) (hsh : P.shape_ = L.shape_) (hC : P.shape 1 = C) (htop : top.top1 = some t1) :
    ∃ t, (Forward_cpu (Reshape self P L top).1.1 P L (Reshape self P L top).1.2).2.top1 = some t ∧
      t.shape_ = [C] ∧ t.count = C ∧
      ∀ c, c < C → t.cpu_data c
        = if (scan P L).tr.getD c 0 > 0 then iou (scan P L) c else Dtype.fin 1 := by
  rw [Reshape_matched self P L top t1 hsh htop, hC]
  refine ⟨_, Forward_cpu_top1 _ P L _ (t1.Reshape [C]) rfl, rfl, ?_, ?_⟩
  · simp [Blob.count, Blob.Reshape]
  · intro c hc
    simp only [Blob.count, Blob.Reshape, List.prod_cons, List.prod_nil, Nat.mul_one, hc,
      if_true]

/-- C11: for every shape-matched input the local `valid` is 0 exactly when no label
is positive; in that case `tr`, `tp`, `fp`, `fn` are 0 for every class, `accuracy` is 0
and the scalar is the quotient 0 / 0, which is NaN (no error is raised), and every entry
of the per-class output, when requested, is 1.0. -/
theorem no_present_class (self : IouAccuracyLayer) (P L : Blob) (top : Top)
    (N C H W : Nat) (hP : P.shape_ = [N, C, H, W]) (hL : L.shape_ = [N, C, H, W]) :
    (validOut P L = 0 ↔
      ∀ n c p, n < N → c < C → p < H * W → isPresent L n c p = false) ∧
    (validOut P L = 0 →
      (∀ c, c < C → (scan P L).tr.getD c 0 = 0 ∧ (scan P L).tp.getD c 0 = 0 ∧
        (scan P L).fp.getD c 0 = 0 ∧ (scan P L).fn.getD c 0 = 0) ∧
      accuracyOut P L = Dtype.fin 0 ∧
      scalarOut self P L top = Dtype.div (Dtype.fin 0) (Dtype.cast 0) ∧
      scalarOut self P L top = Dtype.nan ∧
      (∀ t1, top.top1 = some t1 →
        ∃ t, (Forward_cpu (Reshape self P L top).1.1 P L
            (Reshape self P L top).1.2).2.top1 = some t ∧
          t.count = C ∧ ∀ c, c < C → t.cpu_data c = Dtype.fin 1)) := by
  have hsh : P.shape_ = L.shape_ := hP.trans hL.symm
  have hCP : P.shape 1 = C := by simp [Blob.shape, hP]
  have hL0 : L.shape 0 = N := by simp [Blob.shape, hL]
  have hL1 : L.shape 1 = C := by simp [Blob.shape, hL]
  have hL23 : L.shape 2 * L.shape 3 = H * W := by simp [Blob.shape, hL]
  have hiff : validOut P L = 0 ↔
      ∀ n c p, n < N → c < C → p < H * W → isPresent L n c p = false := by
    rw [validOut_eq_zero_iff, hCP]
    constructor
    · intro h n c p hn hc hp
      have h0 := h c hc
      rw [(scan_spec P L hsh c (by rw [hL1]; exact hc)).1, presentCountRef_eq_zero_iff,
        hL0, hL23] at h0
      exact h0 n p hn hp
    · intro h c hc
      rw [(scan_spec P L hsh c (by rw [hL1]; exact hc)).1, presentCountRef_eq_zero_iff,
        hL0, hL23]
      exact fun n p hn hp => h n c p hn hc hp
  refine ⟨hiff, ?_⟩
  intro hv
  have hall := hiff.mp hv
  have hmem : ∀ np ∈ positions L, np.1 < N ∧ np.2 < H * W := by
    intro np hnp
    simpa [positions, Blob.shape, hL] using hnp
  have htr : ∀ c, c < C → (scan P L).tr.getD c 0 = 0 := by
    rw [← hCP]
    exact (validOut_eq_zero_iff P L).mp hv
  have hcnt : ∀ c, c < C → (scan P L).tr.getD c 0 = 0 ∧ (scan P L).tp.getD c 0 = 0 ∧
      (scan P L).fp.getD c 0 = 0 ∧ (scan P L).fn.getD c 0 = 0 := by
    intro c hc
    obtain ⟨_, h2, h3, h4⟩ := scan_spec P L hsh c (by rw [hL1]; exact hc)
    refine ⟨htr c hc, ?_, ?_, ?_⟩
    · rw [h2]
      unfold truePositiveRef
      rw [Finset.card_eq_zero, Finset.filter_eq_empty_iff]
      rintro np hnp ⟨_, he, _⟩
      have := isPresent_of_isExpected L np.1 c np.2 he
      rw [hall np.1 c np.2 (hmem np hnp).1 hc (hmem np hnp).2] at this
      exact Bool.false_ne_true this
    · rw [h4]
      unfold falsePositiveRef
      rw [Finset.card_eq_zero, Finset.filter_eq_empty_iff]
      rintro np hnp ⟨hs, _, _⟩
      refine not_scored_of_no_present L np.1 np.2 (by rw [hL1]; omega) ?_ hs
      intro c2 hc2
      rw [hL1] at hc2
      exact hall np.1 c2 np.2 (hmem np hnp).1 hc2 (hmem np hnp).2
    · rw [h3]
      unfold falseNegativeRef
      rw [Finset.card_eq_zero, Finset.filter_eq_empty_iff]
      rintro np hnp ⟨_, he, _⟩
      have := isPresent_of_isExpected L np.1 c np.2 he
      rw [hall np.1 c np.2 (hmem np hnp).1 hc (hmem np hnp).2] at this
      exact Bool.false_ne_true this
  have hnil : (List.range (P.shape 1)).filter
      (fun c => decide ((scan P L).tr.getD c 0 > 0)) = [] := by
    rw [List.filter_eq_nil_iff]
    intro c hc
    rw [hCP] at hc
    rw [htr c (List.mem_range.mp hc)]
    decide
  have hacc : accuracyOut P L = Dtype.fin 0 := by
    unfold accuracyOut
    rw [accumulate_eq, hnil]
    rfl
  have hdiv : scalarOut self P L top = Dtype.div (Dtype.fin 0) (Dtype.cast 0) := by
    rw [scalarOut_eq_div, hacc, hv]
  refine ⟨hcnt, hacc, hdiv, ?_, ?_⟩
  · rw [hdiv]
    simp [Dtype.div, Dtype.cast]
  · intro t1 htop
    obtain ⟨t, ht, _, hcount, hval⟩ := top1_after_reshape self P L top t1 C hsh hCP htop
    refine ⟨t, ht, hcount, ?_⟩
    intro c hc
    rw [hval c hc, htr c hc]
    rfl

/-- Witness of C11 on the labels (0.0, 0.0) with N = 1, C = 2, H = W = 1: `valid` is 0,
the scalar is NaN and both per-class entries are 1.0. -/
theorem no_present_class_witness :
    predA.shape_ = [1, 2, 1, 1] ∧ labelZero.shape_ = [1, 2, 1, 1] ∧
    validOut predA labelZero = 0 ∧
    scalarOut layer0 predA labelZero top2 = Dtype.nan ∧
    ∃ t, (Forward_cpu (Reshape layer0 predA labelZero top2).1.1 predA labelZero
        (Reshape layer0 predA labelZero top2).1.2).2.top1 = some t ∧
      t.count = 2 ∧ ∀ c, c < 2 → t.cpu_data c = Dtype.fin 1 := by
  have hv : validOut predA labelZero = 0 := by
    norm_num [validOut, accumulate, accStep, scan, batchStep, positionStep, labelStep,
      scoreStep, predA, labelZero, blobOf, Blob.shape, List.range_succ, List.replicate_succ,
      bump, Dtype.gt, GTHRESH, PTHRESH]
  obtain ⟨_, _, _, hnan, htop⟩ :=
    (no_present_class layer0 predA labelZero top2 1 2 1 1 rfl rfl).2 hv
  exact ⟨rfl, rfl, hv, hnan, htop _ rfl⟩

/-! ## C13, C14: configuration and prior state -/

/-- The `top` blobs written by `Forward_cpu` do not depend on the layer object. -/
theorem Forward_cpu_top_indep (self1 self2 : IouAccuracyLayer) (P L : Blob) (top : Top) :
    (Forward_cpu self1 P L top).2 = (Forward_cpu self2 P L top).2 := by
  unfold Forward_cpu
  rfl

/-- C13: for every input and every two configurations (`top_k`, `has_ignore_label`,
`ignore_label`), set up by `LayerSetUp` or written into the members directly,
`Forward_cpu` writes the same `top` blobs, hence the same scalar and per-class
outputs, leaves the same `nums_buffer_` and does not touch the configuration; a
configured `ignore_label` therefore changes nothing in the aggregation. -/
theorem config_noninterference (self : IouAccuracyLayer) (param1 param2 : AccuracyParameter)
    (k : Nat) (b : Bool) (v : Int) (P L : Blob) (top : Top) :
    (Forward_cpu (LayerSetUp { self with layer_param_ := param1 }) P L top).2
      = (Forward_cpu (LayerSetUp { self with layer_param_ := param2 }) P L top).2 ∧
    scalarOut (LayerSetUp { self with layer_param_ := param1 }) P L top
      = scalarOut (LayerSetUp { self with layer_param_ := param2 }) P L top ∧
    (∀ c, perClassOut (LayerSetUp { self with layer_param_ := param1 }) P L top c
      = perClassOut (LayerSetUp { self with layer_param_ := param2 }) P L top c) ∧
    (Forward_cpu { self with top_k_ := k, has_ignore_label_ := b, ignore_label_ := v } P L top).2
      = (Forward_cpu self P L top).2 ∧
    (Forward_cpu { self with top_k_ := k, has_ignore_label_ := b, ignore_label_ := v }
        P L top).1.nums_buffer_
      = (Forward_cpu self P L top).1.nums_buffer_ ∧
    (Forward_cpu self P L top).1.top_k_ = self.top_k_ ∧
    (Forward_cpu self P L top).1.has_ignore_label_ = self.has_ignore_label_ ∧
    (Forward_cpu self P L top).1.ignore_label_ = self.ignore_label_ ∧
    (Forward_cpu self P L top).1.layer_param_ = self.layer_param_ := by
  have h := Forward_cpu_top_indep (LayerSetUp { self with layer_param_ := param1 })
    (LayerSetUp { self with layer_param_ := param2 }) P L top
  refine ⟨h, ?_, ?_, Forward_cpu_top_indep _ _ P L top, ?_, ?_, ?_, ?_, ?_⟩
  · unfold scalarOut
    rw [h]
  · intro c
    unfold perClassOut
    rw [h]
  all_goals
    unfold Forward_cpu
    cases top.top1 <;> rfl

/-- `Reshape` on blobs of equal shape when only `top[0]` is requested. -/
theorem Reshape_matched_none (self : IouAccuracyLayer) (P L : Blob) (top : Top)
    (hsh : P.shape_ = L.shape_) (htop : top.top1 = none) :
    Reshape self P L top = ((self, { top with top0 := top.top0.Reshape [] }), none) := by
  have h : ∀ a, L.shape a = P.shape a := fun a => by simp [Blob.shape, hsh]
  unfold Reshape
  simp [h, htop]

/-- The outputs of `Reshape` followed by `Forward_cpu` on blobs of equal shape, in
terms of the inputs alone. -/
theorem outputs_after_reshape (self : IouAccuracyLayer) (P L : Blob) (top : Top) (C : Nat)
    (hsh : P.shape_ = L.shape_) (hC : P.shape 1 = C) :
    (Forward_cpu (Reshape self P L top).1.1 P L (Reshape self P L top).1.2).2.top0.shape_ = [] ∧
    (Forward_cpu (Reshape self P L top).1.1 P L (Reshape self P L top).1.2).2.top0.cpu_data 0
      = meanIouRef P L ∧
    (Forward_cpu (Reshape self P L top).1.1 P L (Reshape self P L top).1.2).2.top1.map
        Blob.shape_ = top.top1.map (fun _ => [C]) ∧
    (∀ c, c < C →
      (Forward_cpu (Reshape self P L top).1.1 P L (Reshape self P L top).1.2).2.top1.map
          (fun t => t.cpu_data c)
        = top.top1.map (fun _ =>
            if (scan P L).tr.getD c 0 > 0 then iou (scan P L) c else Dtype.fin 1)) := by
  have hs := scalarOut_eq (Reshape self P L top).1.1 P L hsh (Reshape self P L top).1.2
  unfold scalarOut at hs
  refine ⟨?_, hs, ?_, ?_⟩
  · cases htop : top.top1 with
    | none =>
      rw [Reshape_matched_none self P L top hsh htop]
      rfl
    | some t1 =>
      rw [Reshape_matched self P L top t1 hsh htop]
      rfl
  · cases htop : top.top1 with
    | none =>
      rw [Reshape_matched_none self P L top hsh htop]
      unfold Forward_cpu
      simp [htop]
    | some t1 =>
      obtain ⟨t, ht, hshape, _, _⟩ := top1_after_reshape self P L top t1 C hsh hC htop
      rw [ht]
      simp [hshape]
  · intro c hc
    cases htop : top.top1 with
    | none =>
      rw [Reshape_matched_none self P L top hsh htop]
      unfold Forward_cpu
      simp [htop]
    | some t1 =>
      obtain ⟨t, ht, _, _, hval⟩ := top1_after_reshape self P L top t1 C hsh hC htop
      rw [ht]
      simp only [Option.map_some', hval c hc]

/-- `Forward_cpu` keeps the number of `top` blobs. -/
theorem Forward_cpu_top1_isSome (self : IouAccuracyLayer) (P L : Blob) (top : Top) :
    (Forward_cpu self P L top).2.top1.isSome = top.top1.isSome := by
  unfold Forward_cpu
  cases top.top1 <;> rfl

/-- C14: for every shape-matched input and every two layer states with the same
request for the per-class output (arbitrary prior contents of `nums_buffer_`, `top[0]`
and `top[1]`, for example those left by an earlier call on other inputs), `Reshape`
followed by `Forward_cpu` gives the same scalar, the same output shapes and the same
per-class entries; the call takes the two bottom blobs as read-only arguments and
returns only the layer and the `top` blobs. -/
theorem forward_stateless (self self2 : IouAccuracyLayer) (top topB : Top) (P L P0 L0 : Blob)
    (N C H W : Nat) (hP : P.shape_ = [N, C, H, W]) (hL : L.shape_ = [N, C, H, W])
    (hreq : top.top1.isSome = topB.top1.isSome) :
    ((Forward_cpu (Reshape self P L top).1.1 P L (Reshape self P L top).1.2).2.top0.cpu_data 0
      = (Forward_cpu (Reshape self2 P L topB).1.1 P L
          (Reshape self2 P L topB).1.2).2.top0.cpu_data 0 ∧
     (Forward_cpu (Reshape self P L top).1.1 P L (Reshape self P L top).1.2).2.top0.shape_
      = (Forward_cpu (Reshape self2 P L topB).1.1 P L
          (Reshape self2 P L topB).1.2).2.top0.shape_ ∧
     (Forward_cpu (Reshape self P L top).1.1 P L (Reshape self P L top).1.2).2.top1.map
        Blob.shape_
      = (Forward_cpu (Reshape self2 P L topB).1.1 P L
          (Reshape self2 P L topB).1.2).2.top1.map Blob.shape_ ∧
     (∀ c, c < C →
      (Forward_cpu (Reshape self P L top).1.1 P L (Reshape self P L top).1.2).2.top1.map
          (fun t => t.cpu_data c)
        = (Forward_cpu (Reshape self2 P L topB).1.1 P L
            (Reshape self2 P L topB).1.2).2.top1.map (fun t => t.cpu_data c))) ∧
    ((Forward_cpu (Reshape (Forward_cpu self P0 L0 top).1 P L (Forward_cpu self P0 L0 top).2).1.1
        P L (Reshape (Forward_cpu self P0 L0 top).1 P L
          (Forward_cpu self P0 L0 top).2).1.2).2.top0.cpu_data 0
      = (Forward_cpu (Reshape self P L top).1.1 P L (Reshape self P L top).1.2).2.top0.cpu_data 0 ∧
     (∀ c, c < C →
      (Forward_cpu (Reshape (Forward_cpu self P0 L0 top).1 P L
          (Forward_cpu self P0 L0 top).2).1.1 P L
          (Reshape (Forward_cpu self P0 L0 top).1 P L
            (Forward_cpu self P0 L0 top).2).1.2).2.top1.map (fun t => t.cpu_data c)
        = (Forward_cpu (Reshape self P L top).1.1 P L (Reshape self P L top).1.2).2.top1.map
            (fun t => t.cpu_data c))) := by
  have hsh : P.shape_ = L.shape_ := hP.trans hL.symm
  have hCP : P.shape 1 = C := by simp [Blob.shape, hP]
  have key : ∀ (s1 s2 : IouAccuracyLayer) (ta tb : Top), ta.top1.isSome = tb.top1.isSome →
      (Forward_cpu (Reshape s1 P L ta).1.1 P L (Reshape s1 P L ta).1.2).2.top0.cpu_data 0
        = (Forward_cpu (Reshape s2 P L tb).1.1 P L (Reshape s2 P L tb).1.2).2.top0.cpu_data 0 ∧
      (Forward_cpu (Reshape s1 P L ta).1.1 P L (Reshape s1 P L ta).1.2).2.top0.shape_
        = (Forward_cpu (Reshape s2 P L tb).1.1 P L (Reshape s2 P L tb).1.2).2.top0.shape_ ∧
      (Forward_cpu (Reshape s1 P L ta).1.1 P L (Reshape s1 P L ta).1.2).2.top1.map Blob.shape_
        = (Forward_cpu (Reshape s2 P L tb).1.1 P L (Reshape s2 P L tb).1.2).2.top1.map
            Blob.shape_ ∧
      (∀ c, c < C →
        (Forward_cpu (Reshape s1 P L ta).1.1 P L (Reshape s1 P L ta).1.2).2.top1.map
            (fun t => t.cpu_data c)
          = (Forward_cpu (Reshape s2 P L tb).1.1 P L (Reshape s2 P L tb).1.2).2.top1.map
              (fun t => t.cpu_data c)) := by
    intro s1 s2 ta tb hab
    obtain ⟨a1, a2, a3, a4⟩ := outputs_after_reshape s1 P L ta C hsh hCP
    obtain ⟨b1, b2, b3, b4⟩ := outputs_after_reshape s2 P L tb C hsh hCP
    have hmap : ∀ {β : Type} (x : β), ta.top1.map (fun _ => x) = tb.top1.map (fun _ => x) := by
      intro β x
      cases ha : ta.top1 <;> cases hb : tb.top1 <;> simp_all
    refine ⟨a2.trans b2.symm, a1.trans b1.symm, ?_, ?_⟩
    · rw [a3, b3]
      exact hmap _
    · intro c hc
      rw [a4 c hc, b4 c hc]
      exact hmap _
  refine ⟨key self self2 top topB hreq, ?_⟩
  obtain ⟨k1, _, _, k4⟩ := key (Forward_cpu self P0 L0 top).1 self (Forward_cpu self P0 L0 top).2
    top (Forward_cpu_top1_isSome self P0 L0 top)
  exact ⟨k1, k4⟩

/-- Witness of C14: the fresh layer with stale buffers, and the state left by an earlier
call on the inputs of another scenario, give the same scalar. -/
theorem forward_stateless_witness :
    predA.shape_ = [1, 2, 1, 1] ∧ labelA.shape_ = [1, 2, 1, 1] ∧
    top2.top1.isSome = (Forward_cpu layer0 predC labelC top2).2.top1.isSome ∧
    (Forward_cpu (Reshape (Forward_cpu layer0 predC labelC top2).1 predA labelA
        (Forward_cpu layer0 predC labelC top2).2).1.1 predA labelA
        (Reshape (Forward_cpu layer0 predC labelC top2).1 predA labelA
          (Forward_cpu layer0 predC labelC top2).2).1.2).2.top0.cpu_data 0
      = (Forward_cpu (Reshape layer0 predA labelA top2).1.1 predA labelA
          (Reshape layer0 predA labelA top2).1.2).2.top0.cpu_data 0 :=
  ⟨rfl, rfl, rfl,
    (forward_stateless layer0 layer0 top2 top2 predA labelA predC labelC 1 2 1 1 rfl rfl
      rfl).2.1⟩

/-! ## C16: the gate and the expected labels -/

/-- C16: for every input and every class `c`, a position where the label of `c` is
above `GTHRESH` is scored, `tp[c] + fn[c]` is the number of all positions with such a
label, and so `tp[c] + fn[c]` is at most `tr[c]`. -/
theorem expected_never_hidden (P L : Blob) (N C H W : Nat)
    (hP : P.shape_ = [N, C, H, W]) (hL : L.shape_ = [N, C, H, W]) (c : Nat) (hc : c < C) :
    (∀ n p, isExpected L n c p = true → isScored L n p = true) ∧
    (scan P L).tp.getD c 0 + (scan P L).fn.getD c 0 = expectedCountRef L c ∧
    (scan P L).tp.getD c 0 + (scan P L).fn.getD c 0 ≤ (scan P L).tr.getD c 0 := by
  have hc1 : c < L.shape 1 := by simpa [Blob.shape, hL] using hc
  obtain ⟨h1, h2, h3, _⟩ := scan_spec P L (hP.trans hL.symm) c hc1
  have hsc : ∀ n p, isExpected L n c p = true → isScored L n p = true :=
    fun n p h => isScored_of_isExpected L n c p hc1 h
  have hsum : (scan P L).tp.getD c 0 + (scan P L).fn.getD c 0 = expectedCountRef L c := by
    rw [h2, h3]
    unfold truePositiveRef falseNegativeRef expectedCountRef
    rw [card_filter_positions L (fun n p => isScored L n p = true ∧
        isExpected L n c p = true ∧ isPredicted P n c p = true),
      card_filter_positions L (fun n p => isScored L n p = true ∧
        isExpected L n c p = true ∧ ¬ isPredicted P n c p = true),
      card_filter_positions L (fun n p => isExpected L n c p = true),
      ← Finset.sum_add_distrib]
    apply Finset.sum_congr rfl
    intro i _
    rw [← Finset.sum_add_distrib]
    apply Finset.sum_congr rfl
    intro j _
    by_cases he : isExpected L i c j = true
    · have hs := hsc i j he
      by_cases hp : isPredicted P i c j = true <;> simp [he, hs, hp]
    · simp [he]
  refine ⟨hsc, hsum, ?_⟩
  rw [hsum, h1]
  unfold expectedCountRef presentCountRef
  apply Finset.card_le_card
  intro np hnp
  rw [Finset.mem_filter] at hnp ⊢
  exact ⟨hnp.1, isPresent_of_isExpected L np.1 c np.2 hnp.2⟩

/-- Witness of C16 on the scenario of the specification, class 0: one expected
position, one true positive, no false negative. -/
theorem expected_never_hidden_witness :
    predA.shape_ = [1, 2, 1, 1] ∧ labelA.shape_ = [1, 2, 1, 1] ∧ 0 < 2 ∧
    expectedCountRef labelA 0 = 1 ∧
    (scan predA labelA).tp.getD 0 0 + (scan predA labelA).fn.getD 0 0
      ≤ (scan predA labelA).tr.getD 0 0 := by
  obtain ⟨_, h2, h3⟩ := expected_never_hidden predA labelA 1 2 1 1 rfl rfl 0 (by decide)
  refine ⟨rfl, rfl, by decide, ?_, h3⟩
  rw [← h2, scan_predA_labelA.2.1, scan_predA_labelA.2.2.1]
  rfl

/-! ## C18: the per-class quotient -/

theorem scan_predA_labelZero :
    (scan predA labelZero).tr = [0, 0] ∧ (scan predA labelZero).tp = [0, 0] ∧
    (scan predA labelZero).fn = [0, 0] ∧ (scan predA labelZero).fp = [0, 0] := by
  norm_num [scan, batchStep, positionStep, labelStep, scoreStep, predA, labelZero, blobOf,
    Blob.shape, List.range_succ, List.replicate_succ, bump, Dtype.gt, GTHRESH, PTHRESH]

theorem scalarOut_predA_labelZero : scalarOut layer0 predA labelZero top2 = Dtype.nan := by
  norm_num [scalarOut, Forward_cpu, accumulate, accStep, iou, scan, batchStep, positionStep,
    labelStep, scoreStep, predA, labelZero, blobOf, Blob.shape, List.range_succ,
    List.replicate_succ, bump, Dtype.gt, GTHRESH, PTHRESH, Dtype.div, Dtype.add, Dtype.cast]

/-- With a class present and a positive denominator for every present class, the scalar
lies between 0 and 1. -/
theorem scalarOut_inUnit_of_pos (self : IouAccuracyLayer) (P L : Blob) (top : Top) (C : Nat)
    (hC : P.shape 1 = C) (hpres : ∃ c, c < C ∧ 0 < (scan P L).tr.getD c 0)
    (hden : ∀ c, c < C → 0 < (scan P L).tr.getD c 0 →
      0 < (scan P L).tp.getD c 0 + (scan P L).fp.getD c 0 + (scan P L).fn.getD c 0) :
    (scalarOut self P L top).inUnit := by
  rw [scalarOut_eq_scan, hC]
  have hlen : 0 < (((List.range C).filter
      (fun c => decide ((scan P L).tr.getD c 0 > 0))).map (iou (scan P L))).length := by
    obtain ⟨c, hc, hpc⟩ := hpres
    rw [List.length_map]
    exact List.length_pos_of_mem
      (List.mem_filter.mpr ⟨List.mem_range.mpr hc, decide_eq_true hpc⟩)
  have h := mean_inUnit _ (fun x hx => by
    obtain ⟨c, hc, rfl⟩ := List.mem_map.mp hx
    obtain ⟨hc1, hc2⟩ := List.mem_filter.mp hc
    exact iou_inUnit _ c (hden c (List.mem_range.mp hc1) (of_decide_eq_true hc2))) hlen
  rwa [List.length_map] at h

/-- C18 fails as stated: with labels (0.0, 0.0) no class is present, so every present
class has a positive denominator, and the scalar is NaN, not between 0 and 1. -/
theorem vacuous_denominators_nan :
    predA.shape_ = labelZero.shape_ ∧
    (∀ c, c < 2 → 0 < (scan predA labelZero).tr.getD c 0 →
      0 < (scan predA labelZero).tp.getD c 0 + (scan predA labelZero).fp.getD c 0
        + (scan predA labelZero).fn.getD c 0) ∧
    scalarOut layer0 predA labelZero top2 = Dtype.nan ∧
    ¬ (scalarOut layer0 predA labelZero top2).inUnit := by
  refine ⟨rfl, ?_, scalarOut_predA_labelZero, ?_⟩
  · rw [scan_predA_labelZero.1]
    intro c hc
    interval_cases c <;> decide
  · rw [scalarOut_predA_labelZero]
    simp [Dtype.inUnit]

/-- C18 amended: for every class `c` with `tp[c] + fp[c] + fn[c] > 0` the quotient
`tp[c] / (tp[c] + fp[c] + fn[c])` lies between 0 and 1, is 1 exactly when
`fp[c] = fn[c] = 0` and is 0 exactly when `tp[c] = 0`; hence, when at least one class is
present and every present class has a positive denominator, the scalar lies between 0
and 1 (exact arithmetic). -/
theorem iou_characterisation (self : IouAccuracyLayer) (P L : Blob) (top : Top)
    (N C H W : Nat) (hP : P.shape_ = [N, C, H, W]) (_hL : L.shape_ = [N, C, H, W]) :
    (∀ c, 0 < (scan P L).tp.getD c 0 + (scan P L).fp.getD c 0 + (scan P L).fn.getD c 0 →
      (iou (scan P L) c).inUnit ∧
      (iou (scan P L) c = Dtype.fin 1 ↔
        (scan P L).fp.getD c 0 = 0 ∧ (scan P L).fn.getD c 0 = 0) ∧
      (iou (scan P L) c = Dtype.fin 0 ↔ (scan P L).tp.getD c 0 = 0)) ∧
    ((∃ c, c < C ∧ 0 < (scan P L).tr.getD c 0) →
      (∀ c, c < C → 0 < (scan P L).tr.getD c 0 →
        0 < (scan P L).tp.getD c 0 + (scan P L).fp.getD c 0 + (scan P L).fn.getD c 0) →
      (scalarOut self P L top).inUnit) := by
  refine ⟨?_, scalarOut_inUnit_of_pos self P L top C (by simp [Blob.shape, hP])⟩
  intro c hden
  refine ⟨iou_inUnit _ c hden, ?_, ?_⟩
  · rw [iou_of_pos _ c hden, Dtype.fin.injEq]
    have hne : (((scan P L).tp.getD c 0 + (scan P L).fp.getD c 0
        + (scan P L).fn.getD c 0 : Nat) : ℚ) ≠ 0 := by
      exact_mod_cast hden.ne'
    rw [div_eq_one_iff_eq hne]
    constructor
    · intro h
      have h2 : (scan P L).tp.getD c 0
          = (scan P L).tp.getD c 0 + (scan P L).fp.getD c 0 + (scan P L).fn.getD c 0 := by
        exact_mod_cast h
      omega
    · rintro ⟨h1, h2⟩
      rw [h1, h2]
      simp
  · rw [iou_of_pos _ c hden, Dtype.fin.injEq]
    have hne : (((scan P L).tp.getD c 0 + (scan P L).fp.getD c 0
        + (scan P L).fn.getD c 0 : Nat) : ℚ) ≠ 0 := by
      exact_mod_cast hden.ne'
    rw [div_eq_zero_iff]
    constructor
    · intro h
      rcases h with h | h
      · exact_mod_cast h
      · exact absurd h hne
    · intro h
      left
      exact_mod_cast h

/-- Witness of the amended C18 on the scenario of the specification: class 0 is present
with denominator 1 and no false positive or negative, its quotient is 1.0 and the scalar
lies between 0 and 1. -/
theorem iou_characterisation_witness :
    predA.shape_ = [1, 2, 1, 1] ∧ labelA.shape_ = [1, 2, 1, 1] ∧
    0 < (scan predA labelA).tp.getD 0 0 + (scan predA labelA).fp.getD 0 0
      + (scan predA labelA).fn.getD 0 0 ∧
    iou (scan predA labelA) 0 = Dtype.fin 1 ∧
    (scalarOut layer0 predA labelA top2).inUnit := by
  obtain ⟨e1, e2, e3, e4⟩ := scan_predA_labelA
  have hden : 0 < (scan predA labelA).tp.getD 0 0 + (scan predA labelA).fp.getD 0 0
      + (scan predA labelA).fn.getD 0 0 := by
    rw [e2, e3, e4]
    decide
  obtain ⟨hq, hs⟩ := iou_characterisation layer0 predA labelA top2 1 2 1 1 rfl rfl
  refine ⟨rfl, rfl, hden, (hq 0 hden).2.1.mpr ?_, hs ⟨0, by decide, ?_⟩ ?_⟩
  · rw [e3, e4]
    exact ⟨rfl, rfl⟩
  · rw [e1]
    decide
  · rw [e1, e2, e3, e4]
    intro c hc
    interval_cases c <;> decide

/-! ## C15: the layout of the blobs -/

/-- The first class loop reads the label buffer at `offset` only. -/
theorem labelStep_reads (Lb Lb2 : Nat → Dtype) (C inner i j : Nat) (s : Locals) (c : Nat)
    (h : Lb (offset C inner i c j) = Lb2 (offset C inner i c j)) :
    labelStep Lb C inner i j s c = labelStep Lb2 C inner i j s c := by
  unfold offset at h
  unfold labelStep
  rw [h]

/-- The second class loop reads the prediction buffer at `offset` only. -/
theorem scoreStep_reads (D D2 : Nat → Dtype) (C inner i j : Nat) (s : Locals) (c : Nat)
    (h : D (offset C inner i c j) = D2 (offset C inner i c j)) :
    scoreStep D C inner i j s c = scoreStep D2 C inner i j s c := by
  unfold offset at h
  unfold scoreStep
  rw [h]

/-- Quotient and remainder determine the two digits of `a * M + b`. -/
theorem digits_inj (a b a2 b2 M : Nat) (hb : b < M) (hb2 : b2 < M)
    (h : a * M + b = a2 * M + b2) : a = a2 ∧ b = b2 := by
  have hM : 0 < M := by omega
  have e1 : (a * M + b) / M = a := by
    rw [Nat.mul_comm, Nat.mul_add_div hM, Nat.div_eq_of_lt hb, Nat.add_zero]
  have e2 : (a2 * M + b2) / M = a2 := by
    rw [Nat.mul_comm, Nat.mul_add_div hM, Nat.div_eq_of_lt hb2, Nat.add_zero]
  have ha : a = a2 := by rw [← e1, ← e2, h]
  subst ha
  exact ⟨rfl, Nat.add_left_cancel h⟩

/-- The offsets of the in-range indices are below the number of elements. -/
theorem offset_lt (N C M n c p : Nat) (hn : n < N) (hc : c < C) (hp : p < M) :
    offset C M n c p < N * C * M := by
  unfold offset
  have h1 : n * C + c + 1 ≤ N * C := by
    calc n * C + c + 1 ≤ n * C + C := by omega
      _ = (n + 1) * C := by ring
      _ ≤ N * C := Nat.mul_le_mul_right C hn
  have h2 : (n * C + c) * M + p < (n * C + c + 1) * M := by
    rw [Nat.add_mul (n * C + c) 1 M]
    omega
  exact Nat.lt_of_lt_of_le h2 (Nat.mul_le_mul_right M h1)

/-- Every offset below the number of elements is the offset of in-range indices. -/
theorem offset_surj (N C M k : Nat) (hk : k < N * C * M) :
    ∃ n c p, n < N ∧ c < C ∧ p < M ∧ offset C M n c p = k := by
  have hM : 0 < M := by
    rcases Nat.eq_zero_or_pos M with h | h
    · rw [h, Nat.mul_zero] at hk
      exact absurd hk (Nat.not_lt_zero _)
    · exact h
  have ha : k / M < N * C := (Nat.div_lt_iff_lt_mul hM).mpr hk
  have hC : 0 < C := by
    rcases Nat.eq_zero_or_pos C with h | h
    · rw [h, Nat.mul_zero] at ha
      exact absurd ha (Nat.not_lt_zero _)
    · exact h
  refine ⟨k / M / C, k / M % C, k % M, (Nat.div_lt_iff_lt_mul hC).mpr ha,
    Nat.mod_lt _ hC, Nat.mod_lt _ hM, ?_⟩
  unfold offset
  have e1 : k / M / C * C + k / M % C = k / M := by
    rw [Nat.mul_comm]
    exact Nat.div_add_mod _ _
  rw [e1, Nat.mul_comm]
  exact Nat.div_add_mod _ _

/-- C15: the offset the scan reads for batch `n`, class `c` and position `h*W + w` is
the row-major offset of `[n, c, h, w]` in an N x C x H x W blob; every in-range offset is
below `N*C*H*W`; the map from (n, c, p) to the offset is injective on the index ranges
and onto the offsets below `N*C*H*W`; each class-loop pass reads the label at its offset
only, so every label element is read at exactly one pass. -/
theorem layout_bijection (N C H W : Nat) :
    (∀ n c h w, offset C (H * W) n c (h * W + w) = ((n * C + c) * H + h) * W + w) ∧
    (∀ h w, h < H → w < W → h * W + w < H * W) ∧
    (∀ (L : Blob) n c p, L.shape_ = [N, C, H, W] →
      L.elem n c p = L.cpu_data (offset C (H * W) n c p)) ∧
    (∀ (Lb Lb2 : Nat → Dtype) s i j c,
      Lb (offset C (H * W) i c j) = Lb2 (offset C (H * W) i c j) →
      labelStep Lb C (H * W) i j s c = labelStep Lb2 C (H * W) i j s c) ∧
    (∀ n c p, n < N → c < C → p < H * W → offset C (H * W) n c p < N * C * H * W) ∧
    (∀ n c p n2 c2 p2, c < C → p < H * W → c2 < C → p2 < H * W →
      offset C (H * W) n c p = offset C (H * W) n2 c2 p2 → n = n2 ∧ c = c2 ∧ p = p2) ∧
    (∀ k, k < N * C * H * W →
      ∃! x : Nat × Nat × Nat, x.1 < N ∧ x.2.1 < C ∧ x.2.2 < H * W ∧
        offset C (H * W) x.1 x.2.1 x.2.2 = k) := by
  have hinj : ∀ n c p n2 c2 p2, c < C → p < H * W → c2 < C → p2 < H * W →
      offset C (H * W) n c p = offset C (H * W) n2 c2 p2 → n = n2 ∧ c = c2 ∧ p = p2 := by
    intro n c p n2 c2 p2 hc hp hc2 hp2 h
    unfold offset at h
    obtain ⟨h1, h2⟩ := digits_inj _ _ _ _ _ hp hp2 h
    obtain ⟨h3, h4⟩ := digits_inj _ _ _ _ _ hc hc2 h1
    exact ⟨h3, h4, h2⟩
  refine ⟨?_, ?_, ?_, ?_, ?_, hinj, ?_⟩
  · intro n c h w
    unfold offset
    ring
  · intro h w hh hw
    calc h * W + w < h * W + W := by omega
      _ = (h + 1) * W := by ring
      _ ≤ H * W := Nat.mul_le_mul_right W hh
  · intro L n c p hL
    simp [Blob.elem, offset, Blob.shape, hL]
  · intro Lb Lb2 s i j c h
    exact labelStep_reads Lb Lb2 C (H * W) i j s c h
  · intro n c p hn hc hp
    rw [Nat.mul_assoc (N * C) H W]
    exact offset_lt N C (H * W) n c p hn hc hp
  · intro k hk
    rw [Nat.mul_assoc (N * C) H W] at hk
    obtain ⟨n, c, p, hn, hc, hp, he⟩ := offset_surj N C (H * W) k hk
    refine ⟨(n, c, p), ⟨hn, hc, hp, he⟩, ?_⟩
    rintro ⟨n2, c2, p2⟩ ⟨_, hc2, hp2, he2⟩
    obtain ⟨a, b, d⟩ := hinj n2 c2 p2 n c p hc2 hp2 hc hp (he2.trans he.symm)
    simp only [a, b, d]

/-- Witness of C15 on a 2 x 3 x 2 x 2 blob: the element [1, 2, 1, 0] is at offset 22,
which is below 24, and offset 22 is read at exactly one pass. -/
theorem layout_bijection_witness :
    offset 3 (2 * 2) 1 2 (1 * 2 + 0) = 22 ∧ 22 = ((1 * 3 + 2) * 2 + 1) * 2 + 0 ∧
    offset 3 (2 * 2) 1 2 2 < 2 * 3 * 2 * 2 ∧
    (∃! x : Nat × Nat × Nat, x.1 < 2 ∧ x.2.1 < 3 ∧ x.2.2 < 2 * 2 ∧
      offset 3 (2 * 2) x.1 x.2.1 x.2.2 = 22) :=
  ⟨by decide, by decide,
    (layout_bijection 2 3 2 2).2.2.2.2.1 1 2 2 (by decide) (by decide) (by decide),
    (layout_bijection 2 3 2 2).2.2.2.2.2.2 22 (by decide)⟩

/-! ## C17: bounds on the counters and the offsets -/

/-- A value up to `INT_MAX` is held unchanged by a 32-bit `int`. -/
theorem wrap32_eq (x : Nat) (h : x ≤ INT_MAX) : wrap32 x = (x : Int) := by
  unfold INT_MAX at h
  unfold wrap32
  have hm : x % 4294967296 = x := Nat.mod_eq_of_lt (by omega)
  rw [hm, if_pos (by omega)]

/-- The scan is the prefix of all batches. -/
theorem scan_eq_scanPrefix (P L : Blob) : scan P L = scanPrefix P L (P.shape 0) 0 := rfl

/-- The second class loop leaves `nz` and `no` alone. -/
theorem scoreLoop_nz_no (D : Nat → Dtype) (C inner i j : Nat) (l : List Nat) (s : Locals) :
    (l.foldl (scoreStep D C inner i j) s).nz = s.nz ∧
    (l.foldl (scoreStep D C inner i j) s).no = s.no := by
  induction l generalizing s with
  | nil => exact ⟨rfl, rfl⟩
  | cons c l ih =>
    rw [List.foldl_cons]
    obtain ⟨h1, h2⟩ := ih (scoreStep D C inner i j s c)
    rw [h1, h2, scoreStep_eq]
    exact ⟨rfl, rfl⟩

/-- After a position the locals `nz` and `no` are the reference counts of the position. -/
theorem positionStep_nz_no (P L : Blob) (i j : Nat) (s : Locals) (hs : WF (L.shape 1) s) :
    (positionStep P.cpu_data L.cpu_data (L.shape 1) (L.shape 2 * L.shape 3) i s j).nz
      = nzRef L i j ∧
    (positionStep P.cpu_data L.cpu_data (L.shape 1) (L.shape 2 * L.shape 3) i s j).no
      = noRef L i j := by
  obtain ⟨hE, _, _, _, hTR⟩ := hs
  obtain ⟨_, _, _, _, _, _, _, l8, l9⟩ :=
    labelLoop_spec L.cpu_data (L.shape 1) (L.shape 2 * L.shape 3) i j
      { s with nz := 0, no := 0 } hE hTR (L.shape 1) le_rfl
  have e8 : ((List.range (L.shape 1)).foldl
      (labelStep L.cpu_data (L.shape 1) (L.shape 2 * L.shape 3) i j)
      { s with nz := 0, no := 0 }).nz = nzRef L i j := by
    rw [l8, Nat.zero_add]
    rfl
  have e9 : ((List.range (L.shape 1)).foldl
      (labelStep L.cpu_data (L.shape 1) (L.shape 2 * L.shape 3) i j)
      { s with nz := 0, no := 0 }).no = noRef L i j := by
    rw [l9, Nat.zero_add]
    rfl
  unfold positionStep
  simp only []
  split
  · obtain ⟨h1, h2⟩ := scoreLoop_nz_no P.cpu_data (L.shape 1) (L.shape 2 * L.shape 3) i j
      (List.range (L.shape 1)) ((List.range (L.shape 1)).foldl
        (labelStep L.cpu_data (L.shape 1) (L.shape 2 * L.shape 3) i j)
        { s with nz := 0, no := 0 })
    rw [h1, h2]
    exact ⟨e8, e9⟩
  · exact ⟨e8, e9⟩

/-- The reference counts of a position are at most the number of classes. -/
theorem nzRef_noRef_le (L : Blob) (n p : Nat) :
    nzRef L n p ≤ L.shape 1 ∧ noRef L n p ≤ L.shape 1 := by
  unfold nzRef noRef
  constructor
  · exact (Finset.card_filter_le _ _).trans (Finset.card_range _).le
  · exact (Finset.card_filter_le _ _).trans (Finset.card_range _).le

/-- A quantity that every position increases by `g i j` is, after `m` batches and `j`
more positions, the sum of the `g` over the positions processed. -/
theorem scanPrefix_counter (P L : Blob) (hsh : P.shape_ = L.shape_) (f : Locals → Nat)
    (g : Nat → Nat → Nat)
    (hpos : ∀ i j s, WF (L.shape 1) s →
      f (positionStep P.cpu_data L.cpu_data (L.shape 1) (L.shape 2 * L.shape 3) i s j)
        = f s + g i j)
    (hinit : f { expected := List.replicate (L.shape 1) 0, tp := List.replicate (L.shape 1) 0,
                 fp := List.replicate (L.shape 1) 0, fn := List.replicate (L.shape 1) 0,
                 tr := List.replicate (L.shape 1) 0, nz := 0, no := 0 } = 0) (m j : Nat) :
    WF (L.shape 1) (scanPrefix P L m j) ∧
    f (scanPrefix P L m j)
      = (∑ i in Finset.range m, ∑ k in Finset.range (L.shape 2 * L.shape 3), g i k)
        + ∑ k in Finset.range j, g m k := by
  have hP : ∀ a, P.shape a = L.shape a := fun a => by simp [Blob.shape, hsh]
  unfold scanPrefix
  simp only [hP]
  obtain ⟨w1, e1⟩ := foldl_counter
    (batchStep P.cpu_data L.cpu_data (L.shape 1) (L.shape 2 * L.shape 3))
    (WF (L.shape 1)) f (fun i => ∑ k in Finset.range (L.shape 2 * L.shape 3), g i k)
    (fun s i hs => by
      unfold batchStep
      exact foldl_counter _ (WF (L.shape 1)) f (g i)
        (fun s j hs => ⟨(positionStep_spec P L hsh i j s hs).1, hpos i j s hs⟩) s hs _)
    _ (WF_init (L.shape 1)) m
  obtain ⟨w2, e2⟩ := foldl_counter
    (positionStep P.cpu_data L.cpu_data (L.shape 1) (L.shape 2 * L.shape 3) m)
    (WF (L.shape 1)) f (g m)
    (fun s j hs => ⟨(positionStep_spec P L hsh m j s hs).1, hpos m j s hs⟩) _ w1 j
  refine ⟨w2, ?_⟩
  rw [e2, e1, hinit, Nat.zero_add]

/-- A sum of values that are at most 1 is at most the number of summands. -/
theorem sum_le_of_le_one (g : Nat → Nat) (h : ∀ k, g k ≤ 1) (m : Nat) :
    ∑ k in Finset.range m, g k ≤ m := by
  calc ∑ k in Finset.range m, g k ≤ ∑ _k in Finset.range m, 1 :=
        Finset.sum_le_sum (fun k _ => h k)
    _ = m := by simp

/-- One position raises each of `tp[c]`, `fp[c]`, `fn[c]`, `tr[c]` by at most one, and
`tp[c] + fp[c] + fn[c]` by at most one. -/
theorem position_increments (P L : Blob) (hsh : P.shape_ = L.shape_) (i j : Nat) (s : Locals)
    (hs : WF (L.shape 1) s) (c : Nat) (hc : c < L.shape 1) :
    (positionStep P.cpu_data L.cpu_data (L.shape 1) (L.shape 2 * L.shape 3) i s j).tp.getD c 0
      + (positionStep P.cpu_data L.cpu_data (L.shape 1) (L.shape 2 * L.shape 3) i s j).fp.getD c 0
      + (positionStep P.cpu_data L.cpu_data (L.shape 1) (L.shape 2 * L.shape 3) i s j).fn.getD c 0
      ≤ s.tp.getD c 0 + s.fp.getD c 0 + s.fn.getD c 0 + 1 ∧
    s.tp.getD c 0 ≤
      (positionStep P.cpu_data L.cpu_data (L.shape 1) (L.shape 2 * L.shape 3) i s j).tp.getD c 0 ∧
    s.fp.getD c 0 ≤
      (positionStep P.cpu_data L.cpu_data (L.shape 1) (L.shape 2 * L.shape 3) i s j).fp.getD c 0 ∧
    s.fn.getD c 0 ≤
      (positionStep P.cpu_data L.cpu_data (L.shape 1) (L.shape 2 * L.shape 3) i s j).fn.getD c 0 ∧
    s.tr.getD c 0 ≤
      (positionStep P.cpu_data L.cpu_data (L.shape 1) (L.shape 2 * L.shape 3) i s j).tr.getD c 0 ∧
    (positionStep P.cpu_data L.cpu_data (L.shape 1) (L.shape 2 * L.shape 3) i s j).tr.getD c 0
      ≤ s.tr.getD c 0 + 1 := by
  obtain ⟨_, h1, h2, h3, h4⟩ := positionStep_spec P L hsh i j s hs
  rw [h1 c hc, h2 c hc, h3 c hc, h4 c hc]
  by_cases hsc : isScored L i j = true <;> by_cases he : isExpected L i c j = true <;>
    by_cases hp : isPredicted P i c j = true <;> by_cases hq : isPresent L i c j = true <;>
    simp [hsc, he, hp, hq] <;> omega

/-- After `m` batches and `j` more positions each counter of a class, and the sum
`tp[c] + fp[c] + fn[c]`, is at most the number of positions processed. -/
theorem prefix_bounds (P L : Blob) (hsh : P.shape_ = L.shape_) (c : Nat) (hc : c < L.shape 1)
    (m j : Nat) :
    (scanPrefix P L m j).tp.getD c 0 + (scanPrefix P L m j).fp.getD c 0
      + (scanPrefix P L m j).fn.getD c 0 ≤ m * (L.shape 2 * L.shape 3) + j ∧
    (scanPrefix P L m j).tr.getD c 0 ≤ m * (L.shape 2 * L.shape 3) + j := by
  have hdouble : ∀ g : Nat → Nat → Nat, (∀ a b, g a b ≤ 1) →
      (∑ i in Finset.range m, ∑ k in Finset.range (L.shape 2 * L.shape 3), g i k)
        + ∑ k in Finset.range j, g m k ≤ m * (L.shape 2 * L.shape 3) + j := by
    intro g hg
    have h1 : ∑ i in Finset.range m, ∑ k in Finset.range (L.shape 2 * L.shape 3), g i k
        ≤ ∑ _i in Finset.range m, (L.shape 2 * L.shape 3) :=
      Finset.sum_le_sum (fun i _ => sum_le_of_le_one (g i) (hg i) _)
    have h2 : ∑ _i in Finset.range m, (L.shape 2 * L.shape 3)
        = m * (L.shape 2 * L.shape 3) := by simp
    have h3 := sum_le_of_le_one (g m) (hg m) j
    omega
  constructor
  · obtain ⟨_, e⟩ := scanPrefix_counter P L hsh
      (fun s => s.tp.getD c 0 + s.fp.getD c 0 + s.fn.getD c 0)
      (fun i k => (if isScored L i k = true ∧ isExpected L i c k = true ∧
            isPredicted P i c k = true then 1 else 0)
        + (if isScored L i k = true ∧ ¬ isExpected L i c k = true ∧
            isPredicted P i c k = true then 1 else 0)
        + (if isScored L i k = true ∧ isExpected L i c k = true ∧
            ¬ isPredicted P i c k = true then 1 else 0))
      (fun i k s hs => by
        obtain ⟨_, _, h2, h3, h4⟩ := positionStep_spec P L hsh i k s hs
        simp only [h2 c hc, h3 c hc, h4 c hc]
        omega)
      (by simp only [getD_replicate_zero]) m j
    rw [e]
    apply hdouble
    intro a b
    by_cases hsc : isScored L a b = true <;> by_cases he : isExpected L a c b = true <;>
      by_cases hp : isPredicted P a c b = true <;> simp [hsc, he, hp]
  · obtain ⟨_, e⟩ := scanPrefix_counter P L hsh (fun s => s.tr.getD c 0)
      (fun i k => if isPresent L i c k = true then 1 else 0)
      (fun i k s hs => (positionStep_spec P L hsh i k s hs).2.1 c hc)
      (getD_replicate_zero _ _) m j
    rw [e]
    apply hdouble
    intro a b
    split <;> omega

/-- The local `valid` is at most the number of classes. -/
theorem validOut_le (P L : Blob) : validOut P L ≤ P.shape 1 := by
  unfold validOut
  rw [accumulate_eq]
  exact (List.length_filter_le _ _).trans (List.length_range _).le

/-- C17: for every class `c`, one position raises at most one of `tp[c]`, `fp[c]`,
`fn[c]`, by one, and `tr[c]` by at most one; at every position boundary of the scan, and
so after it, `tp[c] + fp[c] + fn[c]` and `tr[c]` are at most the number of positions
processed, at most `N*H*W`; and whenever `N*C*H*W < 2^31` every counter, the sums
`tp[c] + fp[c]` and `tp[c] + fp[c] + fn[c]`, the locals `nz`, `no`, `valid` and every
flat offset with its intermediate products are held unchanged by a 32-bit `int`. -/
theorem counter_bounds (P L : Blob) (N C H W : Nat)
    (hP : P.shape_ = [N, C, H, W]) (hL : L.shape_ = [N, C, H, W]) (c : Nat) (hc : c < C) :
    (∀ s i j, WF C s →
      (positionStep P.cpu_data L.cpu_data C (H * W) i s j).tp.getD c 0
        + (positionStep P.cpu_data L.cpu_data C (H * W) i s j).fp.getD c 0
        + (positionStep P.cpu_data L.cpu_data C (H * W) i s j).fn.getD c 0
        ≤ s.tp.getD c 0 + s.fp.getD c 0 + s.fn.getD c 0 + 1 ∧
      s.tp.getD c 0 ≤ (positionStep P.cpu_data L.cpu_data C (H * W) i s j).tp.getD c 0 ∧
      s.fp.getD c 0 ≤ (positionStep P.cpu_data L.cpu_data C (H * W) i s j).fp.getD c 0 ∧
      s.fn.getD c 0 ≤ (positionStep P.cpu_data L.cpu_data C (H * W) i s j).fn.getD c 0 ∧
      s.tr.getD c 0 ≤ (positionStep P.cpu_data L.cpu_data C (H * W) i s j).tr.getD c 0 ∧
      (positionStep P.cpu_data L.cpu_data C (H * W) i s j).tr.getD c 0 ≤ s.tr.getD c 0 + 1 ∧
      (positionStep P.cpu_data L.cpu_data C (H * W) i s j).nz ≤ C ∧
      (positionStep P.cpu_data L.cpu_data C (H * W) i s j).no ≤ C) ∧
    (∀ m j,
      (scanPrefix P L m j).tp.getD c 0 + (scanPrefix P L m j).fp.getD c 0
        + (scanPrefix P L m j).fn.getD c 0 ≤ m * (H * W) + j ∧
      (scanPrefix P L m j).tr.getD c 0 ≤ m * (H * W) + j) ∧
    ((scan P L).tp.getD c 0 + (scan P L).fp.getD c 0 + (scan P L).fn.getD c 0 ≤ N * H * W ∧
      (scan P L).tr.getD c 0 ≤ N * H * W) ∧
    (N * C * H * W < 2 ^ 31 →
      (∀ m j, m < N → j ≤ H * W →
        wrap32 ((scanPrefix P L m j).tr.getD c 0) = ((scanPrefix P L m j).tr.getD c 0 : Int) ∧
        wrap32 ((scanPrefix P L m j).tp.getD c 0) = ((scanPrefix P L m j).tp.getD c 0 : Int) ∧
        wrap32 ((scanPrefix P L m j).fp.getD c 0) = ((scanPrefix P L m j).fp.getD c 0 : Int) ∧
        wrap32 ((scanPrefix P L m j).fn.getD c 0) = ((scanPrefix P L m j).fn.getD c 0 : Int)) ∧
      (wrap32 ((scan P L).tr.getD c 0) = ((scan P L).tr.getD c 0 : Int) ∧
        wrap32 ((scan P L).tp.getD c 0) = ((scan P L).tp.getD c 0 : Int) ∧
        wrap32 ((scan P L).fp.getD c 0) = ((scan P L).fp.getD c 0 : Int) ∧
        wrap32 ((scan P L).fn.getD c 0) = ((scan P L).fn.getD c 0 : Int) ∧
        wrap32 ((scan P L).tp.getD c 0 + (scan P L).fp.getD c 0)
          = (((scan P L).tp.getD c 0 + (scan P L).fp.getD c 0 : Nat) : Int) ∧
        wrap32 ((scan P L).tp.getD c 0 + (scan P L).fp.getD c 0 + (scan P L).fn.getD c 0)
          = (((scan P L).tp.getD c 0 + (scan P L).fp.getD c 0
              + (scan P L).fn.getD c 0 : Nat) : Int)) ∧
      (∀ i j c2, i < N → j < H * W → c2 < C →
        wrap32 (i * C) = ((i * C : Nat) : Int) ∧
        wrap32 (i * C + c2) = ((i * C + c2 : Nat) : Int) ∧
        wrap32 ((i * C + c2) * (H * W)) = (((i * C + c2) * (H * W) : Nat) : Int) ∧
        wrap32 (offset C (H * W) i c2 j) = ((offset C (H * W) i c2 j : Nat) : Int)) ∧
      (∀ s i j, WF C s → i < N → j < H * W →
        wrap32 (positionStep P.cpu_data L.cpu_data C (H * W) i s j).nz
          = ((positionStep P.cpu_data L.cpu_data C (H * W) i s j).nz : Int) ∧
        wrap32 (positionStep P.cpu_data L.cpu_data C (H * W) i s j).no
          = ((positionStep P.cpu_data L.cpu_data C (H * W) i s j).no : Int)) ∧
      wrap32 (validOut P L) = ((validOut P L : Nat) : Int)) := by
  have hsh : P.shape_ = L.shape_ := hP.trans hL.symm
  have hP0 : P.shape 0 = N := by simp [Blob.shape, hP]
  have hP1 : P.shape 1 = C := by simp [Blob.shape, hP]
  have hL1 : L.shape 1 = C := by simp [Blob.shape, hL]
  have hL23 : L.shape 2 * L.shape 3 = H * W := by simp [Blob.shape, hL]
  have hc1 : c < L.shape 1 := by rw [hL1]; exact hc
  have hCpos : 0 < C := by omega
  have hpos : ∀ s i j, WF C s →
      (positionStep P.cpu_data L.cpu_data C (H * W) i s j).nz ≤ C ∧
      (positionStep P.cpu_data L.cpu_data C (H * W) i s j).no ≤ C := by
    intro s i j hs
    have h := positionStep_nz_no P L i j s (by rw [hL1]; exact hs)
    have h2 := nzRef_noRef_le L i j
    rw [hL1, hL23] at h
    rw [hL1] at h2
    rw [h.1, h.2]
    exact h2
  have hpre : ∀ m j,
      (scanPrefix P L m j).tp.getD c 0 + (scanPrefix P L m j).fp.getD c 0
        + (scanPrefix P L m j).fn.getD c 0 ≤ m * (H * W) + j ∧
      (scanPrefix P L m j).tr.getD c 0 ≤ m * (H * W) + j := by
    intro m j
    have h := prefix_bounds P L hsh c hc1 m j
    rw [hL23] at h
    exact h
  have hfin : (scan P L).tp.getD c 0 + (scan P L).fp.getD c 0 + (scan P L).fn.getD c 0
        ≤ N * (H * W) ∧ (scan P L).tr.getD c 0 ≤ N * (H * W) := by
    have h := hpre N 0
    rw [scan_eq_scanPrefix, hP0]
    exact h
  have hbig : N * (H * W) ≤ N * C * (H * W) :=
    Nat.mul_le_mul_right (H * W) (Nat.le_mul_of_pos_right N hCpos)
  refine ⟨?_, hpre, ?_, ?_⟩
  · intro s i j hs
    have h := position_increments P L hsh i j s (by rw [hL1]; exact hs) c hc1
    rw [hL1, hL23] at h
    exact ⟨h.1, h.2.1, h.2.2.1, h.2.2.2.1, h.2.2.2.2.1, h.2.2.2.2.2,
      (hpos s i j hs).1, (hpos s i j hs).2⟩
  · rw [Nat.mul_assoc N H W]
    exact hfin
  · intro hsize
    rw [Nat.mul_assoc (N * C) H W] at hsize
    have h31 : (2 : Nat) ^ 31 = 2147483648 := by norm_num
    have fits : ∀ x, x ≤ N * C * (H * W) → wrap32 x = (x : Int) := by
      intro x hx
      apply wrap32_eq
      unfold INT_MAX
      omega
    refine ⟨?_, ?_, ?_, ?_, ?_⟩
    · intro m j hm hj
      have h := hpre m j
      have hb : m * (H * W) + j ≤ N * (H * W) := by
        calc m * (H * W) + j ≤ m * (H * W) + H * W := by omega
          _ = (m + 1) * (H * W) := by ring
          _ ≤ N * (H * W) := Nat.mul_le_mul_right _ hm
      exact ⟨fits _ (by omega), fits _ (by omega), fits _ (by omega), fits _ (by omega)⟩
    · exact ⟨fits _ (by omega), fits _ (by omega), fits _ (by omega), fits _ (by omega),
        fits _ (by omega), fits _ (by omega)⟩
    · intro i j c2 hi hj hc2
      have ho := offset_lt N C (H * W) i c2 j hi hc2 hj
      have hM : 0 < H * W := by omega
      have h1 : i * C + c2 ≤ (i * C + c2) * (H * W) := Nat.le_mul_of_pos_right _ hM
      have h2 : (i * C + c2) * (H * W) ≤ offset C (H * W) i c2 j := by
        unfold offset
        omega
      exact ⟨fits _ (by omega), fits _ (by omega), fits _ (by omega), fits _ (by omega)⟩
    · intro s i j hs hi hj
      have hM : 0 < H * W := by omega
      have hN : 0 < N := by omega
      have hC2 : C ≤ N * C * (H * W) :=
        (Nat.le_mul_of_pos_left C hN).trans (Nat.le_mul_of_pos_right (N * C) hM)
      have h := hpos s i j hs
      exact ⟨fits _ (by omega), fits _ (by omega)⟩
    · rcases Nat.eq_zero_or_pos (N * (H * W)) with hz | hz
      · have hv : validOut P L = 0 := by
          rw [validOut_eq_zero_iff, hP1]
          intro c2 hc2
          have h := (prefix_bounds P L hsh c2 (by rw [hL1]; exact hc2) N 0).2
          rw [hL23, ← hP0, ← scan_eq_scanPrefix, hP0] at h
          omega
        rw [hv]
        rfl
      · have hN : 0 < N := Nat.pos_of_mul_pos_right hz
        have hM : 0 < H * W := Nat.pos_of_mul_pos_left hz
        have hC2 : C ≤ N * C * (H * W) :=
          (Nat.le_mul_of_pos_left C hN).trans (Nat.le_mul_of_pos_right (N * C) hM)
        have hv := validOut_le P L
        rw [hP1] at hv
        exact fits _ (by omega)

/-- Witness of C17 on the scenario of the specification, class 0: one position, so
each counter is at most 1, and 1 * 2 * 1 * 1 is below 2^31. -/
theorem counter_bounds_witness :
    predA.shape_ = [1, 2, 1, 1] ∧ labelA.shape_ = [1, 2, 1, 1] ∧ 0 < 2 ∧
    1 * 2 * 1 * 1 < 2 ^ 31 ∧
    (scan predA labelA).tp.getD 0 0 + (scan predA labelA).fp.getD 0 0
      + (scan predA labelA).fn.getD 0 0 ≤ 1 * 1 * 1 ∧
    (scan predA labelA).tr.getD 0 0 ≤ 1 * 1 * 1 ∧
    wrap32 ((scan predA labelA).tp.getD 0 0 + (scan predA labelA).fp.getD 0 0
        + (scan predA labelA).fn.getD 0 0)
      = (((scan predA labelA).tp.getD 0 0 + (scan predA labelA).fp.getD 0 0
          + (scan predA labelA).fn.getD 0 0 : Nat) : Int) ∧
    wrap32 (validOut predA labelA) = ((validOut predA labelA : Nat) : Int) := by
  have hsize : 1 * 2 * 1 * 1 < 2 ^ 31 := by norm_num
  obtain ⟨_, _, h3, h4⟩ := counter_bounds predA labelA 1 2 1 1 rfl rfl 0 (by decide)
  obtain ⟨_, h5, _, _, h6⟩ := h4 hsize
  exact ⟨rfl, rfl, by decide, hsize, h3.1, h3.2, h5.2.2.2.2.2, h6⟩

/-! ## C12: no access out of range -/

theorem vecGet_eq (v : List Nat) (c : Nat) (h : c < v.length) :
    vecGet v c = some (v.getD c 0) := by
  unfold vecGet
  rw [if_pos h]

theorem vecSet_eq (v : List Nat) (c x : Nat) (h : c < v.length) :
    vecSet v c x = some (v.set c x) := by
  unfold vecSet
  rw [if_pos h]

theorem bumpChk_eq (v : List Nat) (c : Nat) (h : c < v.length) :
    bumpChk v c = some (bump v c) := by
  unfold bumpChk bump
  rw [vecGet_eq v c h]
  exact vecSet_eq v c _ h

/-- A checked loop whose body succeeds with the unchecked result on every state
satisfying an invariant succeeds with the unchecked result. -/
theorem foldlM_eq_some {σ : Type} (f : σ → Nat → Option σ) (g : σ → Nat → σ)
    (Inv : σ → Prop) (l : List Nat)
    (hInv : ∀ s x, x ∈ l → Inv s → Inv (g s x))
    (h : ∀ s x, x ∈ l → Inv s → f s x = some (g s x)) (s : σ) (hs : Inv s) :
    l.foldlM f s = some (l.foldl g s) := by
  induction l generalizing s with
  | nil => rfl
  | cons x xs ih =>
    rw [List.foldlM_cons, h s x (List.mem_cons_self _ _) hs, List.foldl_cons]
    exact ih (fun s y hy => hInv s y (List.mem_cons_of_mem _ hy))
      (fun s y hy => h s y (List.mem_cons_of_mem _ hy)) _
      (hInv s x (List.mem_cons_self _ _) hs)

/-- The first class loop body keeps the sizes of the counter vectors. -/
theorem labelStep_WF (Lb : Nat → Dtype) (C inner i j : Nat) (s : Locals) (c : Nat)
    (hs : WF C s) (hc : c < C) : WF C (labelStep Lb C inner i j s c) := by
  obtain ⟨hE, hTP, hFP, hFN, hTR⟩ := hs
  rw [labelStep_eq Lb C inner i j s c (by rw [hE]; exact hc)]
  refine ⟨by simp [hE], hTP, hFP, hFN, ?_⟩
  show (if _ then bump s.tr c else s.tr).length = C
  split
  · rw [length_bump, hTR]
  · exact hTR

/-- The second class loop body keeps the sizes of the counter vectors. -/
theorem scoreStep_WF (D : Nat → Dtype) (C inner i j : Nat) (s : Locals) (c : Nat)
    (hs : WF C s) : WF C (scoreStep D C inner i j s c) := by
  obtain ⟨hE, hTP, hFP, hFN, hTR⟩ := hs
  rw [scoreStep_eq]
  refine ⟨hE, ?_, ?_, ?_, hTR⟩
  · show (if _ then bump s.tp c else s.tp).length = C
    split
    · rw [length_bump, hTP]
    · exact hTP
  · show (if _ then bump s.fp c else s.fp).length = C
    split
    · rw [length_bump, hFP]
    · exact hFP
  · show (if _ then bump s.fn c else s.fn).length = C
    split
    · rw [length_bump, hFN]
    · exact hFN

/-- With the offset below `count()` and the class below the vector sizes, the checked
first class loop body succeeds with the result of the unchecked one. -/
theorem labelStepChk_eq (b1 : Blob) (C inner i j : Nat) (s : Locals) (c : Nat)
    (hoff : (i * C + c) * inner + j < b1.count) (hs : WF C s) (hc : c < C) :
    labelStepChk b1 C inner i j s c = some (labelStep b1.cpu_data C inner i j s c) := by
  obtain ⟨hE, _, _, _, hTR⟩ := hs
  have hE2 : c < s.expected.length := by rw [hE]; exact hc
  have hT2 : c < s.tr.length := by rw [hTR]; exact hc
  unfold labelStepChk labelStep Blob.read
  rw [if_pos hoff]
  by_cases h1 : Dtype.gt (b1.cpu_data ((i * C + c) * inner + j)) (Dtype.fin 0) = true <;>
    by_cases h2 : Dtype.gt (b1.cpu_data ((i * C + c) * inner + j)) GTHRESH = true <;>
    simp [h1, h2, bumpChk_eq, hT2, vecSet, vecGet, hE2]

/-- With the offset below `count()` and the class below the vector sizes, the checked
second class loop body succeeds with the result of the unchecked one. -/
theorem scoreStepChk_eq (b0 : Blob) (C inner i j : Nat) (s : Locals) (c : Nat)
    (hoff : (i * C + c) * inner + j < b0.count) (hs : WF C s) (hc : c < C) :
    scoreStepChk b0 C inner i j s c = some (scoreStep b0.cpu_data C inner i j s c) := by
  obtain ⟨hE, hTP, hFP, hFN, _⟩ := hs
  have hE2 : c < s.expected.length := by rw [hE]; exact hc
  have h1 : c < s.tp.length := by rw [hTP]; exact hc
  have h2 : c < s.fp.length := by rw [hFP]; exact hc
  have h3 : c < s.fn.length := by rw [hFN]; exact hc
  unfold scoreStepChk scoreStep Blob.read
  rw [if_pos hoff]
  by_cases hp : Dtype.gt (b0.cpu_data ((i * C + c) * inner + j)) PTHRESH = true <;>
    by_cases hx : s.expected.getD c 0 > 0 <;>
    simp [hp, hx, bumpChk_eq, h1, h2, h3, vecGet, hE2] <;>
    (split <;> rfl)

/-- A loop keeps an invariant that its body keeps on the elements of the list. -/
theorem foldl_inv {σ : Type} (g : σ → Nat → σ) (Inv : σ → Prop) (l : List Nat)
    (hInv : ∀ s x, x ∈ l → Inv s → Inv (g s x)) (s : σ) (hs : Inv s) :
    Inv (l.foldl g s) := by
  induction l generalizing s with
  | nil => exact hs
  | cons x xs ih =>
    rw [List.foldl_cons]
    exact ih (fun s y hy => hInv s y (List.mem_cons_of_mem _ hy)) _
      (hInv s x (List.mem_cons_self _ _) hs)

/-- The checked position step succeeds with the result of the unchecked one when the
offsets of all classes at the position are below `count()` in both blobs. -/
theorem positionStepChk_eq (b0 b1 : Blob) (C inner i j : Nat) (s : Locals) (hs : WF C s)
    (h0 : ∀ c, c < C → (i * C + c) * inner + j < b0.count)
    (h1 : ∀ c, c < C → (i * C + c) * inner + j < b1.count) :
    positionStepChk b0 b1 C inner i s j
      = some (positionStep b0.cpu_data b1.cpu_data C inner i s j) := by
  have hs0 : WF C { s with nz := 0, no := 0 } := hs
  have e1 := foldlM_eq_some (labelStepChk b1 C inner i j) (labelStep b1.cpu_data C inner i j)
    (WF C) (List.range C)
    (fun s c hc hs => labelStep_WF _ C inner i j s c hs (List.mem_range.mp hc))
    (fun s c hc hs => labelStepChk_eq b1 C inner i j s c (h1 c (List.mem_range.mp hc)) hs
      (List.mem_range.mp hc)) _ hs0
  have w1 := foldl_inv (labelStep b1.cpu_data C inner i j) (WF C) (List.range C)
    (fun s c hc hs => labelStep_WF _ C inner i j s c hs (List.mem_range.mp hc)) _ hs0
  have e2 := foldlM_eq_some (scoreStepChk b0 C inner i j) (scoreStep b0.cpu_data C inner i j)
    (WF C) (List.range C)
    (fun s c _ hs => scoreStep_WF _ C inner i j s c hs)
    (fun s c hc hs => scoreStepChk_eq b0 C inner i j s c (h0 c (List.mem_range.mp hc)) hs
      (List.mem_range.mp hc)) _ w1
  unfold positionStepChk positionStep
  simp only [e1, Option.bind_eq_bind, Option.some_bind, Option.pure_def, bind_pure_comp]
  split
  · exact e2
  · rfl

/-- The checked scan succeeds with the result of the unchecked one on two blobs of
shape N x C x H x W. -/
theorem scanChk_eq (P L : Blob) (N C H W : Nat)
    (hP : P.shape_ = [N, C, H, W]) (hL : L.shape_ = [N, C, H, W]) :
    scanChk P L = some (scan P L) := by
  have hP0 : P.shape 0 = N := by simp [Blob.shape, hP]
  have hP1 : P.shape 1 = C := by simp [Blob.shape, hP]
  have hP23 : P.shape 2 * P.shape 3 = H * W := by simp [Blob.shape, hP]
  have hcP : P.count = N * C * (H * W) := by
    simp [Blob.count, hP, Nat.mul_assoc]
  have hcL : L.count = N * C * (H * W) := by
    simp [Blob.count, hL, Nat.mul_assoc]
  unfold scanChk scan
  simp only [hP0, hP1, hP23]
  apply foldlM_eq_some _ _ (WF C) _ _ _ _ (WF_init C)
  · intro s i _ hs
    unfold batchStep
    exact foldl_inv _ (WF C) _ (fun s j _ hs => by
      have h := (positionStep_spec P L (hP.trans hL.symm) i j s
        (by simpa [Blob.shape, hL] using hs)).1
      simpa [Blob.shape, hL] using h) s hs
  · intro s i hi hs
    unfold batchStepChk batchStep
    apply foldlM_eq_some _ _ (WF C) _ _ _ _ hs
    · intro s j _ hs
      have h := (positionStep_spec P L (hP.trans hL.symm) i j s
        (by simpa [Blob.shape, hL] using hs)).1
      simpa [Blob.shape, hL] using h
    · intro s j hj hs
      apply positionStepChk_eq P L C (H * W) i j s hs
      · intro c hc
        rw [hcP]
        exact offset_lt N C (H * W) i c j (List.mem_range.mp hi) hc (List.mem_range.mp hj)
      · intro c hc
        rw [hcL]
        exact offset_lt N C (H * W) i c j (List.mem_range.mp hi) hc (List.mem_range.mp hj)

theorem iouChk_eq (s : Locals) (C c : Nat) (hs : WF C s) (hc : c < C) :
    iouChk s c = some (iou s c) := by
  obtain ⟨_, hTP, hFP, hFN, _⟩ := hs
  unfold iouChk iou
  rw [vecGet_eq s.tp c (by rw [hTP]; exact hc), vecGet_eq s.fp c (by rw [hFP]; exact hc),
    vecGet_eq s.fn c (by rw [hFN]; exact hc)]
  rfl

theorem accStepChk_eq (s : Locals) (C : Nat) (hs : WF C s) (va : Nat × Dtype) (c : Nat)
    (hc : c < C) : accStepChk s va c = some (accStep s va c) := by
  unfold accStepChk accStep
  rw [vecGet_eq s.tr c (by rw [hs.2.2.2.2]; exact hc)]
  by_cases h : s.tr.getD c 0 > 0
  · simp only [Option.bind_eq_bind, Option.some_bind, h, if_true, iouChk_eq s C c hs hc,
      Option.pure_def]
  · simp only [Option.bind_eq_bind, Option.some_bind, h, if_false, Option.pure_def]

/-- The checked loop of lines 94-99 succeeds with the result of the unchecked one. -/
theorem accumulateChk_eq (s : Locals) (C : Nat) (hs : WF C s) :
    (List.range C).foldlM (accStepChk s) (0, Dtype.fin 0) = some (accumulate s C) := by
  unfold accumulate
  exact foldlM_eq_some _ _ (fun _ => True) _ (fun _ _ _ _ => trivial)
    (fun va c hc _ => accStepChk_eq s C hs va c (List.mem_range.mp hc)) _ trivial

theorem perClassStepChk_eq (s : Locals) (C : Nat) (hs : WF C s) (t : Blob) (i : Nat)
    (hi : i < C) (hcount : i < t.count) :
    perClassStepChk s t i = some { t with cpu_data := perClassStep s t.cpu_data i } := by
  unfold perClassStepChk perClassStep Blob.write
  rw [vecGet_eq s.tr i (by rw [hs.2.2.2.2]; exact hi)]
  by_cases h : s.tr.getD i 0 > 0
  · simp only [Option.bind_eq_bind, Option.some_bind, h, if_true, iouChk_eq s C i hs hi,
      hcount]
  · simp only [Option.bind_eq_bind, Option.some_bind, h, if_false, Option.pure_def, hcount,
      if_true]

/-- A loop over blobs that rewrites the buffer only is the loop over the buffer. -/
theorem foldl_buffer (f : (Nat → Dtype) → Nat → (Nat → Dtype)) (l : List Nat) (t : Blob) :
    l.foldl (fun (b : Blob) i => { b with cpu_data := f b.cpu_data i }) t
      = { t with cpu_data := l.foldl f t.cpu_data } := by
  induction l generalizing t with
  | nil => rfl
  | cons x xs ih =>
    rw [List.foldl_cons, List.foldl_cons, ih]

/-- The checked loop of lines 104-107 succeeds with the result of the unchecked one when
`top[1]` has at most one entry per class. -/
theorem perClassLoopChk_eq (s : Locals) (C : Nat) (hs : WF C s) (t : Blob)
    (hcount : t.count ≤ C) :
    (List.range t.count).foldlM (perClassStepChk s) t
      = some { t with cpu_data := (List.range t.count).foldl (perClassStep s) t.cpu_data } := by
  rw [← foldl_buffer (perClassStep s) (List.range t.count) t]
  apply foldlM_eq_some _ _ (fun b => b.shape_ = t.shape_) _ _ _ _ rfl
  · intro b i _ hb
    exact hb
  · intro b i hi hb
    have hi2 := List.mem_range.mp hi
    have hcb : b.count = t.count := by
      unfold Blob.count
      rw [hb]
    exact perClassStepChk_eq s C hs b i (by omega) (by omega)

/-- `Forward_cpu` with checked accesses succeeds with the result of `Forward_cpu` on
two blobs of shape N x C x H x W when `top[0]` has an entry and `top[1]` has at most C. -/
theorem Forward_cpu_chk_eq (self : IouAccuracyLayer) (P L : Blob) (top : Top)
    (N C H W : Nat) (hP : P.shape_ = [N, C, H, W]) (hL : L.shape_ = [N, C, H, W])
    (h0 : 0 < top.top0.count) (h1 : ∀ t, top.top1 = some t → t.count ≤ C) :
    Forward_cpu_chk self P L top = some (Forward_cpu self P L top) := by
  have hP1 : P.shape 1 = C := by simp [Blob.shape, hP]
  have hL1 : L.shape 1 = C := by simp [Blob.shape, hL]
  have hw : WF C (scan P L) := by
    have h := scan_WF P L (hP.trans hL.symm)
    rwa [hL1] at h
  unfold Forward_cpu_chk Forward_cpu
  simp only [scanChk_eq P L N C H W hP hL, Option.bind_eq_bind, Option.some_bind, hP1,
    accumulateChk_eq _ C hw, Blob.write, h0, if_true, Option.pure_def]
  cases htop : top.top1 with
  | none => rfl
  | some t =>
    have hc := h1 t htop
    have e := perClassLoopChk_eq (scan P L) C hw
      { t with cpu_data := caffe_set t.count (Dtype.fin 0) t.cpu_data } hc
    simp only [Option.map_some', Option.bind_eq_bind]
    rw [e]
    rfl

/-- C12: on two blobs of shape N x C x H x W, for all loop indices `i < N`, `c < C`,
`j < H*W` the offset `(i*C + c)*(H*W) + j` is below `N*C*H*W`, the element count of both
blobs; the counter vectors have C entries; after `Reshape`, which fails no check,
`top[0]` has one entry and `top[1]` has C; and `Forward_cpu` run with every buffer and
vector access checked against its size reaches no failing access and returns the result
of `Forward_cpu`. -/
theorem no_out_of_range_access (self : IouAccuracyLayer) (P L : Blob) (top : Top)
    (N C H W : Nat) (hP : P.shape_ = [N, C, H, W]) (hL : L.shape_ = [N, C, H, W]) :
    (∀ i c j, i < N → c < C → j < H * W →
      offset C (H * W) i c j < N * C * H * W ∧ offset C (H * W) i c j < P.count ∧
      offset C (H * W) i c j < L.count) ∧
    WF C (scan P L) ∧
    (Reshape self P L top).2 = none ∧
    (Reshape self P L top).1.2.top0.count = 1 ∧
    (∀ t, (Reshape self P L top).1.2.top1 = some t → t.count = C) ∧
    Forward_cpu_chk (Reshape self P L top).1.1 P L (Reshape self P L top).1.2
      = some (Forward_cpu (Reshape self P L top).1.1 P L (Reshape self P L top).1.2) := by
  have hsh : P.shape_ = L.shape_ := hP.trans hL.symm
  have hP1 : P.shape 1 = C := by simp [Blob.shape, hP]
  have hL1 : L.shape 1 = C := by simp [Blob.shape, hL]
  have hcP : P.count = N * C * (H * W) := by simp [Blob.count, hP, Nat.mul_assoc]
  have hcL : L.count = N * C * (H * W) := by simp [Blob.count, hL, Nat.mul_assoc]
  have hw : WF C (scan P L) := by
    have h := scan_WF P L hsh
    rwa [hL1] at h
  have hR : (Reshape self P L top).2 = none ∧
      (Reshape self P L top).1.2.top0.count = 1 ∧
      (∀ t, (Reshape self P L top).1.2.top1 = some t → t.count = C) := by
    cases htop : top.top1 with
    | none =>
      rw [Reshape_matched_none self P L top hsh htop]
      refine ⟨rfl, rfl, ?_⟩
      intro t ht
      rw [htop] at ht
      exact absurd ht (by simp)
    | some t1 =>
      rw [Reshape_matched self P L top t1 hsh htop, hP1]
      refine ⟨rfl, rfl, ?_⟩
      intro t ht
      simp only [Option.some.injEq] at ht
      rw [← ht]
      simp [Blob.count, Blob.Reshape]
  refine ⟨?_, hw, hR.1, hR.2.1, hR.2.2, ?_⟩
  · intro i c j hi hc hj
    have h := offset_lt N C (H * W) i c j hi hc hj
    rw [hcP, hcL, Nat.mul_assoc (N * C) H W]
    exact ⟨h, h, h⟩
  · apply Forward_cpu_chk_eq _ P L _ N C H W hP hL
    · rw [hR.2.1]
      exact Nat.one_pos
    · intro t ht
      exact (hR.2.2 t ht).le

/-- Witness of C12 on the scenario of the specification: the checked run succeeds;
against a label blob with a single class the checked run fails, so the checks are live. -/
theorem no_out_of_range_access_witness :
    predA.shape_ = [1, 2, 1, 1] ∧ labelA.shape_ = [1, 2, 1, 1] ∧
    Forward_cpu_chk (Reshape layer0 predA labelA top2).1.1 predA labelA
        (Reshape layer0 predA labelA top2).1.2
      = some (Forward_cpu (Reshape layer0 predA labelA top2).1.1 predA labelA
          (Reshape layer0 predA labelA top2).1.2) ∧
    scanChk predA labelSmall = none :=
  ⟨rfl, rfl, (no_out_of_range_access layer0 predA labelA top2 1 2 1 1 rfl rfl).2.2.2.2.2, by
    norm_num [scanChk, batchStepChk, positionStepChk, labelStepChk, Blob.read, Blob.count,
      predA, labelSmall, blobOf, Blob.shape, List.range_succ, List.replicate_succ, bumpChk,
      vecGet, vecSet, Dtype.gt, GTHRESH]⟩

/-! ## C19: the order of the positions -/

/-- Counting the elements whose image under a bijection of the set satisfies `q` is
counting the elements that satisfy `q`. -/
theorem card_filter_bijOn {α : Type} [DecidableEq α] (s : Finset α) (σ : α → α)
    (hσ : Set.BijOn σ (s : Set α) (s : Set α)) (q : α → Prop) [DecidablePred q] :
    (s.filter (fun a => q (σ a))).card = (s.filter q).card := by
  apply Finset.card_bij (fun a _ => σ a)
  · intro a ha
    rw [Finset.mem_filter] at ha ⊢
    exact ⟨Finset.mem_coe.mp (hσ.mapsTo (Finset.mem_coe.mpr ha.1)), ha.2⟩
  · intro a ha b hb hab
    exact hσ.injOn (Finset.mem_coe.mpr (Finset.mem_filter.mp ha).1)
      (Finset.mem_coe.mpr (Finset.mem_filter.mp hb).1) hab
  · intro b hb
    rw [Finset.mem_filter] at hb
    obtain ⟨a, ha, hab⟩ := hσ.surjOn (Finset.mem_coe.mpr hb.1)
    refine ⟨a, Finset.mem_filter.mpr ⟨Finset.mem_coe.mp ha, ?_⟩, hab⟩
    rw [hab]
    exact hb.2

/-- Two vectors of the same size with the same entries are equal. -/
theorem list_eq_of_getD (l1 l2 : List Nat) (C : Nat) (h1 : l1.length = C) (h2 : l2.length = C)
    (h : ∀ c, c < C → l1.getD c 0 = l2.getD c 0) : l1 = l2 := by
  apply List.ext_getElem (h1.trans h2.symm)
  intro i hi1 hi2
  have := h i (by rw [← h1]; exact hi1)
  rwa [List.getD_eq_getElem _ _ hi1, List.getD_eq_getElem _ _ hi2] at this

/-- A permuted blob has the positions of the original. -/
theorem positions_permuted (σ : Nat × Nat → Nat × Nat) (A B : Blob) (h : IsPermuted σ A B) :
    positions B = positions A := by
  unfold positions Blob.shape
  rw [h.1]

/-- The gate at a position of a permuted label blob is the gate at the image position. -/
theorem isScored_permuted (σ : Nat × Nat → Nat × Nat) (L L2 : Blob) (h : IsPermuted σ L L2)
    (np : Nat × Nat) (hnp : np ∈ positions L) :
    isScored L2 np.1 np.2 = isScored L (σ np).1 (σ np).2 := by
  have hm : np.1 < L.shape 0 ∧ np.2 < L.shape 2 * L.shape 3 := by
    simpa [positions] using hnp
  have hC : L2.shape 1 = L.shape 1 := by
    unfold Blob.shape
    rw [h.1]
  have hel : ∀ c, c < L.shape 1 → L2.elem np.1 c np.2 = L.elem (σ np).1 c (σ np).2 :=
    fun c hc => h.2 np.1 c np.2 hm.1 hc hm.2
  have hnz : nzRef L2 np.1 np.2 = nzRef L (σ np).1 (σ np).2 := by
    unfold nzRef isPresent
    rw [hC]
    congr 1
    apply Finset.filter_congr
    intro c hc
    rw [hel c (Finset.mem_range.mp hc)]
  have hex : (∃ c ∈ Finset.range (L.shape 1), isExpected L2 np.1 c np.2 = true) ↔
      (∃ c ∈ Finset.range (L.shape 1), isExpected L (σ np).1 c (σ np).2 = true) := by
    constructor
    · rintro ⟨c, hc, he⟩
      refine ⟨c, hc, ?_⟩
      unfold isExpected at he ⊢
      rwa [hel c (Finset.mem_range.mp hc)] at he
    · rintro ⟨c, hc, he⟩
      refine ⟨c, hc, ?_⟩
      unfold isExpected at he ⊢
      rwa [hel c (Finset.mem_range.mp hc)]
  unfold isScored
  rw [hnz, hC]
  exact decide_eq_decide.mpr (or_congr Iff.rfl hex)

/-- The reference counts of a class are the same for permuted blobs. -/
theorem refs_permuted (σ : Nat × Nat → Nat × Nat) (P L P2 L2 : Blob)
    (hsh : P.shape_ = L.shape_)
    (hσ : Set.BijOn σ (positions L : Set (Nat × Nat)) (positions L : Set (Nat × Nat)))
    (hP2 : IsPermuted σ P P2) (hL2 : IsPermuted σ L L2) (c : Nat) (hc : c < L.shape 1) :
    presentCountRef L2 c = presentCountRef L c ∧
    truePositiveRef P2 L2 c = truePositiveRef P L c ∧
    falseNegativeRef P2 L2 c = falseNegativeRef P L c ∧
    falsePositiveRef P2 L2 c = falsePositiveRef P L c := by
  have hPs : ∀ a, P.shape a = L.shape a := fun a => by simp [Blob.shape, hsh]
  have hm : ∀ np ∈ positions L, np.1 < L.shape 0 ∧ np.2 < L.shape 2 * L.shape 3 := by
    intro np hnp
    simpa [positions] using hnp
  have hpres : ∀ np ∈ positions L,
      isPresent L2 np.1 c np.2 = isPresent L (σ np).1 c (σ np).2 := by
    intro np hnp
    unfold isPresent
    rw [hL2.2 np.1 c np.2 (hm np hnp).1 hc (hm np hnp).2]
  have hexp : ∀ np ∈ positions L,
      isExpected L2 np.1 c np.2 = isExpected L (σ np).1 c (σ np).2 := by
    intro np hnp
    unfold isExpected
    rw [hL2.2 np.1 c np.2 (hm np hnp).1 hc (hm np hnp).2]
  have hprd : ∀ np ∈ positions L,
      isPredicted P2 np.1 c np.2 = isPredicted P (σ np).1 c (σ np).2 := by
    intro np hnp
    unfold isPredicted
    rw [hP2.2 np.1 c np.2 (by rw [hPs]; exact (hm np hnp).1) (by rw [hPs]; exact hc)
      (by rw [hPs, hPs]; exact (hm np hnp).2)]
  have hsc : ∀ np ∈ positions L, isScored L2 np.1 np.2 = isScored L (σ np).1 (σ np).2 :=
    fun np hnp => isScored_permuted σ L L2 hL2 np hnp
  refine ⟨?_, ?_, ?_, ?_⟩
  · unfold presentCountRef
    rw [positions_permuted σ L L2 hL2,
      Finset.filter_congr (q := fun np => isPresent L (σ np).1 c (σ np).2 = true)
        (fun np hnp => by rw [hpres np hnp])]
    exact card_filter_bijOn (positions L) σ hσ (fun x => isPresent L x.1 c x.2 = true)
  · unfold truePositiveRef
    rw [positions_permuted σ L L2 hL2,
      Finset.filter_congr (q := fun np => isScored L (σ np).1 (σ np).2 = true ∧
          isExpected L (σ np).1 c (σ np).2 = true ∧ isPredicted P (σ np).1 c (σ np).2 = true)
        (fun np hnp => by rw [hsc np hnp, hexp np hnp, hprd np hnp])]
    exact card_filter_bijOn (positions L) σ hσ (fun x => isScored L x.1 x.2 = true ∧
      isExpected L x.1 c x.2 = true ∧ isPredicted P x.1 c x.2 = true)
  · unfold falseNegativeRef
    rw [positions_permuted σ L L2 hL2,
      Finset.filter_congr (q := fun np => isScored L (σ np).1 (σ np).2 = true ∧
          isExpected L (σ np).1 c (σ np).2 = true ∧ ¬ isPredicted P (σ np).1 c (σ np).2 = true)
        (fun np hnp => by rw [hsc np hnp, hexp np hnp, hprd np hnp])]
    exact card_filter_bijOn (positions L) σ hσ (fun x => isScored L x.1 x.2 = true ∧
      isExpected L x.1 c x.2 = true ∧ ¬ isPredicted P x.1 c x.2 = true)
  · unfold falsePositiveRef
    rw [positions_permuted σ L L2 hL2,
      Finset.filter_congr (q := fun np => isScored L (σ np).1 (σ np).2 = true ∧
          ¬ isExpected L (σ np).1 c (σ np).2 = true ∧ isPredicted P (σ np).1 c (σ np).2 = true)
        (fun np hnp => by rw [hsc np hnp, hexp np hnp, hprd np hnp])]
    exact card_filter_bijOn (positions L) σ hσ (fun x => isScored L x.1 x.2 = true ∧
      ¬ isExpected L x.1 c x.2 = true ∧ isPredicted P x.1 c x.2 = true)

/-- The four counter vectors after the scan are the same for permuted blobs. -/
theorem scan_permuted (σ : Nat × Nat → Nat × Nat) (P L P2 L2 : Blob)
    (hsh : P.shape_ = L.shape_)
    (hσ : Set.BijOn σ (positions L : Set (Nat × Nat)) (positions L : Set (Nat × Nat)))
    (hP2 : IsPermuted σ P P2) (hL2 : IsPermuted σ L L2) :
    (scan P2 L2).tr = (scan P L).tr ∧ (scan P2 L2).tp = (scan P L).tp ∧
    (scan P2 L2).fp = (scan P L).fp ∧ (scan P2 L2).fn = (scan P L).fn := by
  have hsh2 : P2.shape_ = L2.shape_ := by rw [hP2.1, hL2.1, hsh]
  have hC : L2.shape 1 = L.shape 1 := by
    unfold Blob.shape
    rw [hL2.1]
  obtain ⟨_, a1, a2, a3, a4⟩ := scan_WF P L hsh
  obtain ⟨_, b1, b2, b3, b4⟩ := scan_WF P2 L2 hsh2
  rw [hC] at b1 b2 b3 b4
  have key : ∀ c, c < L.shape 1 →
      (scan P2 L2).tr.getD c 0 = (scan P L).tr.getD c 0 ∧
      (scan P2 L2).tp.getD c 0 = (scan P L).tp.getD c 0 ∧
      (scan P2 L2).fn.getD c 0 = (scan P L).fn.getD c 0 ∧
      (scan P2 L2).fp.getD c 0 = (scan P L).fp.getD c 0 := by
    intro c hc
    obtain ⟨x1, x2, x3, x4⟩ := scan_spec P L hsh c hc
    obtain ⟨y1, y2, y3, y4⟩ := scan_spec P2 L2 hsh2 c (by rw [hC]; exact hc)
    obtain ⟨r1, r2, r3, r4⟩ := refs_permuted σ P L P2 L2 hsh hσ hP2 hL2 c hc
    rw [x1, x2, x3, x4, y1, y2, y3, y4]
    exact ⟨r1, r2, r3, r4⟩
  exact ⟨list_eq_of_getD _ _ _ b4 a4 (fun c hc => (key c hc).1),
    list_eq_of_getD _ _ _ b1 a1 (fun c hc => (key c hc).2.1),
    list_eq_of_getD _ _ _ b2 a2 (fun c hc => (key c hc).2.2.2),
    list_eq_of_getD _ _ _ b3 a3 (fun c hc => (key c hc).2.2.1)⟩

/-- C19: for every shape-matched input and every bijection of the (batch, position)
pairs applied to the prediction and to the label blob alike, with the classes of a
position kept together, the four counter vectors after the scan, the scalar and, after
`Reshape` and `Forward_cpu`, the shape and the entries of the per-class output are the
same as for the original blobs. -/
theorem position_order_independence (self : IouAccuracyLayer) (P L P2 L2 : Blob) (top : Top)
    (N C H W : Nat) (σ : Nat × Nat → Nat × Nat)
    (hP : P.shape_ = [N, C, H, W]) (hL : L.shape_ = [N, C, H, W])
    (hσ : Set.BijOn σ (positions L : Set (Nat × Nat)) (positions L : Set (Nat × Nat)))
    (hP2 : IsPermuted σ P P2) (hL2 : IsPermuted σ L L2) :
    (scan P2 L2).tr = (scan P L).tr ∧ (scan P2 L2).tp = (scan P L).tp ∧
    (scan P2 L2).fp = (scan P L).fp ∧ (scan P2 L2).fn = (scan P L).fn ∧
    scalarOut self P2 L2 top = scalarOut self P L top ∧
    (Forward_cpu (Reshape self P2 L2 top).1.1 P2 L2 (Reshape self P2 L2 top).1.2).2.top1.map
        Blob.shape_
      = (Forward_cpu (Reshape self P L top).1.1 P L (Reshape self P L top).1.2).2.top1.map
          Blob.shape_ ∧
    (∀ c, c < C →
      (Forward_cpu (Reshape self P2 L2 top).1.1 P2 L2 (Reshape self P2 L2 top).1.2).2.top1.map
          (fun t => t.cpu_data c)
        = (Forward_cpu (Reshape self P L top).1.1 P L (Reshape self P L top).1.2).2.top1.map
            (fun t => t.cpu_data c)) := by
  have hsh : P.shape_ = L.shape_ := hP.trans hL.symm
  have hsh2 : P2.shape_ = L2.shape_ := by rw [hP2.1, hL2.1, hsh]
  have hC : P.shape 1 = C := by simp [Blob.shape, hP]
  have hC2 : P2.shape 1 = C := by simp [Blob.shape, hP2.1, hP]
  obtain ⟨e1, e2, e3, e4⟩ := scan_permuted σ P L P2 L2 hsh hσ hP2 hL2
  have hiou : iou (scan P2 L2) = iou (scan P L) := by
    funext c
    unfold iou
    rw [e2, e3, e4]
  obtain ⟨_, _, a3, a4⟩ := outputs_after_reshape self P L top C hsh hC
  obtain ⟨_, _, b3, b4⟩ := outputs_after_reshape self P2 L2 top C hsh2 hC2
  refine ⟨e1, e2, e3, e4, ?_, ?_, ?_⟩
  · rw [scalarOut_eq_scan, scalarOut_eq_scan, hC, hC2, hiou, e1]
  · rw [a3, b3]
  · intro c hc
    rw [a4 c hc, b4 c hc, hiou, e1]

/-- Witness of C19: two batch items with predictions (0.5, 0.0) and labels (0.5, 0.25),
and the same with the batch items exchanged, give the same counters and scalar. -/
theorem position_order_independence_witness :
    predS.shape_ = [2, 1, 1, 1] ∧ labelS.shape_ = [2, 1, 1, 1] ∧
    Set.BijOn swapBatch (positions labelS : Set (Nat × Nat))
      (positions labelS : Set (Nat × Nat)) ∧
    IsPermuted swapBatch predS predS2 ∧ IsPermuted swapBatch labelS labelS2 ∧
    predS2.elem 0 0 0 ≠ predS.elem 0 0 0 ∧
    (scan predS2 labelS2).tr = (scan predS labelS).tr ∧
    (scan predS2 labelS2).tp = (scan predS labelS).tp ∧
    scalarOut layer0 predS2 labelS2 top2 = scalarOut layer0 predS labelS top2 := by
  have hmem : ∀ np : Nat × Nat, np ∈ (positions labelS : Set (Nat × Nat)) ↔
      np.1 < 2 ∧ np.2 < 1 := by
    intro np
    rw [Finset.mem_coe]
    unfold positions
    rw [Finset.mem_product, Finset.mem_range, Finset.mem_range]
    exact Iff.rfl
  have hσ : Set.BijOn swapBatch (positions labelS : Set (Nat × Nat))
      (positions labelS : Set (Nat × Nat)) := by
    refine ⟨?_, ?_, ?_⟩
    · intro np h
      rw [hmem] at h ⊢
      simp only [swapBatch]
      omega
    · intro a ha b hb hab
      rw [hmem] at ha hb
      simp only [swapBatch, Prod.mk.injEq] at hab
      exact Prod.ext (by omega) hab.2
    · intro b hb
      rw [hmem] at hb
      refine ⟨(1 - b.1, b.2), (hmem _).mpr (by simp only []; omega), ?_⟩
      simp only [swapBatch]
      exact Prod.ext (by simp only []; omega) rfl
  have hPp : IsPermuted swapBatch predS predS2 := by
    refine ⟨rfl, ?_⟩
    intro n c p hn hc hp
    have hn2 : n < 2 := hn
    have hc0 : c = 0 := Nat.lt_one_iff.mp hc
    have hp0 : p = 0 := Nat.lt_one_iff.mp hp
    subst hc0 hp0
    interval_cases n <;>
      norm_num [Blob.elem, predS, predS2, blobOf, Blob.shape, swapBatch]
  have hLp : IsPermuted swapBatch labelS labelS2 := by
    refine ⟨rfl, ?_⟩
    intro n c p hn hc hp
    have hn2 : n < 2 := hn
    have hc0 : c = 0 := Nat.lt_one_iff.mp hc
    have hp0 : p = 0 := Nat.lt_one_iff.mp hp
    subst hc0 hp0
    interval_cases n <;>
      norm_num [Blob.elem, labelS, labelS2, blobOf, Blob.shape, swapBatch]
  obtain ⟨h1, h2, _, _, h5, _⟩ :=
    position_order_independence layer0 predS labelS predS2 labelS2 top2 2 1 1 1 swapBatch
      rfl rfl hσ hPp hLp
  exact ⟨rfl, rfl, hσ, hPp, hLp,
    by norm_num [Blob.elem, predS, predS2, blobOf, Blob.shape], h1, h2, h5⟩

end IouAccuracy
